import Mathlib

/-!
# MxEngine: reference-counted resource handles over pooled arenas

A shallow embedding of `src/Utilities/AbstractFactory/AbstractFactory.h`:

* `ManagedResource<T>`: a value with its identity token and reference count;
* `Resource<T, Factory>`: the handle `(uuid, handle)` and its operations;
* `FactoryImpl<T, Args...>`: the chain of pools, one per registered type;
* `AbstractFactoryImpl<Args...>`: the static `factory` pointer with
  `Init`, `Clone`, `Get`, `Create` and `Destroy`.

`size_t` values are natural numbers; arithmetic on the reference count is
taken modulo `2 ^ 64`.  Operations whose C++ behaviour is undefined (a null
`factory`, an out-of-range subscript, a deallocation the pool does not accept)
evaluate to `none`.

All resource types share one value domain `V`; a resource type is a tag `T`
of a type `Ty` with decidable equality (the template argument).
-/

namespace MxEngine

/-! ## Identity tokens -/

/-- Identity token of a resource (`UUID`). -/
abbrev UUID := Nat

/-- Modelled from the spec: `UUIDGenerator` (`Utilities/UUID/UUID.h` is not
part of the sources).  The spec describes a single process-wide counter whose
`Next` is strictly greater than every token issued before, and one reserved
null token.  The state is the last token issued. -/
structure UUIDGenerator where
  issued : Nat
  deriving DecidableEq, Repr

/-- Modelled from the spec: `UUIDGenerator::GetNull()`, the reserved token that
denotes "no resource". -/
def UUIDGenerator.GetNull : UUID := 0

/-- Modelled from the spec: `UUIDGenerator::Get()`, the next token of the
counter together with the advanced generator. -/
def UUIDGenerator.Get (g : UUIDGenerator) : UUID × UUIDGenerator :=
  (g.issued + 1, ⟨g.issued + 1⟩)

/-! ## `size_t` -/

/-- Number of values of `size_t` (64 bit). -/
def SIZE_MODULUS : Nat := 18446744073709551616

/-- `Resource::InvalidHandle = std::numeric_limits<size_t>::max()`. -/
def InvalidHandle : Nat := 18446744073709551615

/-- `refCount++` on a `size_t`. -/
def sizeInc (n : Nat) : Nat := (n + 1) % SIZE_MODULUS

/-- `refCount--` on a `size_t`. -/
def sizeDec (n : Nat) : Nat := (n + (SIZE_MODULUS - 1)) % SIZE_MODULUS

/-! ## `ManagedResource<T>` -/

/-- `struct ManagedResource`: token, value and reference count. -/
structure ManagedResource (V : Type) where
  uuid : UUID
  value : V
  refCount : Nat
  deriving DecidableEq, Repr

/-- `ManagedResource(UUID uuid, Args&&... value)`: the value is built from the
forwarded arguments by the constructor `build` of the resource type; the
default member initialiser sets `refCount = 0`. -/
def ManagedResource.construct {V A : Type} (uuid : UUID) (build : A → V) (args : A) :
    ManagedResource V :=
  { uuid := uuid, value := build args, refCount := 0 }

/-- `~ManagedResource()`: `uuid = UUIDGenerator::GetNull()`. -/
def ManagedResource.destruct {V : Type} (m : ManagedResource V) : ManagedResource V :=
  { m with uuid := UUIDGenerator.GetNull }

/-! ## `VectorPool` -/

/-- Modelled from the spec: one storage cell of the pooled arena
(`Utilities/VectorPool/VectorPool.h` is not part of the sources).  A cell is
either allocated (live) or free; a free cell keeps the storage of the slot
that was retired in it. -/
structure PoolCell (V : Type) where
  allocated : Bool
  storage : ManagedResource V
  deriving DecidableEq, Repr

/-- Modelled from the spec: `VectorPool<ManagedResource<T>>`, the pooled arena:
"a mapping from slot index to managed slot".  Storage is only ever appended,
so the cell at an index never moves. -/
structure VectorPool (V : Type) where
  cells : List (PoolCell V)
  deriving DecidableEq, Repr

/-- Modelled from the spec: lowest index of a free cell, if there is one. -/
def lowestFree {V : Type} : List (PoolCell V) → Option Nat
  | [] => none
  | c :: cs => if c.allocated then (lowestFree cs).map (· + 1) else some 0

/-- Modelled from the spec: `VectorPool::Allocate(args...)`: "constructs a new
managed slot in a free or newly appended storage cell; returns its stable
index", the "lowest available or freshly appended index". -/
def VectorPool.Allocate {V A : Type} (pool : VectorPool V) (uuid : UUID) (build : A → V)
    (args : A) : Nat × VectorPool V :=
  match lowestFree pool.cells with
  | some i => (i, ⟨pool.cells.set i ⟨true, ManagedResource.construct uuid build args⟩⟩)
  | none =>
    (pool.cells.length, ⟨pool.cells ++ [⟨true, ManagedResource.construct uuid build args⟩]⟩)

/-- Modelled from the spec: `VectorPool::Deallocate(index)`: "retires the slot
at index (clears identity token to null, destroys the contained value); the
index becomes eligible for reuse".  "Deallocating an already-free or
out-of-range index is a caller error", not re-checked by the pool: `none`. -/
def VectorPool.Deallocate {V : Type} (pool : VectorPool V) (index : Nat) :
    Option (VectorPool V) :=
  match pool.cells[index]? with
  | some c =>
    if c.allocated then some ⟨pool.cells.set index ⟨false, c.storage.destruct⟩⟩ else none
  | none => none

/-- Modelled from the spec: `VectorPool::operator[](index)`, "unchecked access":
the storage of the cell at `index`, whether live or retired; `none` when the
index is outside the storage. -/
def VectorPool.subscript {V : Type} (pool : VectorPool V) (index : Nat) :
    Option (ManagedResource V) :=
  (pool.cells[index]?).map (fun c => c.storage)

/-- Write through the reference returned by `operator[]`: replace the storage
of the cell at `index` by `f` of it. -/
def VectorPool.update {V : Type} (pool : VectorPool V) (index : Nat)
    (f : ManagedResource V → ManagedResource V) : VectorPool V :=
  match pool.cells[index]? with
  | some c => ⟨pool.cells.set index { c with storage := f c.storage }⟩
  | none => pool

/-! ## `FactoryImpl<T, Args...>` -/

/-- The recursive template `FactoryImpl<T, Args...> : FactoryImpl<Args...>` and
its base case `FactoryImpl<T>`: every node holds the pool of its type. -/
inductive FactoryImpl (Ty V : Type) where
  | last (T : Ty) (pool : VectorPool V) : FactoryImpl Ty V
  | node (T : Ty) (pool : VectorPool V) (base : FactoryImpl Ty V) : FactoryImpl Ty V
  deriving DecidableEq, Repr

/-- `FactoryImpl::GetPool<U>()`: this node's pool when `U` is its type, else the
base class is asked; in the base case the `static_assert` rejects any other
type (`none`: such a program does not compile). -/
def FactoryImpl.GetPool {Ty V : Type} [DecidableEq Ty] :
    FactoryImpl Ty V → Ty → Option (VectorPool V)
  | .last T pool, U => if T = U then some pool else none
  | .node T pool base, U => if T = U then some pool else base.GetPool U

/-- Assignment through the reference returned by `GetPool<U>()`. -/
def FactoryImpl.setPool {Ty V : Type} [DecidableEq Ty] :
    FactoryImpl Ty V → Ty → VectorPool V → FactoryImpl Ty V
  | .last T pool, U, p => if T = U then .last T p else .last T pool
  | .node T pool base, U, p =>
    if T = U then .node T p base else .node T pool (base.setPool U p)

/-- A default-constructed `FactoryImpl<T, Args...>`: every pool is empty. -/
def FactoryImpl.fresh {Ty V : Type} : Ty → List Ty → FactoryImpl Ty V
  | T, [] => .last T ⟨[]⟩
  | T, U :: rest => .node T ⟨[]⟩ (FactoryImpl.fresh U rest)

/-! ## Program state -/

/-- The state the factory code runs in: the `Factory` objects in memory (an
address is a position in `heap`), the static pointer
`AbstractFactoryImpl::factory` (`none` is `nullptr`) and the token generator. -/
structure Engine (Ty V : Type) where
  heap : List (FactoryImpl Ty V)
  factory : Option Nat
  uuids : UUIDGenerator
  deriving DecidableEq, Repr

namespace AbstractFactoryImpl

variable {Ty V : Type} [DecidableEq Ty]

/-- `AbstractFactoryImpl::GetImpl()`. -/
def GetImpl (e : Engine Ty V) : Option Nat := e.factory

/-- `AbstractFactoryImpl::Init()`: `if (factory == nullptr) factory =
Alloc<Factory>()`, for the type list `T, Args...` of the instantiation. -/
def Init (T : Ty) (Args : List Ty) (e : Engine Ty V) : Engine Ty V :=
  match e.factory with
  | none =>
    { e with heap := e.heap ++ [FactoryImpl.fresh T Args], factory := some e.heap.length }
  | some _ => e

/-- `AbstractFactoryImpl::Clone(other)`: `factory = other`. -/
def Clone (other : Option Nat) (e : Engine Ty V) : Engine Ty V :=
  { e with factory := other }

/-- `AbstractFactoryImpl::Get<U>()`: `factory->GetPool<U>()`; `none` when the
pointer is null or dangling. -/
def Get (e : Engine Ty V) (U : Ty) : Option (VectorPool V) :=
  match e.factory with
  | none => none
  | some p =>
    match e.heap[p]? with
    | none => none
    | some f => f.GetPool U

/-- Assignment through the reference returned by `Get<U>()`. -/
def setPool (e : Engine Ty V) (U : Ty) (pool : VectorPool V) : Engine Ty V :=
  match e.factory with
  | none => e
  | some p =>
    match e.heap[p]? with
    | none => e
    | some f => { e with heap := e.heap.set p (f.setPool U pool) }

end AbstractFactoryImpl

/-! ## `Resource<T, Factory>` -/

/-- `class Resource<T, Factory>`: the handle `(uuid, handle)` of a resource of
type `T`.  The debug-only `_resourcePtr` cache is never read and is left out. -/
structure Resource {Ty : Type} (T : Ty) where
  uuid : UUID
  handle : Nat
  deriving DecidableEq, Repr

/-- `T*` as returned by `operator->`: `nullptr` or the address of the value in
the cell `index` of the pool of `T`. -/
inductive Pointer where
  | null : Pointer
  | slot (index : Nat) : Pointer
  deriving DecidableEq, Repr

/-- How a call that contains `MX_ASSERT` ends: the assertion aborts the
program, or the call returns. -/
inductive Outcome (α : Type) where
  | aborted : Outcome α
  | returned (a : α) : Outcome α
  deriving DecidableEq, Repr

namespace Resource

variable {Ty V : Type} [DecidableEq Ty] {T : Ty}

/-- `Resource::DereferenceHandle(handle)`: `Factory::Get((T*)nullptr)[handle]`. -/
def DereferenceHandle (e : Engine Ty V) (_r : Resource T) (handle : Nat) :
    Option (ManagedResource V) :=
  match AbstractFactoryImpl.Get e T with
  | none => none
  | some pool => pool.subscript handle

/-- `Resource::IsValid()`:
`handle != InvalidHandle && DereferenceHandle(handle).uuid == uuid`. -/
def IsValid (e : Engine Ty V) (r : Resource T) : Option Bool :=
  if r.handle ≠ InvalidHandle then
    match DereferenceHandle e r r.handle with
    | none => none
    | some m => some (decide (m.uuid = r.uuid))
  else some false

/-- The write `DereferenceHandle(handle).refCount = f(refCount)`. -/
def writeRefCount (e : Engine Ty V) (r : Resource T) (f : Nat → Nat) : Option (Engine Ty V) :=
  match AbstractFactoryImpl.Get e T with
  | none => none
  | some pool =>
    some (AbstractFactoryImpl.setPool e T
      (pool.update r.handle (fun m => { m with refCount := f m.refCount })))

/-- `Resource::IncRef()`: `if (IsValid()) DereferenceHandle(handle).refCount++`. -/
def IncRef (e : Engine Ty V) (r : Resource T) : Option (Engine Ty V) :=
  match IsValid e r with
  | none => none
  | some true => writeRefCount e r sizeInc
  | some false => some e

/-- `Resource::DecRef()`: `if (IsValid()) DereferenceHandle(handle).refCount--`. -/
def DecRef (e : Engine Ty V) (r : Resource T) : Option (Engine Ty V) :=
  match IsValid e r with
  | none => none
  | some true => writeRefCount e r sizeDec
  | some false => some e

/-- `Resource()`: null token and `InvalidHandle`. -/
def null : Resource T := ⟨UUIDGenerator.GetNull, InvalidHandle⟩

/-- `Resource(UUID uuid, size_t handle)`: stores the pair, then `IncRef()`. -/
def construct (e : Engine Ty V) (uuid : UUID) (handle : Nat) :
    Option (Engine Ty V × Resource T) :=
  let this : Resource T := ⟨uuid, handle⟩
  (IncRef e this).map (fun e1 => (e1, this))

/-- `Resource(const Resource& wrapper)`: copies the pair, then `IncRef()`. -/
def copyConstruct (e : Engine Ty V) (wrapper : Resource T) :
    Option (Engine Ty V × Resource T) :=
  let this : Resource T := ⟨wrapper.uuid, wrapper.handle⟩
  (IncRef e this).map (fun e1 => (e1, this))

/-- `operator=(const Resource& wrapper)`: `DecRef()`, copy the pair,
`IncRef()`.  The result is the engine and the assigned handle `*this`. -/
def copyAssign (e : Engine Ty V) (this wrapper : Resource T) :
    Option (Engine Ty V × Resource T) :=
  match DecRef e this with
  | none => none
  | some e1 =>
    let this1 : Resource T := ⟨wrapper.uuid, wrapper.handle⟩
    (IncRef e1 this1).map (fun e2 => (e2, this1))

/-- `Resource(Resource&& wrapper)`: takes the pair and sets
`wrapper.handle = InvalidHandle`; no statement of the body touches the
factory.  The result is the engine after the call, `*this` and `wrapper`. -/
def moveConstruct (e : Engine Ty V) (wrapper : Resource T) :
    Engine Ty V × Resource T × Resource T :=
  (e, ⟨wrapper.uuid, wrapper.handle⟩, { wrapper with handle := InvalidHandle })

/-- `Resource::GetUnchecked()`: `&DereferenceHandle(handle).value`. -/
def GetUnchecked (e : Engine Ty V) (r : Resource T) : Option Pointer :=
  (DereferenceHandle e r r.handle).map (fun _ => Pointer.slot r.handle)

/-- `Resource::operator->()` (the const and the non-const overload have the same
body): `MX_ASSERT(IsValid()); if (!IsValid()) return nullptr; return
GetUnchecked();`.  `MX_ASSERT` is not part of the sources: with `debugBuild` it
aborts on a false condition, otherwise it expands to nothing. -/
def arrow (debugBuild : Bool) (e : Engine Ty V) (r : Resource T) : Option (Outcome Pointer) :=
  let body : Option (Outcome Pointer) :=
    match IsValid e r with
    | none => none
    | some false => some (Outcome.returned Pointer.null)
    | some true => (GetUnchecked e r).map Outcome.returned
  if debugBuild then
    match IsValid e r with
    | none => none
    | some false => some Outcome.aborted
    | some true => body
  else body

/-- `Resource::GetHandle()`. -/
def GetHandle (r : Resource T) : Nat := r.handle

/-- `~Resource()`: `DecRef()`. -/
def destruct (e : Engine Ty V) (r : Resource T) : Option (Engine Ty V) :=
  DecRef e r

end Resource

/-- Reading the `T` value a pointer returned by `operator->` points to. -/
def Pointer.load {Ty V : Type} [DecidableEq Ty] (e : Engine Ty V) (T : Ty) :
    Pointer → Option V
  | .null => none
  | .slot index =>
    match AbstractFactoryImpl.Get e T with
    | none => none
    | some pool => (pool.subscript index).map (fun m => m.value)

namespace AbstractFactoryImpl

variable {Ty V : Type} [DecidableEq Ty]

/-- `AbstractFactoryImpl::Create<T>(args...)`: mint a token, allocate a slot in
the pool of `T`, return `Resource(uuid, index)`. -/
def Create {A : Type} (e : Engine Ty V) (T : Ty) (build : A → V) (args : A) :
    Option (Engine Ty V × Resource T) :=
  let minted := e.uuids.Get
  let e1 : Engine Ty V := { e with uuids := minted.2 }
  match Get e1 T with
  | none => none
  | some pool =>
    let allocation := pool.Allocate minted.1 build args
    Resource.construct (setPool e1 T allocation.2) minted.1 allocation.1

/-- `AbstractFactoryImpl::Destroy<T>(resource)`:
`factory->GetPool<T>().Deallocate(resource.GetHandle())`. -/
def Destroy {T : Ty} (e : Engine Ty V) (resource : Resource T) : Option (Engine Ty V) :=
  match Get e T with
  | none => none
  | some pool =>
    match pool.Deallocate resource.GetHandle with
    | none => none
    | some pool1 => some (setPool e T pool1)

end AbstractFactoryImpl

/-! ## Observations used in the statements -/

section Observations

variable {Ty V : Type} [DecidableEq Ty]

/-- The storage cell at `index` of the pool of `U`, if the factory is installed,
`U` is registered and the index is inside the storage. -/
def slotAt (e : Engine Ty V) (U : Ty) (index : Nat) : Option (PoolCell V) :=
  match AbstractFactoryImpl.Get e U with
  | none => none
  | some pool => pool.cells[index]?

/-- Reference count stored in the cell at `index` of the pool of `U`. -/
def refCountAt (e : Engine Ty V) (U : Ty) (index : Nat) : Option Nat :=
  (slotAt e U index).map (fun c => c.storage.refCount)

/-- Validity as the spec words it: "true iff index is in range, slot is live,
and stored token equals the handle's token". -/
def Resource.validBySpec {T : Ty} (e : Engine Ty V) (r : Resource T) : Bool :=
  match slotAt e T r.handle with
  | none => false
  | some c => c.allocated && decide (c.storage.uuid = r.uuid)

/-- Invariant of one storage cell in a state reached through the factory:
a retired cell holds the null token (left by `~ManagedResource`), a live cell
holds a non-null token the generator has issued, and the reference count is a
`size_t` value. -/
def PoolCell.WF (g : UUIDGenerator) (c : PoolCell V) : Prop :=
  (c.allocated = false → c.storage.uuid = UUIDGenerator.GetNull) ∧
  (c.allocated = true → c.storage.uuid ≠ UUIDGenerator.GetNull ∧ c.storage.uuid ≤ g.issued) ∧
  c.storage.refCount < SIZE_MODULUS

instance PoolCell.decidableWF (g : UUIDGenerator) (c : PoolCell V) : Decidable (c.WF g) := by
  unfold PoolCell.WF
  infer_instance

/-- Invariant of an arena: every index is a `size_t` below the reserved
`InvalidHandle`, and every cell is well formed. -/
def VectorPool.WF (g : UUIDGenerator) (pool : VectorPool V) : Prop :=
  pool.cells.length ≤ InvalidHandle ∧ ∀ c ∈ pool.cells, c.WF g

instance VectorPool.decidableWF (g : UUIDGenerator) (pool : VectorPool V) :
    Decidable (pool.WF g) := by
  unfold VectorPool.WF
  infer_instance

end Observations

/-! ## Sample states -/

/-- Two resource types for concrete runs. -/
inductive SampleType where
  | Mesh : SampleType
  | Texture : SampleType
  deriving DecidableEq, Repr

/-- The state right after `Init()` of a factory for `Mesh, Texture` in a fresh
process: one `Factory` object with two empty pools. -/
def sampleEngine : Engine SampleType Nat :=
  AbstractFactoryImpl.Init SampleType.Mesh [SampleType.Texture] ⟨[], none, ⟨0⟩⟩

/-- A state with two live `Mesh` slots (tokens 1 and 2, values 10 and 20, counts
1 and 2) and one retired slot. -/
def sampleLive : Engine SampleType Nat :=
  { heap := [FactoryImpl.node SampleType.Mesh
      ⟨[⟨true, ⟨1, 10, 1⟩⟩, ⟨true, ⟨2, 20, 2⟩⟩, ⟨false, ⟨0, 30, 0⟩⟩]⟩
      (FactoryImpl.last SampleType.Texture ⟨[]⟩)],
    factory := some 0,
    uuids := ⟨3⟩ }

/-- Invariant of the engine: every pool reachable through the installed factory
is well formed with respect to the token generator. -/
def Engine.WF {Ty V : Type} [DecidableEq Ty] (e : Engine Ty V) : Prop :=
  ∀ (U : Ty) (pool : VectorPool V), AbstractFactoryImpl.Get e U = some pool → pool.WF e.uuids

/-- The state reached from `sampleEngine` by `H1 = Create<Mesh>(10)` followed by
`Destroy(H1)`: slot 0 of the `Mesh` pool is retired and holds the null token. -/
def sampleRetired : Engine SampleType Nat :=
  { heap := [FactoryImpl.node SampleType.Mesh ⟨[⟨false, ⟨0, 10, 1⟩⟩]⟩
      (FactoryImpl.last SampleType.Texture ⟨[]⟩)],
    factory := some 0,
    uuids := ⟨1⟩ }

/-! ## Further operations and call sequences -/

section Sequences

variable {Ty V : Type} [DecidableEq Ty]

/-- `operator=(Resource&& wrapper)` on two handle objects: `DecRef()`, take the
pair, `wrapper.handle = InvalidHandle`.  The result is the engine after the
call, `*this` and `wrapper`. -/
def Resource.moveAssign {T : Ty} (e : Engine Ty V) (this wrapper : Resource T) :
    Option (Engine Ty V × Resource T × Resource T) :=
  match Resource.DecRef e this with
  | none => none
  | some e1 =>
    some (e1, ⟨wrapper.uuid, wrapper.handle⟩, { wrapper with handle := InvalidHandle })

/-- Any number of `Create<T>` calls in a row, one per argument list: the engine
after them and the handles they return. -/
def createMany {A : Type} (T : Ty) (build : A → V) :
    Engine Ty V → List A → Option (Engine Ty V × List (Resource T))
  | e, [] => some (e, [])
  | e, a :: rest =>
    match AbstractFactoryImpl.Create e T build a with
    | none => none
    | some (e1, h) =>
      match createMany T build e1 rest with
      | none => none
      | some (e2, hs) => some (e2, h :: hs)

/-- A sequence of `Create` calls of any types: the engine after them and the
tokens of the handles they return, in call order. -/
def createTokens {A : Type} (build : A → V) :
    Engine Ty V → List (Ty × A) → Option (Engine Ty V × List UUID)
  | e, [] => some (e, [])
  | e, (T, a) :: rest =>
    match AbstractFactoryImpl.Create e T build a with
    | none => none
    | some (e1, h) =>
      match createTokens build e1 rest with
      | none => none
      | some (e2, us) => some (e2, h.uuid :: us)

/-- One call of a client of the factory for the type `T`: `Create<T>(args)`, or
`Destroy<T>` on the handle that the `k`-th `Create` returned. -/
inductive FactoryCall (A : Type) where
  | create (args : A) : FactoryCall A
  | destroy (k : Nat) : FactoryCall A
  deriving DecidableEq, Repr

/-- Running a sequence of `Create<T>` and `Destroy<T>` calls, `Destroy` being
applied to valid handles only (any other sequence is not run: `none`).  The
state is the engine and the handles issued so far. -/
def runCalls {A : Type} (T : Ty) (build : A → V) :
    Engine Ty V → List (Resource T) → List (FactoryCall A) →
      Option (Engine Ty V × List (Resource T))
  | e, issued, [] => some (e, issued)
  | e, issued, FactoryCall.create args :: rest =>
    match AbstractFactoryImpl.Create e T build args with
    | none => none
    | some (e1, h) => runCalls T build e1 (issued ++ [h]) rest
  | e, issued, FactoryCall.destroy k :: rest =>
    match issued[k]? with
    | none => none
    | some h =>
      if h.IsValid e = some true then
        match AbstractFactoryImpl.Destroy e h with
        | none => none
        | some e1 => runCalls T build e1 issued rest
      else none

end Sequences

/-! ## Component-to-owner index -/

/-- Modelled from the spec: the component-to-owner index behind
`MxObject::GetByComponent` (`Core/MxObject/MxObject.h` is not part of the
sources): "a mapping from component identity to owning entity identity";
components and entities are identified by numbers. -/
structure OwnerIndex where
  entries : List (Nat × Nat)
  deriving DecidableEq, Repr

/-- Modelled from the spec: `Unregister(component)` "on detach/destroy": the
entry of the component is removed. -/
def OwnerIndex.Unregister (idx : OwnerIndex) (component : Nat) : OwnerIndex :=
  ⟨idx.entries.filter (fun p => p.1 ≠ component)⟩

/-- Modelled from the spec: `Register(component, owner)` "on attach": the
mapping gets the entry `component -> owner`, in place of an earlier one. -/
def OwnerIndex.Register (idx : OwnerIndex) (component owner : Nat) : OwnerIndex :=
  ⟨(component, owner) :: (idx.Unregister component).entries⟩

/-- Modelled from the spec: `OwnerOf(component)`, the reverse lookup
(`MxObject::GetByComponent`); `none` when the component has no entry, the
case the spec leaves undefined. -/
def OwnerIndex.OwnerOf (idx : OwnerIndex) (component : Nat) : Option Nat :=
  (idx.entries.find? (fun p => p.1 = component)).map (fun p => p.2)

/-- Two engines differ at most in reference counts: every cell of every pool has
the same liveness, token and value in both. -/
def sameUpToRefCounts {Ty V : Type} [DecidableEq Ty] (e e1 : Engine Ty V) : Prop :=
  ∀ (U : Ty) (i : Nat),
    (slotAt e U i).map (fun c => (c.allocated, c.storage.uuid, c.storage.value)) =
      (slotAt e1 U i).map (fun c => (c.allocated, c.storage.uuid, c.storage.value))

/-- The pool of the type `U` in the `Factory` object at the address `p`. -/
def poolAt {Ty V : Type} [DecidableEq Ty] (e : Engine Ty V) (p : Nat) (U : Ty) :
    Option (VectorPool V) :=
  match e.heap[p]? with
  | none => none
  | some f => f.GetPool U

/-- Invariant of the pool of `T` along a run of `Create<T>` and `Destroy<T>`
calls after `n` calls: the pool exists and has fewer than `n + 1` cells, a
retired cell holds the null token, the handle of every live cell has been
issued, and the issued handles carry distinct non-null tokens the generator
has issued. -/
def CallsInvariant {Ty V : Type} [DecidableEq Ty] (T : Ty) (e : Engine Ty V)
    (issued : List (Resource T)) (n : Nat) : Prop :=
  (∃ pool, AbstractFactoryImpl.Get e T = some pool) ∧
  (∀ j c, slotAt e T j = some c → j < n) ∧
  (∀ j c, slotAt e T j = some c → c.allocated = false →
    c.storage.uuid = UUIDGenerator.GetNull) ∧
  (∀ j c, slotAt e T j = some c → c.allocated = true →
    (⟨c.storage.uuid, j⟩ : Resource T) ∈ issued) ∧
  (∀ h ∈ issued, h.uuid ≠ UUIDGenerator.GetNull ∧ h.uuid ≤ e.uuids.issued) ∧
  issued.Pairwise (fun a b => a.uuid ≠ b.uuid)

/-! ## `Application`: resource ids and scenes -/

/-- A `Scene` object as far as `Application.cpp` looks at it: its address (the
`Scene*` that is compared and stored) and the name `GetName()` returns. -/
structure Scene where
  address : Nat
  name : String
  deriving DecidableEq, Repr

/-- Modelled from the spec: the container `Application::scenes` (its class is
not part of the sources, and the spec only speaks of "scene management"): a
finite map from names to the scenes it owns, with `Exists`, `Get` and
`Delete`. -/
structure SceneStorage where
  entries : List (String × Scene)
  deriving DecidableEq, Repr

/-- Modelled from the spec: `scenes.Get(name)`, the scene stored under `name`. -/
def SceneStorage.Get (st : SceneStorage) (name : String) : Option Scene :=
  (st.entries.find? (fun p => p.1 = name)).map (fun p => p.2)

/-- Modelled from the spec: `scenes.Exists(name)`. -/
def SceneStorage.Exists (st : SceneStorage) (name : String) : Bool :=
  (st.Get name).isSome

/-- Modelled from the spec: `scenes.Delete(name)`: the entry of `name` is
removed, the other entries stay. -/
def SceneStorage.Delete (st : SceneStorage) (name : String) : SceneStorage :=
  ⟨st.entries.filter (fun p => p.1 ≠ name)⟩

/-- The members of `Application` that `LoadScene`, `DestroyScene` and
`GenerateResourceId` read or write; `currentScene` is a `Scene*` (`none` is
`nullptr`). -/
structure Application where
  scenes : SceneStorage
  currentScene : Option Nat
  resourceIdCounter : Nat
  deriving DecidableEq, Repr

/-- A call of a virtual `Scene` callback, on the scene at the given address. -/
inductive SceneCall where
  | OnUnload (scene : Nat) : SceneCall
  | OnLoad (scene : Nat) : SceneCall
  deriving DecidableEq, Repr

namespace Application

/-- `Application::GetGlobalScene()`: `assert(scenes.Exists("Global")); return
*scenes.Get("Global")`; `none` when there is no such scene. -/
def GetGlobalScene (app : Application) : Option Scene :=
  app.scenes.Get "Global"

/-- `Application::LoadScene(name)`, with the callbacks it makes in call order.
The two refusals only log an error. -/
def LoadScene (app : Application) (name : String) : Option (Application × List SceneCall) :=
  match app.GetGlobalScene with
  | none => none
  | some globalScene =>
    if name = globalScene.name then some (app, [])
    else if ¬ app.scenes.Exists name then some (app, [])
    else
      let unload : List SceneCall :=
        match app.currentScene with
        | some previous => [SceneCall.OnUnload previous]
        | none => []
      match app.scenes.Get name with
      | none => none
      | some scene =>
        some ({ app with currentScene := some scene.address },
          unload ++ [SceneCall.OnLoad scene.address])

/-- `Application::DestroyScene(name)`.  The three refusals only log. -/
def DestroyScene (app : Application) (name : String) : Option Application :=
  match app.GetGlobalScene with
  | none => none
  | some globalScene =>
    if name = globalScene.name then some app
    else if ¬ app.scenes.Exists name then some app
    else
      match app.scenes.Get name with
      | none => none
      | some scene =>
        if some scene.address = app.currentScene then some app
        else some { app with scenes := app.scenes.Delete name }

/-- `Application::GenerateResourceId()`: `return resourceIdCounter++`.  The type
`Counter::CounterType` is declared outside the sources; `modulus` is the number
of its values. -/
def GenerateResourceId (modulus : Nat) (app : Application) : Nat × Application :=
  (app.resourceIdCounter,
    { app with resourceIdCounter := (app.resourceIdCounter + 1) % modulus })

/-- The ids returned by `n` successive calls of `GenerateResourceId`, and the
application after them. -/
def generateIds (modulus : Nat) : Application → Nat → List Nat × Application
  | app, 0 => ([], app)
  | app, n + 1 =>
    let first := GenerateResourceId modulus app
    let others := generateIds modulus first.2 n
    (first.1 :: others.1, others.2)

end Application

/-- An application as its constructor leaves it: the scenes `Global` and
`Default`, the latter loaded, plus a scene `Level`. -/
def sampleApp : Application :=
  { scenes := ⟨[("Global", ⟨100, "Global"⟩), ("Default", ⟨101, "Default"⟩),
      ("Level", ⟨102, "Level"⟩)]⟩,
    currentScene := some 101,
    resourceIdCounter := 3 }

/-! ## `SphereCollider` -/

/-- `BoundingSphere` as `SphereCollider.cpp` reads it: the field `Radius`, of a
type `R` standing for `float`. -/
structure BoundingSphere (R : Type) where
  Radius : R
  deriving DecidableEq, Repr

/-- The members of `SphereCollider` that `SphereCollider.cpp` writes: the
collider-changed flag kept by `ColliderBase` and the handle `sphereShape` of
type `Resource<SphereShape, PhysicsFactory>`. -/
structure SphereCollider {Ty : Type} (SphereShape : Ty) where
  colliderChanged : Bool
  sphereShape : Resource SphereShape
  deriving DecidableEq, Repr

namespace SphereCollider

variable {Ty V R : Type} [DecidableEq Ty] {SphereShape : Ty}

/-- `SphereCollider::CreateNewShape(sphere)`: `SetColliderChangedFlag(true);
sphereShape = PhysicsFactory::Create<SphereShape>(sphere.Radius);`, that is
`Create`, move assignment of the returned temporary to `sphereShape`, and
destruction of the temporary.  `build` is the constructor of `SphereShape`. -/
def CreateNewShape (build : R → V) (e : Engine Ty V) (this : SphereCollider SphereShape)
    (sphere : BoundingSphere R) : Option (Engine Ty V × SphereCollider SphereShape) :=
  match AbstractFactoryImpl.Create e SphereShape build sphere.Radius with
  | none => none
  | some (e1, temporary) =>
    match Resource.moveAssign e1 this.sphereShape temporary with
    | none => none
    | some (e2, assigned, moved) =>
      match Resource.destruct e2 moved with
      | none => none
      | some e3 => some (e3, { colliderChanged := true, sphereShape := assigned })

/-- `SphereCollider::UpdateCollider()`: `if (ShouldUpdateCollider(self))
CreateNewShape(ColliderBase::GetBoundingSphere(self))`; the answers of the two
`ColliderBase` functions about the owner are parameters. -/
def UpdateCollider (build : R → V) (shouldUpdate : Bool) (ownerSphere : BoundingSphere R)
    (e : Engine Ty V) (this : SphereCollider SphereShape) :
    Option (Engine Ty V × SphereCollider SphereShape) :=
  if shouldUpdate then CreateNewShape build e this ownerSphere else some (e, this)

/-- `SphereCollider::Init()`: `CreateNewShape(BoundingSphere()); UpdateCollider()`. -/
def Init (build : R → V) (defaultSphere : BoundingSphere R) (shouldUpdate : Bool)
    (ownerSphere : BoundingSphere R) (e : Engine Ty V) (this : SphereCollider SphereShape) :
    Option (Engine Ty V × SphereCollider SphereShape) :=
  match CreateNewShape build e this defaultSphere with
  | none => none
  | some (e1, this1) => UpdateCollider build shouldUpdate ownerSphere e1 this1

/-- `SphereCollider::SetBoundingSphere(sphere)`: `CreateNewShape(sphere)`. -/
def SetBoundingSphere (build : R → V) (e : Engine Ty V) (this : SphereCollider SphereShape)
    (sphere : BoundingSphere R) : Option (Engine Ty V × SphereCollider SphereShape) :=
  CreateNewShape build e this sphere

end SphereCollider

/-- Number of allocated cells in the pool of `U`. -/
def allocatedCount {Ty V : Type} [DecidableEq Ty] (e : Engine Ty V) (U : Ty) : Option Nat :=
  (AbstractFactoryImpl.Get e U).map (fun pool => pool.cells.countP (fun c => c.allocated))

/-! ## Handle objects of a client -/

/-- One statement of a program that owns handle objects of the type `T`.  The
existing handle objects are numbered by their position in a list: a new object
is added at the end, a destroyed object is taken out. -/
inductive HandleOp (A : Type) where
  | create (args : A) : HandleOp A
  | destroy (k : Nat) : HandleOp A
  | copyConstruct (k : Nat) : HandleOp A
  | moveConstruct (k : Nat) : HandleOp A
  | copyAssign (i j : Nat) : HandleOp A
  | moveAssign (i j : Nat) : HandleOp A
  | destruct (k : Nat) : HandleOp A
  deriving DecidableEq, Repr

/-- One statement, run on the engine and the existing handle objects:
`Create<T>(args)` adds the returned handle; `Destroy` is applied to the object
`k`, which has to be valid; `Resource c(objs[k])` and
`Resource c(std::move(objs[k]))` add an object; `objs[i] = objs[j]` and
`objs[i] = std::move(objs[j])` write the object `i` (and, for the move, set the
handle of the object `j` to `InvalidHandle` last, also when `i = j`); the
destructor of the object `k` runs and the object is gone.  A statement that
names an object that does not exist is not run (`none`). -/
def stepOp {Ty V A : Type} [DecidableEq Ty] (T : Ty) (build : A → V) (e : Engine Ty V)
    (objs : List (Resource T)) : HandleOp A → Option (Engine Ty V × List (Resource T))
  | HandleOp.create args =>
    (AbstractFactoryImpl.Create e T build args).map (fun r => (r.1, objs ++ [r.2]))
  | HandleOp.destroy k =>
    match objs[k]? with
    | none => none
    | some h =>
      if h.IsValid e = some true then
        (AbstractFactoryImpl.Destroy e h).map (fun e1 => (e1, objs))
      else none
  | HandleOp.copyConstruct k =>
    match objs[k]? with
    | none => none
    | some w => (Resource.copyConstruct e w).map (fun r => (r.1, objs ++ [r.2]))
  | HandleOp.moveConstruct k =>
    match objs[k]? with
    | none => none
    | some w =>
      some ((Resource.moveConstruct e w).1,
        objs.set k (Resource.moveConstruct e w).2.2 ++ [(Resource.moveConstruct e w).2.1])
  | HandleOp.copyAssign i j =>
    match objs[i]? with
    | none => none
    | some a =>
      match objs[j]? with
      | none => none
      | some w => (Resource.copyAssign e a w).map (fun r => (r.1, objs.set i r.2))
  | HandleOp.moveAssign i j =>
    match objs[i]? with
    | none => none
    | some a =>
      match objs[j]? with
      | none => none
      | some w =>
        (Resource.moveAssign e a w).map (fun r => (r.1, (objs.set i r.2.1).set j r.2.2))
  | HandleOp.destruct k =>
    match objs[k]? with
    | none => none
    | some w => (Resource.destruct e w).map (fun e1 => (e1, objs.eraseIdx k))

/-- A sequence of statements, run one after the other. -/
def runOps {Ty V A : Type} [DecidableEq Ty] (T : Ty) (build : A → V) :
    Engine Ty V → List (Resource T) → List (HandleOp A) →
      Option (Engine Ty V × List (Resource T))
  | e, objs, [] => some (e, objs)
  | e, objs, op :: rest =>
    match stepOp T build e objs op with
    | none => none
    | some (e1, objs1) => runOps T build e1 objs1 rest

/-- Number of existing handle objects whose (token, index) is `(uuid, index)`. -/
def holderCount {Ty : Type} {T : Ty} (objs : List (Resource T)) (uuid : UUID) (index : Nat) :
    Nat :=
  objs.countP (fun o => decide (o.uuid = uuid ∧ o.handle = index))

/-- The statement names existing objects, and `Destroy` a valid one. -/
def HandleOp.applicable {Ty V A : Type} [DecidableEq Ty] {T : Ty} (e : Engine Ty V)
    (objs : List (Resource T)) : HandleOp A → Prop
  | HandleOp.create _ => True
  | HandleOp.destroy k => ∃ h, objs[k]? = some h ∧ h.IsValid e = some true
  | HandleOp.copyConstruct k => k < objs.length
  | HandleOp.moveConstruct k => k < objs.length
  | HandleOp.copyAssign i j => i < objs.length ∧ j < objs.length
  | HandleOp.moveAssign i j => i < objs.length ∧ j < objs.length
  | HandleOp.destruct k => k < objs.length

/-- A handle object a program can hold: its handle is `InvalidHandle` (default
or moved-from), or its token is not null, has been issued, and its index is
inside the pool of `T`. -/
def Resource.Tracked {Ty V : Type} [DecidableEq Ty] {T : Ty} (e : Engine Ty V)
    (o : Resource T) : Prop :=
  o.handle = InvalidHandle ∨
    (o.uuid ≠ UUIDGenerator.GetNull ∧ o.uuid ≤ e.uuids.issued ∧
      ∃ c, slotAt e T o.handle = some c)

/-- Invariant of the pool of `T` and the existing handle objects after `n`
statements: at most `n` objects and `n` cells, with `n` below `InvalidHandle`;
a retired cell holds the null token; the reference count of a live cell is
the number of objects that name it; every object is one a program can hold. -/
def CountInvariant {Ty V : Type} [DecidableEq Ty] (T : Ty) (e : Engine Ty V)
    (objs : List (Resource T)) (n : Nat) : Prop :=
  n < InvalidHandle ∧ objs.length ≤ n ∧
  (∃ pool, AbstractFactoryImpl.Get e T = some pool) ∧
  (∀ j c, slotAt e T j = some c → j < n) ∧
  (∀ j c, slotAt e T j = some c → c.allocated = false →
    c.storage.uuid = UUIDGenerator.GetNull) ∧
  (∀ j c, slotAt e T j = some c → c.allocated = true →
    c.storage.refCount = holderCount objs c.storage.uuid j) ∧
  (∀ o ∈ objs, Resource.Tracked e o)

/-! ## Lemmas: `size_t` arithmetic -/

theorem sizeInc_of_lt {n : Nat} (h : n + 1 < SIZE_MODULUS) : sizeInc n = n + 1 := by
  unfold sizeInc
  exact Nat.mod_eq_of_lt h

theorem sizeDec_of_pos {n : Nat} (h0 : 0 < n) (h : n < SIZE_MODULUS) : sizeDec n = n - 1 := by
  unfold sizeDec SIZE_MODULUS at *
  omega

theorem sizeInc_lt (n : Nat) : sizeInc n < SIZE_MODULUS := by
  unfold sizeInc
  exact Nat.mod_lt _ (by unfold SIZE_MODULUS; omega)

theorem sizeDec_lt (n : Nat) : sizeDec n < SIZE_MODULUS := by
  unfold sizeDec
  exact Nat.mod_lt _ (by unfold SIZE_MODULUS; omega)

theorem sizeInc_sizeDec {n : Nat} (h : n < SIZE_MODULUS) : sizeInc (sizeDec n) = n := by
  unfold sizeInc sizeDec SIZE_MODULUS at *
  omega

theorem PoolCell.restore {V : Type} (c : PoolCell V) (h : c.storage.refCount < SIZE_MODULUS) :
    Option.map
        (fun c : PoolCell V =>
          { c with storage := { c.storage with refCount := sizeInc c.storage.refCount } })
        (some { c with storage := { c.storage with refCount := sizeDec c.storage.refCount } }) =
      some c := by
  cases c with
  | mk al st =>
    cases st with
    | mk u v n =>
      simp only [Option.map_some']
      rw [sizeInc_sizeDec h]

/-! ## Lemmas: the chain of pools -/

section FactoryLemmas

variable {Ty V : Type} [DecidableEq Ty]

theorem FactoryImpl.GetPool_setPool_same (f : FactoryImpl Ty V) (U : Ty) (p q : VectorPool V)
    (h : f.GetPool U = some q) : (f.setPool U p).GetPool U = some p := by
  induction f with
  | last T pool =>
    by_cases hT : T = U <;> simp_all [FactoryImpl.GetPool, FactoryImpl.setPool]
  | node T pool base ih =>
    by_cases hT : T = U <;> simp_all [FactoryImpl.GetPool, FactoryImpl.setPool]

theorem FactoryImpl.GetPool_setPool_other (f : FactoryImpl Ty V) (U W : Ty) (p : VectorPool V)
    (h : W ≠ U) : (f.setPool U p).GetPool W = f.GetPool W := by
  induction f with
  | last T pool =>
    by_cases hT : T = U
    · subst hT
      have hW : ¬ T = W := fun hh => h hh.symm
      simp [FactoryImpl.GetPool, FactoryImpl.setPool, hW]
    · simp [FactoryImpl.GetPool, FactoryImpl.setPool, hT]
  | node T pool base ih =>
    by_cases hT : T = U
    · subst hT
      have hW : ¬ T = W := fun hh => h hh.symm
      simp [FactoryImpl.GetPool, FactoryImpl.setPool, hW]
    · by_cases hW : T = W
      · subst hW
        simp [FactoryImpl.GetPool, FactoryImpl.setPool, hT]
      · simp [FactoryImpl.GetPool, FactoryImpl.setPool, hT, hW, ih]

theorem Get_setPool_same (e : Engine Ty V) (U : Ty) (p q : VectorPool V)
    (h : AbstractFactoryImpl.Get e U = some q) :
    AbstractFactoryImpl.Get (AbstractFactoryImpl.setPool e U p) U = some p := by
  unfold AbstractFactoryImpl.Get AbstractFactoryImpl.setPool at *
  cases hf : e.factory with
  | none => simp [hf] at h
  | some a =>
    simp only [hf] at h ⊢
    cases hh : e.heap[a]? with
    | none => simp [hh] at h
    | some f =>
      simp only [hh] at h ⊢
      have hlt : a < e.heap.length := by
        by_contra hc
        have : e.heap[a]? = none := List.getElem?_eq_none (by omega)
        simp [this] at hh
      simp [hf, List.getElem?_set_self hlt, FactoryImpl.GetPool_setPool_same f U p q h]

theorem Get_setPool_other (e : Engine Ty V) (U W : Ty) (p : VectorPool V) (h : W ≠ U) :
    AbstractFactoryImpl.Get (AbstractFactoryImpl.setPool e U p) W =
      AbstractFactoryImpl.Get e W := by
  unfold AbstractFactoryImpl.Get AbstractFactoryImpl.setPool
  cases hf : e.factory with
  | none => simp [hf]
  | some a =>
    simp only [hf]
    cases hh : e.heap[a]? with
    | none => simp [hf, hh]
    | some f =>
      have hlt : a < e.heap.length := by
        by_contra hc
        have : e.heap[a]? = none := List.getElem?_eq_none (by omega)
        simp [this] at hh
      simp [hf, List.getElem?_set_self hlt, FactoryImpl.GetPool_setPool_other f U W p h]

theorem setPool_uuids (e : Engine Ty V) (U : Ty) (p : VectorPool V) :
    (AbstractFactoryImpl.setPool e U p).uuids = e.uuids := by
  unfold AbstractFactoryImpl.setPool
  split
  · rfl
  · split <;> rfl

theorem setPool_factory (e : Engine Ty V) (U : Ty) (p : VectorPool V) :
    (AbstractFactoryImpl.setPool e U p).factory = e.factory := by
  unfold AbstractFactoryImpl.setPool
  split
  · rfl
  · split <;> rfl

/-- The cells seen after a pool has been written back. -/
theorem slotAt_setPool (e : Engine Ty V) (U W : Ty) (p q : VectorPool V) (i : Nat)
    (h : AbstractFactoryImpl.Get e U = some q) :
    slotAt (AbstractFactoryImpl.setPool e U p) W i =
      if W = U then p.cells[i]? else slotAt e W i := by
  unfold slotAt
  by_cases hW : W = U
  · subst hW
    simp [Get_setPool_same e W p q h]
  · simp [Get_setPool_other e U W p hW, hW]

end FactoryLemmas

/-! ## Lemmas: cells of a pool -/

section PoolLemmas

variable {V : Type}

theorem getElem?_lt_of_some {α : Type} {l : List α} {i : Nat} {a : α} (h : l[i]? = some a) :
    i < l.length := by
  by_contra hc
  have : l[i]? = none := List.getElem?_eq_none (by omega)
  simp [this] at h

theorem VectorPool.cells_update (pool : VectorPool V) (i j : Nat)
    (f : ManagedResource V → ManagedResource V) :
    (pool.update i f).cells[j]? =
      if j = i then (pool.cells[i]?).map (fun c => { c with storage := f c.storage })
      else pool.cells[j]? := by
  unfold VectorPool.update
  cases hc : pool.cells[i]? with
  | none =>
    by_cases hj : j = i
    · subst hj
      simp [hc]
    · simp [hj]
  | some c =>
    have hlt := getElem?_lt_of_some hc
    by_cases hj : j = i
    · subst hj
      simp [List.getElem?_set_self hlt]
    · have hij : i ≠ j := fun hh => hj hh.symm
      simp [hj, List.getElem?_set_ne hij]

theorem VectorPool.length_update (pool : VectorPool V) (i : Nat)
    (f : ManagedResource V → ManagedResource V) :
    (pool.update i f).cells.length = pool.cells.length := by
  unfold VectorPool.update
  cases hc : pool.cells[i]? with
  | none => rfl
  | some c => simp

theorem lowestFree_some {cells : List (PoolCell V)} {i : Nat} (h : lowestFree cells = some i) :
    ∃ c, cells[i]? = some c ∧ c.allocated = false := by
  induction cells generalizing i with
  | nil => simp [lowestFree] at h
  | cons c cs ih =>
    unfold lowestFree at h
    by_cases hc : c.allocated = true
    · simp only [hc, if_true, Option.map_eq_some'] at h
      obtain ⟨k, hk, rfl⟩ := h
      obtain ⟨d, hd, hfree⟩ := ih hk
      exact ⟨d, by simpa using hd, hfree⟩
    · simp only [hc] at h
      simp only [Bool.false_eq_true, if_false, Option.some.injEq] at h
      subst h
      exact ⟨c, by simp, by simpa using hc⟩

theorem lowestFree_none {cells : List (PoolCell V)} (h : lowestFree cells = none) :
    ∀ c ∈ cells, c.allocated = true := by
  induction cells with
  | nil => simp
  | cons c cs ih =>
    unfold lowestFree at h
    by_cases hc : c.allocated = true
    · simp only [hc, if_true, Option.map_eq_none'] at h
      intro d hd
      rcases List.mem_cons.mp hd with rfl | hmem
      · exact hc
      · exact ih h d hmem
    · simp [hc] at h

/-- A retired cell exists: allocation reuses the lowest one. -/
theorem lowestFree_isSome_of_free {cells : List (PoolCell V)} {i : Nat} {c : PoolCell V}
    (hc : cells[i]? = some c) (hfree : c.allocated = false) :
    ∃ k, lowestFree cells = some k ∧ k ≤ i := by
  induction cells generalizing i with
  | nil => simp at hc
  | cons d ds ih =>
    unfold lowestFree
    by_cases hd : d.allocated = true
    · cases i with
      | zero =>
        simp at hc
        subst hc
        simp [hfree] at hd
      | succ n =>
        simp only [List.getElem?_cons_succ] at hc
        obtain ⟨k, hk, hle⟩ := ih hc
        exact ⟨k + 1, by simp [hd, hk], by omega⟩
    · exact ⟨0, by simp [hd], by omega⟩

/-- What `Allocate` returns and the cells it leaves. -/
theorem VectorPool.Allocate_spec {A : Type} (pool : VectorPool V) (uuid : UUID) (build : A → V)
    (args : A) :
    (pool.Allocate uuid build args).1 ≤ pool.cells.length ∧
    (pool.Allocate uuid build args).2.cells[(pool.Allocate uuid build args).1]? =
      some ⟨true, ManagedResource.construct uuid build args⟩ ∧
    (∀ j, j ≠ (pool.Allocate uuid build args).1 →
      (pool.Allocate uuid build args).2.cells[j]? = pool.cells[j]?) ∧
    (∀ c, pool.cells[(pool.Allocate uuid build args).1]? = some c → c.allocated = false) := by
  unfold VectorPool.Allocate
  cases hl : lowestFree pool.cells with
  | some i =>
    obtain ⟨c, hc, hfree⟩ := lowestFree_some hl
    have hlt := getElem?_lt_of_some hc
    refine ⟨by simpa using Nat.le_of_lt hlt, by simp [List.getElem?_set_self hlt], ?_, ?_⟩
    · intro j hj
      have hij : i ≠ j := fun hh => hj hh.symm
      simp [List.getElem?_set_ne hij]
    · intro d hd
      simp only [hc, Option.some.injEq] at hd
      subst hd
      exact hfree
  | none =>
    refine ⟨by simp, by simp, ?_, ?_⟩
    · intro j hj
      simp only at hj
      by_cases hlt : j < pool.cells.length
      · simp [List.getElem?_append_left hlt]
      · have hgt : pool.cells.length < j := by omega
        have h1 : (pool.cells ++ [(⟨true, ManagedResource.construct uuid build args⟩ : PoolCell V)])[j]?
            = none := List.getElem?_eq_none (by simp; omega)
        have h2 : pool.cells[j]? = none := List.getElem?_eq_none (by omega)
        simp [h1, h2]
    · intro d hd
      have h2 : pool.cells[pool.cells.length]? = none := List.getElem?_eq_none (by omega)
      simp [h2] at hd

/-- The effect of `Deallocate` on a live cell. -/
theorem VectorPool.Deallocate_live (pool : VectorPool V) (i : Nat) (c : PoolCell V)
    (hc : pool.cells[i]? = some c) (hlive : c.allocated = true) :
    ∃ pool1, pool.Deallocate i = some pool1 ∧
      pool1.cells[i]? = some ⟨false, c.storage.destruct⟩ ∧
      ∀ j, j ≠ i → pool1.cells[j]? = pool.cells[j]? := by
  have hlt := getElem?_lt_of_some hc
  refine ⟨⟨pool.cells.set i ⟨false, c.storage.destruct⟩⟩, ?_, ?_, ?_⟩
  · unfold VectorPool.Deallocate
    simp [hc, hlive]
  · simp [List.getElem?_set_self hlt]
  · intro j hj
    have hij : i ≠ j := fun hh => hj hh.symm
    simp [List.getElem?_set_ne hij]

end PoolLemmas

theorem Resource.eta {Ty : Type} {T : Ty} (b : Resource T) :
    (⟨b.uuid, b.handle⟩ : Resource T) = b := by
  cases b
  rfl

/-! ## Lemmas: handles -/

section HandleLemmas

variable {Ty V : Type} [DecidableEq Ty] {T : Ty}

/-- `IsValid` reads nothing but the token of the cell the handle names. -/
theorem Resource.IsValid_eq (e : Engine Ty V) (r : Resource T) :
    r.IsValid e =
      if r.handle ≠ InvalidHandle then
        (slotAt e T r.handle).map (fun c => decide (c.storage.uuid = r.uuid))
      else some false := by
  unfold Resource.IsValid Resource.DereferenceHandle slotAt VectorPool.subscript
  by_cases hh : r.handle = InvalidHandle
  · simp [hh]
  · simp only [ne_eq, hh, not_false_eq_true, if_true]
    cases hg : AbstractFactoryImpl.Get e T with
    | none => rfl
    | some pool =>
      cases hc : pool.cells[r.handle]? with
      | none => simp [hc]
      | some c => simp [hc]

theorem Resource.IsValid_true_iff (e : Engine Ty V) (r : Resource T) :
    r.IsValid e = some true ↔
      r.handle ≠ InvalidHandle ∧ ∃ c, slotAt e T r.handle = some c ∧ c.storage.uuid = r.uuid := by
  rw [Resource.IsValid_eq]
  by_cases hh : r.handle = InvalidHandle
  · simp [hh]
  · cases hs : slotAt e T r.handle with
    | none => simp [hh]
    | some c => simp [hh]

theorem Resource.IsValid_false_iff (e : Engine Ty V) (r : Resource T) :
    r.IsValid e = some false ↔
      r.handle = InvalidHandle ∨ ∃ c, slotAt e T r.handle = some c ∧ c.storage.uuid ≠ r.uuid := by
  rw [Resource.IsValid_eq]
  by_cases hh : r.handle = InvalidHandle
  · simp [hh]
  · cases hs : slotAt e T r.handle with
    | none => simp [hh]
    | some c => simp [hh]

theorem Get_of_slotAt {e : Engine Ty V} {U : Ty} {i : Nat} {c : PoolCell V}
    (h : slotAt e U i = some c) :
    ∃ pool, AbstractFactoryImpl.Get e U = some pool ∧ pool.cells[i]? = some c := by
  unfold slotAt at h
  cases hg : AbstractFactoryImpl.Get e U with
  | none => simp [hg] at h
  | some pool => exact ⟨pool, rfl, by simpa [hg] using h⟩

theorem slotAt_of_Get {e : Engine Ty V} {U : Ty} {pool : VectorPool V}
    (h : AbstractFactoryImpl.Get e U = some pool) (i : Nat) :
    slotAt e U i = pool.cells[i]? := by
  unfold slotAt
  simp [h]

/-- The cells after a write to a reference count. -/
theorem Resource.slotAt_writeRefCount {e e1 : Engine Ty V} {r : Resource T} {f : Nat → Nat}
    (h : r.writeRefCount e f = some e1) (U : Ty) (i : Nat) :
    slotAt e1 U i =
      if U = T ∧ i = r.handle then
        (slotAt e T r.handle).map
          (fun c => { c with storage := { c.storage with refCount := f c.storage.refCount } })
      else slotAt e U i := by
  unfold Resource.writeRefCount at h
  cases hg : AbstractFactoryImpl.Get e T with
  | none => simp [hg] at h
  | some pool =>
    simp only [hg, Option.some.injEq] at h
    subst h
    rw [slotAt_setPool e T U _ pool i hg]
    by_cases hU : U = T
    · subst hU
      rw [VectorPool.cells_update, slotAt_of_Get hg, slotAt_of_Get hg]
      by_cases hi : i = r.handle
      · simp [hi]
      · simp [hi]
    · simp [hU]

theorem Resource.writeRefCount_uuids {e e1 : Engine Ty V} {r : Resource T} {f : Nat → Nat}
    (h : r.writeRefCount e f = some e1) : e1.uuids = e.uuids := by
  unfold Resource.writeRefCount at h
  cases hg : AbstractFactoryImpl.Get e T with
  | none => simp [hg] at h
  | some pool =>
    simp only [hg, Option.some.injEq] at h
    subst h
    exact setPool_uuids e T _

theorem Resource.writeRefCount_factory {e e1 : Engine Ty V} {r : Resource T} {f : Nat → Nat}
    (h : r.writeRefCount e f = some e1) : e1.factory = e.factory := by
  unfold Resource.writeRefCount at h
  cases hg : AbstractFactoryImpl.Get e T with
  | none => simp [hg] at h
  | some pool =>
    simp only [hg, Option.some.injEq] at h
    subst h
    exact setPool_factory e T _

/-- A write to a reference count succeeds as soon as the pool of `T` exists. -/
theorem Resource.writeRefCount_isSome {e : Engine Ty V} {r : Resource T} {c : PoolCell V}
    (hs : slotAt e T r.handle = some c) (f : Nat → Nat) :
    ∃ e1, r.writeRefCount e f = some e1 := by
  obtain ⟨pool, hg, _⟩ := Get_of_slotAt hs
  unfold Resource.writeRefCount
  simp [hg]

/-- Validity of any handle of any type is untouched by a reference-count write. -/
theorem Resource.IsValid_writeRefCount {e e1 : Engine Ty V} {r : Resource T} {f : Nat → Nat}
    (h : r.writeRefCount e f = some e1) {U : Ty} (s : Resource U) :
    s.IsValid e1 = s.IsValid e := by
  rw [Resource.IsValid_eq, Resource.IsValid_eq, Resource.slotAt_writeRefCount h U s.handle]
  by_cases hc : U = T ∧ s.handle = r.handle
  · obtain ⟨hU, hi⟩ := hc
    subst hU
    simp only [hi, and_self, if_true]
    cases slotAt e U r.handle with
    | none => rfl
    | some c => rfl
  · simp [hc]

theorem Resource.IncRef_valid {e : Engine Ty V} {r : Resource T} (h : r.IsValid e = some true) :
    r.IncRef e = r.writeRefCount e sizeInc := by
  unfold Resource.IncRef
  simp [h]

theorem Resource.IncRef_invalid {e : Engine Ty V} {r : Resource T}
    (h : r.IsValid e = some false) : r.IncRef e = some e := by
  unfold Resource.IncRef
  simp [h]

theorem Resource.DecRef_valid {e : Engine Ty V} {r : Resource T} (h : r.IsValid e = some true) :
    r.DecRef e = r.writeRefCount e sizeDec := by
  unfold Resource.DecRef
  simp [h]

theorem Resource.DecRef_invalid {e : Engine Ty V} {r : Resource T}
    (h : r.IsValid e = some false) : r.DecRef e = some e := by
  unfold Resource.DecRef
  simp [h]

end HandleLemmas

/-! ## Lemmas: `Create` and `Destroy` -/

section FactoryOps

variable {Ty V : Type} [DecidableEq Ty] {T : Ty}

theorem sizeInc_zero : sizeInc 0 = 1 := by
  unfold sizeInc SIZE_MODULUS
  omega

theorem VectorPool.Allocate_index_of_free {A : Type} (pool : VectorPool V) (uuid : UUID)
    (build : A → V) (args : A) {i : Nat} {c : PoolCell V} (hc : pool.cells[i]? = some c)
    (hfree : c.allocated = false) : (pool.Allocate uuid build args).1 ≤ i := by
  obtain ⟨k, hk, hle⟩ := lowestFree_isSome_of_free hc hfree
  unfold VectorPool.Allocate
  simp only [hk]
  exact hle

/-- `Create` on an installed factory whose allocation returns an index below
`InvalidHandle`: the handle, the generator, the new cell and the frame. -/
theorem Create_spec {A : Type} (e : Engine Ty V) (T : Ty) (build : A → V) (args : A)
    (pool : VectorPool V) (hp : AbstractFactoryImpl.Get e T = some pool)
    (hidx : (pool.Allocate (e.uuids.issued + 1) build args).1 < InvalidHandle) :
    ∃ e1 e2,
      slotAt e1 T (pool.Allocate (e.uuids.issued + 1) build args).1 =
        some ⟨true, ⟨e.uuids.issued + 1, build args, 0⟩⟩ ∧
      Resource.construct e1 (e.uuids.issued + 1)
          (pool.Allocate (e.uuids.issued + 1) build args).1 =
        some (e2, (⟨e.uuids.issued + 1,
          (pool.Allocate (e.uuids.issued + 1) build args).1⟩ : Resource T)) ∧
      AbstractFactoryImpl.Create e T build args =
        some (e2, ⟨e.uuids.issued + 1, (pool.Allocate (e.uuids.issued + 1) build args).1⟩) ∧
      e2.uuids = ⟨e.uuids.issued + 1⟩ ∧
      e2.factory = e.factory ∧
      slotAt e2 T (pool.Allocate (e.uuids.issued + 1) build args).1 =
        some ⟨true, ⟨e.uuids.issued + 1, build args, 1⟩⟩ ∧
      (∀ (U : Ty) (j : Nat),
        (U ≠ T ∨ j ≠ (pool.Allocate (e.uuids.issued + 1) build args).1) →
        slotAt e2 U j = slotAt e U j) ∧
      (∀ c, slotAt e T (pool.Allocate (e.uuids.issued + 1) build args).1 = some c →
        c.allocated = false) := by
  obtain ⟨_, hnew, hframe, hfree⟩ :=
    VectorPool.Allocate_spec pool (e.uuids.issued + 1) build args
  generalize halloc : pool.Allocate (e.uuids.issued + 1) build args = allocation at *
  have hp0 : AbstractFactoryImpl.Get
      ({ e with uuids := (⟨e.uuids.issued + 1⟩ : UUIDGenerator) } : Engine Ty V) T =
      some pool := hp
  have hs0 : ∀ (U : Ty) (j : Nat),
      slotAt ({ e with uuids := (⟨e.uuids.issued + 1⟩ : UUIDGenerator) } : Engine Ty V) U j =
        slotAt e U j := fun _ _ => rfl
  have hs1 := fun (W : Ty) (j : Nat) =>
    slotAt_setPool ({ e with uuids := (⟨e.uuids.issued + 1⟩ : UUIDGenerator) } : Engine Ty V)
      T W allocation.2 pool j hp0
  have hcell1 : slotAt (AbstractFactoryImpl.setPool
      ({ e with uuids := (⟨e.uuids.issued + 1⟩ : UUIDGenerator) } : Engine Ty V) T allocation.2)
      T allocation.1 = some ⟨true, ⟨e.uuids.issued + 1, build args, 0⟩⟩ := by
    rw [hs1 T allocation.1, if_pos rfl, hnew]
    rfl
  have hv1 : (⟨e.uuids.issued + 1, allocation.1⟩ : Resource T).IsValid
      (AbstractFactoryImpl.setPool
        ({ e with uuids := (⟨e.uuids.issued + 1⟩ : UUIDGenerator) } : Engine Ty V) T allocation.2)
      = some true := by
    rw [Resource.IsValid_true_iff]
    exact ⟨Nat.ne_of_lt hidx, _, hcell1, rfl⟩
  obtain ⟨e2, he2⟩ := Resource.writeRefCount_isSome
    (r := (⟨e.uuids.issued + 1, allocation.1⟩ : Resource T)) hcell1 sizeInc
  have hs2 := Resource.slotAt_writeRefCount he2
  have hcons : Resource.construct (AbstractFactoryImpl.setPool
      ({ e with uuids := (⟨e.uuids.issued + 1⟩ : UUIDGenerator) } : Engine Ty V) T allocation.2)
      (e.uuids.issued + 1) allocation.1 =
      some (e2, (⟨e.uuids.issued + 1, allocation.1⟩ : Resource T)) := by
    unfold Resource.construct
    simp only [Resource.IncRef_valid hv1, he2, Option.map_some']
  refine ⟨_, e2, hcell1, hcons, ?_, ?_, ?_, ?_, ?_, ?_⟩
  · unfold AbstractFactoryImpl.Create
    simp only [UUIDGenerator.Get, hp0, halloc]
    exact hcons
  · rw [Resource.writeRefCount_uuids he2, setPool_uuids]
  · rw [Resource.writeRefCount_factory he2, setPool_factory]
  · rw [hs2 T allocation.1, if_pos ⟨rfl, rfl⟩, hcell1]
    simp only [Option.map_some', sizeInc_zero]
  · intro U j hne
    have hn : ¬ (U = T ∧ j = allocation.1) := by
      rintro ⟨h1, h2⟩
      rcases hne with h | h
      · exact h h1
      · exact h h2
    rw [hs2 U j, if_neg hn, hs1 U j]
    by_cases hU : U = T
    · subst hU
      have hj : j ≠ allocation.1 := by
        rcases hne with h | h
        · exact absurd rfl h
        · exact h
      rw [if_pos rfl, hframe j hj]
      exact (slotAt_of_Get hp j).symm
    · rw [if_neg hU, hs0]
  · intro c hc
    rw [slotAt_of_Get hp] at hc
    exact hfree c hc

/-- `Destroy` of a handle whose index names a live cell: the cell is retired with
the null token, everything else stays. -/
theorem Destroy_spec (e : Engine Ty V) (h : Resource T) (c : PoolCell V)
    (hc : slotAt e T h.handle = some c) (hlive : c.allocated = true) :
    ∃ e1, AbstractFactoryImpl.Destroy e h = some e1 ∧
      e1.uuids = e.uuids ∧ e1.factory = e.factory ∧
      slotAt e1 T h.handle = some ⟨false, c.storage.destruct⟩ ∧
      (∀ (U : Ty) (j : Nat), (U ≠ T ∨ j ≠ h.handle) → slotAt e1 U j = slotAt e U j) := by
  obtain ⟨pool, hg, hcell⟩ := Get_of_slotAt hc
  obtain ⟨pool1, hd, hnew, hframe⟩ := VectorPool.Deallocate_live pool h.handle c hcell hlive
  have hs1 := fun (W : Ty) (j : Nat) => slotAt_setPool e T W pool1 pool j hg
  refine ⟨AbstractFactoryImpl.setPool e T pool1, ?_, setPool_uuids e T pool1,
    setPool_factory e T pool1, ?_, ?_⟩
  · unfold AbstractFactoryImpl.Destroy Resource.GetHandle
    simp only [hg, hd]
  · rw [hs1 T h.handle, if_pos rfl, hnew]
  · intro U j hne
    rw [hs1 U j]
    by_cases hU : U = T
    · subst hU
      have hj : j ≠ h.handle := by
        rcases hne with hh | hh
        · exact absurd rfl hh
        · exact hh
      rw [if_pos rfl, hframe j hj]
      exact (slotAt_of_Get hg j).symm
    · rw [if_neg hU]

/-- `Destroy` yields a state only for an index that names a live cell. -/
theorem Destroy_some_iff (e : Engine Ty V) (h : Resource T) :
    (∃ e1, AbstractFactoryImpl.Destroy e h = some e1) ↔
      ∃ c, slotAt e T h.handle = some c ∧ c.allocated = true := by
  constructor
  · rintro ⟨e1, he1⟩
    unfold AbstractFactoryImpl.Destroy Resource.GetHandle at he1
    cases hg : AbstractFactoryImpl.Get e T with
    | none => simp [hg] at he1
    | some pool =>
      simp only [hg] at he1
      unfold VectorPool.Deallocate at he1
      cases hc : pool.cells[h.handle]? with
      | none => simp [hc] at he1
      | some c =>
        by_cases hl : c.allocated = true
        · exact ⟨c, by rw [slotAt_of_Get hg, hc], hl⟩
        · simp [hc, hl] at he1
  · rintro ⟨c, hc, hl⟩
    obtain ⟨e1, he1, _⟩ := Destroy_spec e h c hc hl
    exact ⟨e1, he1⟩

/-- In a well-formed engine a handle with a non-null token is valid exactly on
a live cell that stores its token. -/
theorem Resource.live_of_valid {e : Engine Ty V} {r : Resource T} (hwf : e.WF)
    (htok : r.uuid ≠ UUIDGenerator.GetNull) (hv : r.IsValid e = some true) :
    r.handle < InvalidHandle ∧
    ∃ c, slotAt e T r.handle = some c ∧ c.allocated = true ∧ c.storage.uuid = r.uuid ∧
      c.storage.uuid ≤ e.uuids.issued := by
  obtain ⟨_, c, hc, hu⟩ := (Resource.IsValid_true_iff e r).mp hv
  obtain ⟨pool, hg, hcell⟩ := Get_of_slotAt hc
  obtain ⟨hlen, hcells⟩ := hwf T pool hg
  have hmem : c ∈ pool.cells := List.mem_iff_getElem?.mpr ⟨r.handle, hcell⟩
  obtain ⟨hfree, hlive, _⟩ := hcells c hmem
  have hlt := getElem?_lt_of_some hcell
  have hal : c.allocated = true := by
    cases hb : c.allocated with
    | true => rfl
    | false => exact absurd (hu ▸ hfree hb) htok
  exact ⟨by omega, c, hc, hal, hu, (hlive hal).2⟩

end FactoryOps

/-! ## Lemmas: frames of `Create` and `Destroy` -/

section Frames

variable {Ty V : Type} [DecidableEq Ty] {T : Ty}

theorem sizeDec_one : sizeDec 1 = 0 := by
  unfold sizeDec SIZE_MODULUS
  omega

theorem sizeDec_sizeInc {n : Nat} (h : n < SIZE_MODULUS) : sizeDec (sizeInc n) = n := by
  unfold sizeInc sizeDec SIZE_MODULUS at *
  omega

theorem PoolCell.restore_after_inc {V : Type} (c : PoolCell V)
    (h : c.storage.refCount < SIZE_MODULUS) :
    Option.map
        (fun c : PoolCell V =>
          { c with storage := { c.storage with refCount := sizeDec c.storage.refCount } })
        (some { c with storage := { c.storage with refCount := sizeInc c.storage.refCount } }) =
      some c := by
  cases c with
  | mk al st =>
    cases st with
    | mk u v n =>
      simp only [Option.map_some']
      rw [sizeDec_sizeInc h]

/-- The pools of the other types after a write to a reference count. -/
theorem Resource.Get_writeRefCount_other {e e1 : Engine Ty V} {r : Resource T} {f : Nat → Nat}
    (h : r.writeRefCount e f = some e1) (U : Ty) (hU : U ≠ T) :
    AbstractFactoryImpl.Get e1 U = AbstractFactoryImpl.Get e U := by
  unfold Resource.writeRefCount at h
  cases hg : AbstractFactoryImpl.Get e T with
  | none => simp [hg] at h
  | some pool =>
    simp only [hg, Option.some.injEq] at h
    subst h
    exact Get_setPool_other e T U _ hU

theorem Resource.Get_writeRefCount_same {e e1 : Engine Ty V} {r : Resource T} {f : Nat → Nat}
    (h : r.writeRefCount e f = some e1) :
    ∃ pool1, AbstractFactoryImpl.Get e1 T = some pool1 := by
  unfold Resource.writeRefCount at h
  cases hg : AbstractFactoryImpl.Get e T with
  | none => simp [hg] at h
  | some pool =>
    simp only [hg, Option.some.injEq] at h
    subst h
    exact ⟨_, Get_setPool_same e T _ pool hg⟩

/-- `Create` on an installed factory with `T` registered always returns; the
token, the generator, the new cell and the frame. -/
theorem Create_total {A : Type} (e : Engine Ty V) (T : Ty) (build : A → V) (args : A)
    (pool : VectorPool V) (hp : AbstractFactoryImpl.Get e T = some pool) :
    ∃ e2,
      AbstractFactoryImpl.Create e T build args =
        some (e2, ⟨e.uuids.issued + 1, (pool.Allocate (e.uuids.issued + 1) build args).1⟩) ∧
      e2.uuids = ⟨e.uuids.issued + 1⟩ ∧
      (∀ U : Ty, U ≠ T → AbstractFactoryImpl.Get e2 U = AbstractFactoryImpl.Get e U) ∧
      (∃ pool2, AbstractFactoryImpl.Get e2 T = some pool2) ∧
      (∀ (U : Ty) (j : Nat),
        (U ≠ T ∨ j ≠ (pool.Allocate (e.uuids.issued + 1) build args).1) →
        slotAt e2 U j = slotAt e U j) ∧
      (pool.Allocate (e.uuids.issued + 1) build args).1 ≤ pool.cells.length ∧
      (∀ c, slotAt e T (pool.Allocate (e.uuids.issued + 1) build args).1 = some c →
        c.allocated = false) ∧
      (∃ c, slotAt e2 T (pool.Allocate (e.uuids.issued + 1) build args).1 = some c ∧
        c.allocated = true ∧ c.storage.uuid = e.uuids.issued + 1 ∧
        c.storage.value = build args) := by
  obtain ⟨hle, hnew, hframe, hfree⟩ :=
    VectorPool.Allocate_spec pool (e.uuids.issued + 1) build args
  generalize halloc : pool.Allocate (e.uuids.issued + 1) build args = allocation at *
  have hp0 : AbstractFactoryImpl.Get
      ({ e with uuids := (⟨e.uuids.issued + 1⟩ : UUIDGenerator) } : Engine Ty V) T =
      some pool := hp
  have hg0 : ∀ U : Ty, AbstractFactoryImpl.Get
      ({ e with uuids := (⟨e.uuids.issued + 1⟩ : UUIDGenerator) } : Engine Ty V) U =
      AbstractFactoryImpl.Get e U := fun _ => rfl
  have hs0 : ∀ (U : Ty) (j : Nat),
      slotAt ({ e with uuids := (⟨e.uuids.issued + 1⟩ : UUIDGenerator) } : Engine Ty V) U j =
        slotAt e U j := fun _ _ => rfl
  have hs1 := fun (W : Ty) (j : Nat) =>
    slotAt_setPool ({ e with uuids := (⟨e.uuids.issued + 1⟩ : UUIDGenerator) } : Engine Ty V)
      T W allocation.2 pool j hp0
  generalize he1 : AbstractFactoryImpl.setPool
      ({ e with uuids := (⟨e.uuids.issued + 1⟩ : UUIDGenerator) } : Engine Ty V) T allocation.2 =
      e1 at *
  have hu1 : e1.uuids = ⟨e.uuids.issued + 1⟩ := by
    rw [← he1, setPool_uuids]
  have hg1 : ∀ U : Ty, U ≠ T → AbstractFactoryImpl.Get e1 U = AbstractFactoryImpl.Get e U := by
    intro U hU
    rw [← he1, Get_setPool_other _ T U _ hU, hg0]
  have hg1T : AbstractFactoryImpl.Get e1 T = some allocation.2 := by
    rw [← he1]
    exact Get_setPool_same _ T _ pool hp0
  have hcell1 : slotAt e1 T allocation.1 =
      some ⟨true, ⟨e.uuids.issued + 1, build args, 0⟩⟩ := by
    rw [hs1 T allocation.1, if_pos rfl, hnew]
    rfl
  have hframe1 : ∀ (U : Ty) (j : Nat), (U ≠ T ∨ j ≠ allocation.1) →
      slotAt e1 U j = slotAt e U j := by
    intro U j hne
    rw [hs1 U j]
    by_cases hU : U = T
    · subst hU
      have hj : j ≠ allocation.1 := by
        rcases hne with h | h
        · exact absurd rfl h
        · exact h
      rw [if_pos rfl, hframe j hj]
      exact (slotAt_of_Get hp j).symm
    · rw [if_neg hU, hs0]
  have hcreate : AbstractFactoryImpl.Create e T build args =
      (Resource.IncRef e1 (⟨e.uuids.issued + 1, allocation.1⟩ : Resource T)).map
        (fun e2 => (e2, (⟨e.uuids.issued + 1, allocation.1⟩ : Resource T))) := by
    unfold AbstractFactoryImpl.Create
    simp only [UUIDGenerator.Get, hp0, halloc, he1]
    rfl
  have hfree0 : ∀ c, slotAt e T allocation.1 = some c → c.allocated = false := by
    intro c hc
    rw [slotAt_of_Get hp] at hc
    exact hfree c hc
  by_cases hidx : allocation.1 = InvalidHandle
  · have hv1 : (⟨e.uuids.issued + 1, allocation.1⟩ : Resource T).IsValid e1 = some false := by
      rw [Resource.IsValid_false_iff]
      exact Or.inl hidx
    refine ⟨e1, ?_, hu1, hg1, ⟨_, hg1T⟩, hframe1, hle, hfree0, ⟨_, hcell1, rfl, rfl, rfl⟩⟩
    rw [hcreate, Resource.IncRef_invalid hv1]
    rfl
  · have hv1 : (⟨e.uuids.issued + 1, allocation.1⟩ : Resource T).IsValid e1 = some true := by
      rw [Resource.IsValid_true_iff]
      exact ⟨hidx, _, hcell1, rfl⟩
    obtain ⟨e2, he2⟩ := Resource.writeRefCount_isSome
      (r := (⟨e.uuids.issued + 1, allocation.1⟩ : Resource T)) hcell1 sizeInc
    have hs2 := Resource.slotAt_writeRefCount he2
    refine ⟨e2, ?_, ?_, ?_, Resource.Get_writeRefCount_same he2, ?_, hle, hfree0, ?_⟩
    · rw [hcreate, Resource.IncRef_valid hv1, he2]
      rfl
    · rw [Resource.writeRefCount_uuids he2, hu1]
    · intro U hU
      rw [Resource.Get_writeRefCount_other he2 U hU, hg1 U hU]
    · intro U j hne
      have hn : ¬ (U = T ∧ j = allocation.1) := by
        rintro ⟨h1, h2⟩
        rcases hne with h | h
        · exact h h1
        · exact h h2
      rw [hs2 U j, if_neg hn, hframe1 U j hne]
    · refine ⟨⟨true, ⟨e.uuids.issued + 1, build args, sizeInc 0⟩⟩, ?_, rfl, rfl, rfl⟩
      rw [hs2 T allocation.1, if_pos ⟨rfl, rfl⟩, hcell1]
      simp only [Option.map_some']

/-- `Destroy` leaves the pools of the other types as they are. -/
theorem Destroy_Get_other {e e1 : Engine Ty V} {h : Resource T}
    (hd : AbstractFactoryImpl.Destroy e h = some e1) (U : Ty) (hU : U ≠ T) :
    AbstractFactoryImpl.Get e1 U = AbstractFactoryImpl.Get e U := by
  unfold AbstractFactoryImpl.Destroy at hd
  cases hg : AbstractFactoryImpl.Get e T with
  | none => simp [hg] at hd
  | some pool =>
    simp only [hg] at hd
    cases hdd : pool.Deallocate h.GetHandle with
    | none => simp [hdd] at hd
    | some pool1 =>
      simp only [hdd, Option.some.injEq] at hd
      subst hd
      exact Get_setPool_other e T U _ hU

end Frames

/-- On a valid handle `operator->` returns the address of its slot in either
build. -/
theorem Resource.arrow_of_valid {Ty V : Type} [DecidableEq Ty] {T : Ty} (e : Engine Ty V)
    (r : Resource T) (hv : r.IsValid e = some true) (debugBuild : Bool) :
    r.arrow debugBuild e = some (Outcome.returned (Pointer.slot r.handle)) := by
  obtain ⟨_, c, hc, _⟩ := (Resource.IsValid_true_iff e r).mp hv
  obtain ⟨pool, hg, hcell⟩ := Get_of_slotAt hc
  cases debugBuild <;>
    simp [Resource.arrow, hv, Resource.GetUnchecked, Resource.DereferenceHandle, hg,
      VectorPool.subscript, hcell]

/-! ## Lemmas: the `Factory` objects in memory -/

section HeapLemmas

variable {Ty V : Type} [DecidableEq Ty] {T : Ty}

theorem Get_eq_poolAt (e : Engine Ty V) (p : Nat) (hf : e.factory = some p) (U : Ty) :
    AbstractFactoryImpl.Get e U = poolAt e p U := by
  unfold AbstractFactoryImpl.Get poolAt
  simp only [hf]

theorem setPool_heap_other (e : Engine Ty V) (U : Ty) (pool : VectorPool V) (p : Nat)
    (hf : e.factory = some p) (q : Nat) (hq : q ≠ p) :
    (AbstractFactoryImpl.setPool e U pool).heap[q]? = e.heap[q]? := by
  unfold AbstractFactoryImpl.setPool
  simp only [hf]
  cases hh : e.heap[p]? with
  | none => rfl
  | some f =>
    have hpq : p ≠ q := fun h => hq h.symm
    simp [List.getElem?_set_ne hpq]

theorem Resource.writeRefCount_heap_other {e e1 : Engine Ty V} {r : Resource T} {f : Nat → Nat}
    (h : r.writeRefCount e f = some e1) (p : Nat) (hf : e.factory = some p) (q : Nat)
    (hq : q ≠ p) : e1.heap[q]? = e.heap[q]? := by
  unfold Resource.writeRefCount at h
  cases hg : AbstractFactoryImpl.Get e T with
  | none => simp [hg] at h
  | some pool =>
    simp only [hg, Option.some.injEq] at h
    subst h
    exact setPool_heap_other e T _ p hf q hq

theorem Resource.IncRef_heap_frame {e e1 : Engine Ty V} {r : Resource T}
    (h : r.IncRef e = some e1) :
    e1.factory = e.factory ∧
    ∀ p, e.factory = some p → ∀ q, q ≠ p → e1.heap[q]? = e.heap[q]? := by
  unfold Resource.IncRef at h
  cases hv : r.IsValid e with
  | none => simp [hv] at h
  | some b =>
    cases b with
    | true =>
      simp only [hv] at h
      exact ⟨Resource.writeRefCount_factory h,
        fun p hf q hq => Resource.writeRefCount_heap_other h p hf q hq⟩
    | false =>
      simp only [hv, Option.some.injEq] at h
      subst h
      exact ⟨rfl, fun _ _ _ _ => rfl⟩

/-- `Create` keeps the static pointer and touches no `Factory` object other
than the installed one. -/
theorem Create_heap_frame {A : Type} {e e2 : Engine Ty V} {build : A → V} {args : A}
    {h : Resource T} (hcr : AbstractFactoryImpl.Create e T build args = some (e2, h)) :
    e2.factory = e.factory ∧
    ∀ p, e.factory = some p → ∀ q, q ≠ p → e2.heap[q]? = e.heap[q]? := by
  unfold AbstractFactoryImpl.Create at hcr
  simp only at hcr
  cases hg : AbstractFactoryImpl.Get
      ({ e with uuids := e.uuids.Get.2 } : Engine Ty V) T with
  | none => simp [hg] at hcr
  | some pool =>
    simp only [hg] at hcr
    unfold Resource.construct at hcr
    simp only [Option.map_eq_some'] at hcr
    obtain ⟨e3, hinc, heq⟩ := hcr
    have he : e3 = e2 := (Prod.mk.inj heq).1
    subst he
    obtain ⟨hfac, hheap⟩ := Resource.IncRef_heap_frame hinc
    rw [setPool_factory] at hfac
    refine ⟨hfac, ?_⟩
    intro p hf q hq
    have hf0 : (AbstractFactoryImpl.setPool ({ e with uuids := e.uuids.Get.2 } : Engine Ty V) T
        (pool.Allocate e.uuids.Get.1 build args).2).factory = some p := by
      rw [setPool_factory]
      exact hf
    rw [hheap p hf0 q hq]
    exact setPool_heap_other ({ e with uuids := e.uuids.Get.2 } : Engine Ty V) T _ p hf q hq

/-- `Destroy` keeps the static pointer and touches no `Factory` object other
than the installed one. -/
theorem Destroy_heap_frame {e e1 : Engine Ty V} {h : Resource T}
    (hd : AbstractFactoryImpl.Destroy e h = some e1) :
    e1.factory = e.factory ∧
    ∀ p, e.factory = some p → ∀ q, q ≠ p → e1.heap[q]? = e.heap[q]? := by
  unfold AbstractFactoryImpl.Destroy at hd
  cases hg : AbstractFactoryImpl.Get e T with
  | none => simp [hg] at hd
  | some pool =>
    simp only [hg] at hd
    cases hdd : pool.Deallocate h.GetHandle with
    | none => simp [hdd] at hd
    | some pool1 =>
      simp only [hdd, Option.some.injEq] at hd
      subst hd
      exact ⟨setPool_factory e T pool1, fun p hf q hq => setPool_heap_other e T pool1 p hf q hq⟩

end HeapLemmas

/-! ## Lemmas: runs of `Create` and `Destroy` calls -/

section RunLemmas

variable {Ty V : Type} [DecidableEq Ty] {T : Ty}

theorem runCalls_append {A : Type} (build : A → V) (pre post : List (FactoryCall A))
    (e : Engine Ty V) (issued : List (Resource T)) :
    runCalls T build e issued (pre ++ post) =
      match runCalls T build e issued pre with
      | none => none
      | some r => runCalls T build r.1 r.2 post := by
  induction pre generalizing e issued with
  | nil => rfl
  | cons call rest ih =>
    cases call with
    | create args =>
      simp only [List.cons_append, runCalls]
      cases AbstractFactoryImpl.Create e T build args with
      | none => rfl
      | some r => exact ih r.1 (issued ++ [r.2])
    | destroy k =>
      simp only [List.cons_append, runCalls]
      cases issued[k]? with
      | none => rfl
      | some h =>
        by_cases hv : h.IsValid e = some true
        · simp only [hv, if_true]
          cases AbstractFactoryImpl.Destroy e h with
          | none => rfl
          | some e1 => exact ih e1 issued
        · simp only [hv, if_false]

theorem CallsInvariant.initial (e : Engine Ty V)
    (hempty : AbstractFactoryImpl.Get e T = some ⟨[]⟩) :
    CallsInvariant T e ([] : List (Resource T)) 0 := by
  have hnone : ∀ j, slotAt e T j = none := by
    intro j
    rw [slotAt_of_Get hempty]
    rfl
  refine ⟨⟨_, hempty⟩, ?_, ?_, ?_, ?_, List.Pairwise.nil⟩
  · intro j c hc
    rw [hnone] at hc
    exact Option.noConfusion hc
  · intro j c hc
    rw [hnone] at hc
    exact Option.noConfusion hc
  · intro j c hc
    rw [hnone] at hc
    exact Option.noConfusion hc
  · intro h hmem
    exact absurd hmem (List.not_mem_nil h)

/-- In a state of the invariant a valid issued handle names a live cell. -/
theorem CallsInvariant.issued_live_of_valid {e : Engine Ty V} {issued : List (Resource T)} {n : Nat}
    (hinv : CallsInvariant T e issued n) {h : Resource T} (hmem : h ∈ issued)
    (hv : h.IsValid e = some true) :
    ∃ c, slotAt e T h.handle = some c ∧ c.allocated = true ∧ c.storage.uuid = h.uuid := by
  obtain ⟨_, _, hret, _, htok, _⟩ := hinv
  obtain ⟨_, c, hc, hu⟩ := (Resource.IsValid_true_iff e h).mp hv
  refine ⟨c, hc, ?_, hu⟩
  cases hb : c.allocated with
  | true => rfl
  | false => exact absurd (hu ▸ hret h.handle c hc hb) (htok h hmem).1

theorem CallsInvariant.create {A : Type} {e e1 : Engine Ty V} {issued : List (Resource T)}
    {n : Nat} (hinv : CallsInvariant T e issued n) {build : A → V} {args : A} {h : Resource T}
    (hcr : AbstractFactoryImpl.Create e T build args = some (e1, h)) :
    CallsInvariant T e1 (issued ++ [h]) (n + 1) := by
  obtain ⟨⟨pool, hg⟩, hrange, hret, hlive, htok, hpair⟩ := hinv
  obtain ⟨e2, hcr2, hu, _, hsame, hframe, hle, _, cnew, hcnew, hal, hcu, _⟩ :=
    Create_total e T build args pool hg
  rw [hcr2] at hcr
  have he : e2 = e1 := (Prod.mk.inj (Option.some.inj hcr)).1
  have hh : (⟨e.uuids.issued + 1, (pool.Allocate (e.uuids.issued + 1) build args).1⟩ :
      Resource T) = h := (Prod.mk.inj (Option.some.inj hcr)).2
  subst he
  subst hh
  generalize (pool.Allocate (e.uuids.issued + 1) build args).1 = idx at *
  have hlen : pool.cells.length ≤ n := by
    by_contra hc
    have hlt : n < pool.cells.length := by omega
    have hs : slotAt e T n = some (pool.cells[n]) := by
      rw [slotAt_of_Get hg]
      exact List.getElem?_eq_getElem hlt
    exact absurd (hrange n _ hs) (Nat.lt_irrefl n)
  have hiss : e2.uuids.issued = e.uuids.issued + 1 := by rw [hu]
  refine ⟨hsame, ?_, ?_, ?_, ?_, ?_⟩
  · intro j c hc
    by_cases hj : j = idx
    · omega
    · rw [hframe T j (Or.inr hj)] at hc
      exact Nat.lt_succ_of_lt (hrange j c hc)
  · intro j c hc hfree
    by_cases hj : j = idx
    · subst hj
      rw [hcnew] at hc
      have := Option.some.inj hc
      subst this
      rw [hal] at hfree
      exact Bool.noConfusion hfree
    · rw [hframe T j (Or.inr hj)] at hc
      exact hret j c hc hfree
  · intro j c hc hl
    by_cases hj : j = idx
    · subst hj
      rw [hcnew] at hc
      have := Option.some.inj hc
      subst this
      rw [hcu]
      exact List.mem_append_right _ (List.mem_singleton_self _)
    · rw [hframe T j (Or.inr hj)] at hc
      exact List.mem_append_left _ (hlive j c hc hl)
  · intro h1 hmem
    rcases List.mem_append.mp hmem with hold | hnew
    · obtain ⟨h0, hle1⟩ := htok h1 hold
      rw [hiss]
      exact ⟨h0, Nat.le_succ_of_le hle1⟩
    · rw [List.mem_singleton.mp hnew, hiss]
      exact ⟨Nat.succ_ne_zero _, Nat.le_refl _⟩
  · rw [List.pairwise_append]
    refine ⟨hpair, List.pairwise_singleton _ _, ?_⟩
    intro a ha b hb
    rw [List.mem_singleton.mp hb]
    have hle1 := (htok a ha).2
    exact Nat.ne_of_lt (Nat.lt_succ_of_le hle1)

theorem CallsInvariant.destroy {e : Engine Ty V} {issued : List (Resource T)} {n : Nat}
    (hinv : CallsInvariant T e issued n) {h : Resource T} (hmem : h ∈ issued)
    (hv : h.IsValid e = some true) :
    ∃ e1, AbstractFactoryImpl.Destroy e h = some e1 ∧ CallsInvariant T e1 issued n := by
  obtain ⟨c, hc, hal, _⟩ := hinv.issued_live_of_valid hmem hv
  obtain ⟨_, hrange, hret, hlive, htok, hpair⟩ := hinv
  obtain ⟨e1, hd, hu, _, hnew, hframe⟩ := Destroy_spec e h c hc hal
  refine ⟨e1, hd, ?_, ?_, ?_, ?_, ?_, hpair⟩
  · obtain ⟨pool1, hg1, _⟩ := Get_of_slotAt hnew
    exact ⟨pool1, hg1⟩
  · intro j d hdj
    by_cases hj : j = h.handle
    · subst hj
      exact hrange _ c hc
    · rw [hframe T j (Or.inr hj)] at hdj
      exact hrange j d hdj
  · intro j d hdj hfree
    by_cases hj : j = h.handle
    · subst hj
      rw [hnew] at hdj
      have := Option.some.inj hdj
      subst this
      rfl
    · rw [hframe T j (Or.inr hj)] at hdj
      exact hret j d hdj hfree
  · intro j d hdj hl
    by_cases hj : j = h.handle
    · subst hj
      rw [hnew] at hdj
      have := Option.some.inj hdj
      subst this
      exact Bool.noConfusion hl
    · rw [hframe T j (Or.inr hj)] at hdj
      exact hlive j d hdj hl
  · intro h1 hmem1
    rw [hu]
    exact htok h1 hmem1

theorem CallsInvariant.run {A : Type} (build : A → V) (calls : List (FactoryCall A))
    (e : Engine Ty V) (issued : List (Resource T)) (n : Nat)
    (hinv : CallsInvariant T e issued n) (result : Engine Ty V × List (Resource T))
    (hrun : runCalls T build e issued calls = some result) :
    CallsInvariant T result.1 result.2 (n + calls.length) := by
  induction calls generalizing e issued n with
  | nil =>
    simp only [runCalls, Option.some.injEq] at hrun
    subst hrun
    exact hinv
  | cons call rest ih =>
    cases call with
    | create args =>
      simp only [runCalls] at hrun
      cases hcr : AbstractFactoryImpl.Create e T build args with
      | none => simp [hcr] at hrun
      | some r =>
        obtain ⟨e1, h⟩ := r
        simp only [hcr] at hrun
        have := ih e1 (issued ++ [h]) (n + 1) (hinv.create hcr) hrun
        have heq : n + (FactoryCall.create args :: rest).length = n + 1 + rest.length := by
          rw [List.length_cons]
          omega
        rw [heq]
        exact this
    | destroy k =>
      simp only [runCalls] at hrun
      cases hk : issued[k]? with
      | none => simp [hk] at hrun
      | some h =>
        simp only [hk] at hrun
        by_cases hv : h.IsValid e = some true
        · simp only [hv, if_true] at hrun
          obtain ⟨e1, hd, hinv1⟩ := hinv.destroy (List.getElem?_mem hk) hv
          simp only [hd] at hrun
          have := ih e1 issued n hinv1 hrun
          rw [List.length_cons]
          refine ⟨this.1, fun j c hc => ?_, this.2.2⟩
          exact Nat.lt_of_lt_of_le (this.2.1 j c hc) (by omega)
        · simp only [hv, if_false] at hrun
          exact Option.noConfusion hrun

end RunLemmas

/-! ## The invariant `Engine.WF` holds after `Init` and is kept by the operations -/

section Invariant

variable {Ty V : Type} [DecidableEq Ty] {T : Ty}

theorem PoolCell.WF_of_le {g g1 : UUIDGenerator} (hg : g.issued ≤ g1.issued) {c : PoolCell V}
    (hc : c.WF g) : c.WF g1 :=
  ⟨hc.1, fun hl => ⟨(hc.2.1 hl).1, Nat.le_trans (hc.2.1 hl).2 hg⟩, hc.2.2⟩

theorem VectorPool.WF_mono {g g1 : UUIDGenerator} (hg : g.issued ≤ g1.issued)
    {pool : VectorPool V} (hp : pool.WF g) : pool.WF g1 :=
  ⟨hp.1, fun c hc => PoolCell.WF_of_le hg (hp.2 c hc)⟩

theorem VectorPool.WF_update {g : UUIDGenerator} {pool : VectorPool V} (hp : pool.WF g)
    (i : Nat) (f : Nat → Nat) (hf : ∀ n, f n < SIZE_MODULUS) :
    (pool.update i (fun m => { m with refCount := f m.refCount })).WF g := by
  refine ⟨by rw [VectorPool.length_update]; exact hp.1, ?_⟩
  intro c hc
  obtain ⟨j, hj⟩ := List.mem_iff_getElem?.mp hc
  rw [VectorPool.cells_update] at hj
  by_cases hji : j = i
  · rw [if_pos hji] at hj
    cases hold : pool.cells[i]? with
    | none => simp [hold] at hj
    | some d =>
      simp only [hold, Option.map_some', Option.some.injEq] at hj
      have hd := hp.2 d (List.mem_iff_getElem?.mpr ⟨i, hold⟩)
      subst hj
      exact ⟨hd.1, hd.2.1, hf _⟩
  · rw [if_neg hji] at hj
    exact hp.2 c (List.mem_iff_getElem?.mpr ⟨j, hj⟩)

theorem VectorPool.WF_Deallocate {g : UUIDGenerator} {pool pool1 : VectorPool V}
    (hp : pool.WF g) {i : Nat} (hd : pool.Deallocate i = some pool1) : pool1.WF g := by
  unfold VectorPool.Deallocate at hd
  cases hc : pool.cells[i]? with
  | none => simp [hc] at hd
  | some c =>
    by_cases hl : c.allocated = true
    · simp only [hc, hl, if_true, Option.some.injEq] at hd
      subst hd
      refine ⟨by simpa using hp.1, ?_⟩
      intro d hdm
      rcases List.mem_or_eq_of_mem_set hdm with hold | hnew
      · exact hp.2 d hold
      · subst hnew
        have hcw := hp.2 c (List.mem_iff_getElem?.mpr ⟨i, hc⟩)
        exact ⟨fun _ => rfl, fun hh => Bool.noConfusion hh, hcw.2.2⟩
    · simp [hc, hl] at hd

theorem VectorPool.WF_Allocate {A : Type} {g : UUIDGenerator} {pool : VectorPool V}
    (hp : pool.WF g) (build : A → V) (args : A)
    (hroom : (pool.Allocate (g.issued + 1) build args).1 < InvalidHandle) :
    (pool.Allocate (g.issued + 1) build args).2.WF ⟨g.issued + 1⟩ := by
  have hmono : pool.WF ⟨g.issued + 1⟩ := VectorPool.WF_mono (Nat.le_succ _) hp
  have hnewcell : (⟨true, ManagedResource.construct (g.issued + 1) build args⟩ :
      PoolCell V).WF ⟨g.issued + 1⟩ :=
    ⟨fun hh => Bool.noConfusion hh, fun _ => ⟨Nat.succ_ne_zero _, Nat.le_refl _⟩,
      by unfold ManagedResource.construct SIZE_MODULUS; exact Nat.succ_pos _⟩
  unfold VectorPool.Allocate at hroom ⊢
  cases hl : lowestFree pool.cells with
  | some i =>
    refine ⟨by simpa using hmono.1, ?_⟩
    intro d hdm
    rcases List.mem_or_eq_of_mem_set hdm with hold | hnew
    · exact hmono.2 d hold
    · subst hnew
      exact hnewcell
  | none =>
    simp only [hl] at hroom
    refine ⟨by simp only [List.length_append, List.length_singleton]; omega, ?_⟩
    intro d hdm
    rcases List.mem_append.mp hdm with hold | hnew
    · exact hmono.2 d hold
    · rw [List.mem_singleton.mp hnew]
      exact hnewcell

theorem Engine.WF_setPool {e : Engine Ty V} (hwf : e.WF) {pool q : VectorPool V}
    (hq : AbstractFactoryImpl.Get e T = some q) (hp : pool.WF e.uuids) :
    (AbstractFactoryImpl.setPool e T pool).WF := by
  intro U p1 hg
  rw [setPool_uuids]
  by_cases hU : U = T
  · subst hU
    rw [Get_setPool_same e U pool q hq] at hg
    rw [← Option.some.inj hg]
    exact hp
  · rw [Get_setPool_other e T U pool hU] at hg
    exact hwf U p1 hg

theorem Engine.WF_writeRefCount {e e1 : Engine Ty V} (hwf : e.WF) {r : Resource T}
    {f : Nat → Nat} (hf : ∀ n, f n < SIZE_MODULUS) (h : r.writeRefCount e f = some e1) :
    e1.WF := by
  unfold Resource.writeRefCount at h
  cases hg : AbstractFactoryImpl.Get e T with
  | none => simp [hg] at h
  | some pool =>
    simp only [hg, Option.some.injEq] at h
    subst h
    exact Engine.WF_setPool hwf hg (VectorPool.WF_update (hwf T pool hg) r.handle f hf)

/-- `IncRef` keeps the invariant. -/
theorem Engine.WF_IncRef {e e1 : Engine Ty V} (hwf : e.WF) {r : Resource T}
    (h : r.IncRef e = some e1) : e1.WF := by
  unfold Resource.IncRef at h
  cases hv : r.IsValid e with
  | none => simp [hv] at h
  | some b =>
    cases b with
    | true =>
      simp only [hv] at h
      exact Engine.WF_writeRefCount hwf sizeInc_lt h
    | false =>
      simp only [hv, Option.some.injEq] at h
      subst h
      exact hwf

/-- `DecRef`, hence handle destruction, keeps the invariant. -/
theorem Engine.WF_DecRef {e e1 : Engine Ty V} (hwf : e.WF) {r : Resource T}
    (h : r.DecRef e = some e1) : e1.WF := by
  unfold Resource.DecRef at h
  cases hv : r.IsValid e with
  | none => simp [hv] at h
  | some b =>
    cases b with
    | true =>
      simp only [hv] at h
      exact Engine.WF_writeRefCount hwf sizeDec_lt h
    | false =>
      simp only [hv, Option.some.injEq] at h
      subst h
      exact hwf

/-- `Destroy` keeps the invariant. -/
theorem Engine.WF_Destroy {e e1 : Engine Ty V} (hwf : e.WF) {h : Resource T}
    (hd : AbstractFactoryImpl.Destroy e h = some e1) : e1.WF := by
  unfold AbstractFactoryImpl.Destroy at hd
  cases hg : AbstractFactoryImpl.Get e T with
  | none => simp [hg] at hd
  | some pool =>
    simp only [hg] at hd
    cases hdd : pool.Deallocate h.GetHandle with
    | none => simp [hdd] at hd
    | some pool1 =>
      simp only [hdd, Option.some.injEq] at hd
      subst hd
      exact Engine.WF_setPool hwf hg (VectorPool.WF_Deallocate (hwf T pool hg) hdd)

/-- `Create` keeps the invariant as long as the arena has an index left. -/
theorem Engine.WF_Create {A : Type} {e e2 : Engine Ty V} (hwf : e.WF) {build : A → V}
    {args : A} {h : Resource T} {pool : VectorPool V}
    (hg : AbstractFactoryImpl.Get e T = some pool)
    (hroom : (pool.Allocate (e.uuids.issued + 1) build args).1 < InvalidHandle)
    (hcr : AbstractFactoryImpl.Create e T build args = some (e2, h)) : e2.WF := by
  have hwf0 : (({ e with uuids := (⟨e.uuids.issued + 1⟩ : UUIDGenerator) } : Engine Ty V)).WF :=
    fun U p hp => VectorPool.WF_mono (Nat.le_succ _) (hwf U p hp)
  have hg0 : AbstractFactoryImpl.Get
      ({ e with uuids := (⟨e.uuids.issued + 1⟩ : UUIDGenerator) } : Engine Ty V) T =
      some pool := hg
  have hwf1 := Engine.WF_setPool hwf0 hg0
    (VectorPool.WF_Allocate (hwf T pool hg) build args hroom)
  unfold AbstractFactoryImpl.Create at hcr
  simp only [UUIDGenerator.Get, hg0] at hcr
  unfold Resource.construct at hcr
  simp only [Option.map_eq_some'] at hcr
  obtain ⟨e3, hinc, heq⟩ := hcr
  have he : e3 = e2 := (Prod.mk.inj heq).1
  subst he
  exact Engine.WF_IncRef hwf1 hinc

theorem FactoryImpl.GetPool_fresh (T : Ty) (Args : List Ty) (U : Ty) (p : VectorPool V)
    (h : (FactoryImpl.fresh T Args : FactoryImpl Ty V).GetPool U = some p) : p = ⟨[]⟩ := by
  induction Args generalizing T with
  | nil =>
    unfold FactoryImpl.fresh FactoryImpl.GetPool at h
    by_cases hT : T = U
    · simp only [hT, if_true, Option.some.injEq] at h
      exact h.symm
    · simp [hT] at h
  | cons W rest ih =>
    unfold FactoryImpl.fresh FactoryImpl.GetPool at h
    by_cases hT : T = U
    · simp only [hT, if_true, Option.some.injEq] at h
      exact h.symm
    · simp only [hT, if_false] at h
      exact ih W h

/-- `Init` in a process without a factory establishes the invariant. -/
theorem Engine.WF_Init (T : Ty) (Args : List Ty) (e : Engine Ty V) (hnull : e.factory = none) :
    (AbstractFactoryImpl.Init T Args e).WF := by
  intro U p hg
  have hp : p = ⟨[]⟩ := by
    unfold AbstractFactoryImpl.Init AbstractFactoryImpl.Get at hg
    simp only [hnull] at hg
    rw [List.getElem?_append_right (Nat.le_refl _)] at hg
    simp only [Nat.sub_self, List.getElem?_cons_zero] at hg
    exact FactoryImpl.GetPool_fresh T Args U p hg
  subst hp
  exact ⟨Nat.zero_le _, fun c hc => absurd hc (List.not_mem_nil c)⟩

end Invariant

/-! ## Lemmas: number of allocated cells -/

section AllocatedCount

variable {Ty V : Type} [DecidableEq Ty] {T : Ty}

theorem countP_set_free {cells : List (PoolCell V)} {i : Nat} {c new : PoolCell V}
    (hc : cells[i]? = some c) (hfree : c.allocated = false) (hnew : new.allocated = true) :
    (cells.set i new).countP (fun c => c.allocated) =
      cells.countP (fun c => c.allocated) + 1 := by
  induction cells generalizing i with
  | nil => simp at hc
  | cons d ds ih =>
    cases i with
    | zero =>
      simp only [List.getElem?_cons_zero, Option.some.injEq] at hc
      subst hc
      simp [List.countP_cons, hfree, hnew]
    | succ k =>
      simp only [List.getElem?_cons_succ] at hc
      simp only [List.set_cons_succ, List.countP_cons, ih hc]
      omega

theorem countP_set_same_flag {cells : List (PoolCell V)} {i : Nat} {c new : PoolCell V}
    (hc : cells[i]? = some c) (hflag : new.allocated = c.allocated) :
    (cells.set i new).countP (fun c => c.allocated) =
      cells.countP (fun c => c.allocated) := by
  induction cells generalizing i with
  | nil => simp at hc
  | cons d ds ih =>
    cases i with
    | zero =>
      simp only [List.getElem?_cons_zero, Option.some.injEq] at hc
      subst hc
      simp [List.countP_cons, hflag]
    | succ k =>
      simp only [List.getElem?_cons_succ] at hc
      simp only [List.set_cons_succ, List.countP_cons, ih hc]

theorem VectorPool.countP_Allocate {A : Type} (pool : VectorPool V) (uuid : UUID)
    (build : A → V) (args : A) :
    (pool.Allocate uuid build args).2.cells.countP (fun c => c.allocated) =
      pool.cells.countP (fun c => c.allocated) + 1 := by
  unfold VectorPool.Allocate
  cases hl : lowestFree pool.cells with
  | some i =>
    obtain ⟨c, hc, hfree⟩ := lowestFree_some hl
    exact countP_set_free hc hfree rfl
  | none => simp [List.countP_append]

theorem VectorPool.countP_update (pool : VectorPool V) (i : Nat) (f : Nat → Nat) :
    (pool.update i (fun m => { m with refCount := f m.refCount })).cells.countP
        (fun c => c.allocated) =
      pool.cells.countP (fun c => c.allocated) := by
  unfold VectorPool.update
  cases hc : pool.cells[i]? with
  | none => rfl
  | some c => exact countP_set_same_flag hc rfl

theorem allocatedCount_setPool (e : Engine Ty V) (pool q : VectorPool V)
    (hq : AbstractFactoryImpl.Get e T = some q) :
    allocatedCount (AbstractFactoryImpl.setPool e T pool) T =
      some (pool.cells.countP (fun c => c.allocated)) := by
  unfold allocatedCount
  rw [Get_setPool_same e T pool q hq]
  rfl

theorem Resource.allocatedCount_writeRefCount {e e1 : Engine Ty V} {r : Resource T}
    {f : Nat → Nat} (h : r.writeRefCount e f = some e1) :
    allocatedCount e1 T = allocatedCount e T := by
  unfold Resource.writeRefCount at h
  cases hg : AbstractFactoryImpl.Get e T with
  | none => simp [hg] at h
  | some pool =>
    simp only [hg, Option.some.injEq] at h
    subst h
    rw [allocatedCount_setPool e _ pool hg, VectorPool.countP_update]
    unfold allocatedCount
    rw [hg]
    rfl

theorem Resource.allocatedCount_IncRef {e e1 : Engine Ty V} {r : Resource T}
    (h : r.IncRef e = some e1) : allocatedCount e1 T = allocatedCount e T := by
  unfold Resource.IncRef at h
  cases hv : r.IsValid e with
  | none => simp [hv] at h
  | some b =>
    cases b with
    | true =>
      simp only [hv] at h
      exact Resource.allocatedCount_writeRefCount h
    | false =>
      simp only [hv, Option.some.injEq] at h
      rw [h]

/-- `Create` raises the number of allocated cells of the pool of `T` by one. -/
theorem allocatedCount_Create {A : Type} {e e2 : Engine Ty V} {build : A → V} {args : A}
    {h : Resource T} {pool : VectorPool V} (hg : AbstractFactoryImpl.Get e T = some pool)
    (hcr : AbstractFactoryImpl.Create e T build args = some (e2, h)) :
    allocatedCount e T = some (pool.cells.countP (fun c => c.allocated)) ∧
    allocatedCount e2 T = some (pool.cells.countP (fun c => c.allocated) + 1) := by
  constructor
  · unfold allocatedCount
    rw [hg]
    rfl
  · have hg0 : AbstractFactoryImpl.Get
        ({ e with uuids := (⟨e.uuids.issued + 1⟩ : UUIDGenerator) } : Engine Ty V) T =
        some pool := hg
    unfold AbstractFactoryImpl.Create at hcr
    simp only [UUIDGenerator.Get, hg0] at hcr
    unfold Resource.construct at hcr
    simp only [Option.map_eq_some'] at hcr
    obtain ⟨e3, hinc, heq⟩ := hcr
    have he : e3 = e2 := (Prod.mk.inj heq).1
    subst he
    rw [Resource.allocatedCount_IncRef hinc, allocatedCount_setPool _ _ pool hg0,
      VectorPool.countP_Allocate]

end AllocatedCount

/-! ## Claims -/

section Claims

variable {Ty V : Type} [DecidableEq Ty] {T : Ty}

/-- C1 (the code at the failing input): `Destroy` performs no validity check.
After `H1 = Create<Mesh>(10)`, `Destroy(H1)` and `H2 = Create<Mesh>(20)`, the
handle `H1` is invalid (stale: index 0 is reused with token 2) and `H2` is
valid; a second `Destroy(H1)` deallocates index 0 all the same, so the
registry changes and `H2` stops being valid. -/
theorem Destroy_stale_handle_retires_reused_slot :
    ∃ e1 H1 e2 e3 H2 e4,
      AbstractFactoryImpl.Create sampleEngine SampleType.Mesh id 10 = some (e1, H1) ∧
      AbstractFactoryImpl.Destroy e1 H1 = some e2 ∧
      AbstractFactoryImpl.Create e2 SampleType.Mesh id 20 = some (e3, H2) ∧
      H2.handle = H1.handle ∧
      H1.IsValid e3 = some false ∧
      H2.IsValid e3 = some true ∧
      AbstractFactoryImpl.Destroy e3 H1 = some e4 ∧
      e4 ≠ e3 ∧
      slotAt e3 SampleType.Mesh 0 = some ⟨true, ⟨2, 20, 1⟩⟩ ∧
      slotAt e4 SampleType.Mesh 0 = some ⟨false, ⟨0, 20, 1⟩⟩ ∧
      H2.IsValid e4 = some false :=
  ⟨_, _, _, _, _, _, rfl, rfl, rfl, by decide, by decide, by decide, rfl, by decide, by decide,
    by decide, by decide⟩

/-- C7: on a valid handle `operator->` (either build, either overload) returns
the address of the value stored in the slot at the handle's index; on a handle
that is not valid it never returns an address inside the arena: the release
build returns null and the debug build aborts on the assertion. -/
theorem arrow_valid_or_null (e : Engine Ty V) (r : Resource T) :
    (r.IsValid e = some true →
      ∃ c, slotAt e T r.handle = some c ∧
        (∀ debugBuild, r.arrow debugBuild e = some (Outcome.returned (Pointer.slot r.handle))) ∧
        Pointer.load e T (Pointer.slot r.handle) = some c.storage.value) ∧
    (r.IsValid e = some false →
      r.arrow false e = some (Outcome.returned Pointer.null) ∧
      r.arrow true e = some Outcome.aborted) ∧
    (r.IsValid e ≠ some true →
      ∀ debugBuild i, r.arrow debugBuild e ≠ some (Outcome.returned (Pointer.slot i))) := by
  refine ⟨?_, ?_, ?_⟩
  · intro hv
    obtain ⟨_, c, hc, _⟩ := (Resource.IsValid_true_iff e r).mp hv
    obtain ⟨pool, hg, hcell⟩ := Get_of_slotAt hc
    refine ⟨c, hc, ?_, ?_⟩
    · intro debugBuild
      cases debugBuild <;>
        simp [Resource.arrow, hv, Resource.GetUnchecked, Resource.DereferenceHandle, hg,
          VectorPool.subscript, hcell]
    · simp [Pointer.load, hg, VectorPool.subscript, hcell]
  · intro hv
    simp [Resource.arrow, hv]
  · intro hv debugBuild i
    cases hval : r.IsValid e with
    | none => cases debugBuild <;> simp [Resource.arrow, hval]
    | some b =>
      cases b with
      | true => exact absurd hval hv
      | false => cases debugBuild <;> simp [Resource.arrow, hval]

/-- C7 at concrete handles: the valid handle `(2, 1)` of `sampleLive` yields the
address of slot 1, which holds 20; the stale handle `(7, 1)` yields null. -/
theorem arrow_valid_or_null_witness :
    (∃ c, slotAt sampleLive SampleType.Mesh 1 = some c ∧
      (∀ debugBuild, (⟨2, 1⟩ : Resource SampleType.Mesh).arrow debugBuild sampleLive =
        some (Outcome.returned (Pointer.slot 1))) ∧
      Pointer.load sampleLive SampleType.Mesh (Pointer.slot 1) = some c.storage.value) ∧
    ((⟨7, 1⟩ : Resource SampleType.Mesh).arrow false sampleLive =
        some (Outcome.returned Pointer.null) ∧
      (⟨7, 1⟩ : Resource SampleType.Mesh).arrow true sampleLive = some Outcome.aborted) :=
  ⟨(arrow_valid_or_null sampleLive (⟨2, 1⟩ : Resource SampleType.Mesh)).1 (by decide),
   (arrow_valid_or_null sampleLive (⟨7, 1⟩ : Resource SampleType.Mesh)).2.1 (by decide)⟩

/-- C10: move construction gives the new handle the token and index of the
source, changes no cell of any pool (the engine is the same, so every
reference count is), and leaves the source with `InvalidHandle`, so
that the source is invalid in every state; a source that was valid makes the
new handle valid. -/
theorem moveConstruct_transfers (e : Engine Ty V) (b : Resource T) :
    (Resource.moveConstruct e b).1 = e ∧
    (∀ (U : Ty) (i : Nat),
      refCountAt (Resource.moveConstruct e b).1 U i = refCountAt e U i) ∧
    (Resource.moveConstruct e b).2.1.uuid = b.uuid ∧
    (Resource.moveConstruct e b).2.1.handle = b.handle ∧
    (Resource.moveConstruct e b).2.2.handle = InvalidHandle ∧
    (∀ e1 : Engine Ty V, (Resource.moveConstruct e b).2.2.IsValid e1 = some false) ∧
    (b.IsValid e = some true →
      (Resource.moveConstruct e b).2.1.IsValid (Resource.moveConstruct e b).1 = some true) := by
  refine ⟨rfl, fun _ _ => rfl, rfl, rfl, rfl, ?_, ?_⟩
  · intro e1
    simp [Resource.moveConstruct, Resource.IsValid]
  · intro hv
    exact hv

/-- C10 at a concrete handle: moving the valid handle `(2, 1)` of `sampleLive`. -/
theorem moveConstruct_transfers_witness :
    (Resource.moveConstruct sampleLive (⟨2, 1⟩ : Resource SampleType.Mesh)).2.1.IsValid
      (Resource.moveConstruct sampleLive (⟨2, 1⟩ : Resource SampleType.Mesh)).1 = some true :=
  (moveConstruct_transfers sampleLive (⟨2, 1⟩ : Resource SampleType.Mesh)).2.2.2.2.2.2
    (by decide)

end Claims

section Claims2

variable {Ty V : Type} [DecidableEq Ty] {T : Ty}

/-- C8: copy construction from a valid handle gives the copy the same token and
index, the copy is valid, the cell of the handle gets the reference count
`refCount++` (one more, since the count is below the largest `size_t`) and is
otherwise the same, and no other cell of any pool changes; copy construction
from an invalid handle leaves the whole engine as it is and the copy invalid. -/
theorem copyConstruct_counts (e : Engine Ty V) (b : Resource T) :
    (b.IsValid e = some true →
      ∃ e1 a c, Resource.copyConstruct e b = some (e1, a) ∧
        a.uuid = b.uuid ∧ a.handle = b.handle ∧
        a.IsValid e1 = some true ∧
        slotAt e T b.handle = some c ∧
        slotAt e1 T b.handle =
          some { c with storage := { c.storage with refCount := sizeInc c.storage.refCount } } ∧
        (c.storage.refCount + 1 < SIZE_MODULUS →
          refCountAt e1 T b.handle = some (c.storage.refCount + 1)) ∧
        (∀ (U : Ty) (i : Nat), (U ≠ T ∨ i ≠ b.handle) → slotAt e1 U i = slotAt e U i)) ∧
    (b.IsValid e = some false →
      ∃ a, Resource.copyConstruct e b = some (e, a) ∧
        a.uuid = b.uuid ∧ a.handle = b.handle ∧ a.IsValid e = some false) := by
  constructor
  · intro hv
    obtain ⟨_, c, hc, _⟩ := (Resource.IsValid_true_iff e b).mp hv
    obtain ⟨e1, he1⟩ := Resource.writeRefCount_isSome hc sizeInc
    have hslot := Resource.slotAt_writeRefCount he1
    refine ⟨e1, b, c, ?_, rfl, rfl, ?_, hc, ?_, ?_, ?_⟩
    · simp [Resource.copyConstruct, Resource.eta, Resource.IncRef_valid hv, he1]
    · rw [Resource.IsValid_writeRefCount he1]
      exact hv
    · rw [hslot T b.handle]
      simp [hc]
    · intro hlt
      unfold refCountAt
      rw [hslot T b.handle]
      simp [hc, sizeInc_of_lt hlt]
    · intro U i hne
      rw [hslot U i]
      have : ¬ (U = T ∧ i = b.handle) := by
        rintro ⟨h1, h2⟩
        rcases hne with h | h
        · exact h h1
        · exact h h2
      simp [this]
  · intro hv
    refine ⟨b, ?_, rfl, rfl, hv⟩
    simp [Resource.copyConstruct, Resource.eta, Resource.IncRef_invalid hv]

/-- C8 at concrete handles of `sampleLive`: copying the valid `(2, 1)` raises the
count of slot 1 from 2 to 3; copying the stale `(7, 1)` changes nothing. -/
theorem copyConstruct_counts_witness :
    (∃ e1 a c, Resource.copyConstruct sampleLive (⟨2, 1⟩ : Resource SampleType.Mesh) =
          some (e1, a) ∧
        a.uuid = 2 ∧ a.handle = 1 ∧
        a.IsValid e1 = some true ∧
        slotAt sampleLive SampleType.Mesh 1 = some c ∧
        slotAt e1 SampleType.Mesh 1 =
          some { c with storage := { c.storage with refCount := sizeInc c.storage.refCount } } ∧
        (c.storage.refCount + 1 < SIZE_MODULUS →
          refCountAt e1 SampleType.Mesh 1 = some (c.storage.refCount + 1)) ∧
        (∀ (U : SampleType) (i : Nat), (U ≠ SampleType.Mesh ∨ i ≠ 1) →
          slotAt e1 U i = slotAt sampleLive U i)) ∧
    (∃ a, Resource.copyConstruct sampleLive (⟨7, 1⟩ : Resource SampleType.Mesh) =
          some (sampleLive, a) ∧
        a.uuid = 7 ∧ a.handle = 1 ∧ a.IsValid sampleLive = some false) :=
  ⟨(copyConstruct_counts sampleLive (⟨2, 1⟩ : Resource SampleType.Mesh)).1 (by decide),
   (copyConstruct_counts sampleLive (⟨7, 1⟩ : Resource SampleType.Mesh)).2 (by decide)⟩

/-- C9: copy assignment `a = b`.  For `a` and `b` valid on two different slots
the cell of `a` gets `refCount--`, the cell of `b` gets `refCount++` (one less
and one more when the counts do not wrap), nothing else changes and `a` ends
with the token and index of `b`.  When `b` is invalid the engine is the one
left by the `DecRef` step: no count is incremented.  When `a` and `b` are valid
on the same slot (self-assignment included) no cell changes and `a` stays
valid. -/
theorem copyAssign_counts (e : Engine Ty V) (a b : Resource T) :
    (a.IsValid e = some true → b.IsValid e = some true → a.handle ≠ b.handle →
      ∃ e2 a1 ca cb, Resource.copyAssign e a b = some (e2, a1) ∧
        a1.uuid = b.uuid ∧ a1.handle = b.handle ∧
        slotAt e T a.handle = some ca ∧ slotAt e T b.handle = some cb ∧
        slotAt e2 T a.handle =
          some { ca with storage := { ca.storage with refCount := sizeDec ca.storage.refCount } } ∧
        slotAt e2 T b.handle =
          some { cb with storage := { cb.storage with refCount := sizeInc cb.storage.refCount } } ∧
        (0 < ca.storage.refCount → ca.storage.refCount < SIZE_MODULUS →
          refCountAt e2 T a.handle = some (ca.storage.refCount - 1)) ∧
        (cb.storage.refCount + 1 < SIZE_MODULUS →
          refCountAt e2 T b.handle = some (cb.storage.refCount + 1)) ∧
        (∀ (U : Ty) (i : Nat), (U ≠ T ∨ (i ≠ a.handle ∧ i ≠ b.handle)) →
          slotAt e2 U i = slotAt e U i)) ∧
    (b.IsValid e = some false → ∀ e1, a.DecRef e = some e1 →
      ∃ a1, Resource.copyAssign e a b = some (e1, a1) ∧
        a1.uuid = b.uuid ∧ a1.handle = b.handle) ∧
    (a.IsValid e = some true → b.IsValid e = some true → a.handle = b.handle →
      (∀ c, slotAt e T a.handle = some c → c.storage.refCount < SIZE_MODULUS) →
      ∃ e2 a1, Resource.copyAssign e a b = some (e2, a1) ∧
        a1.uuid = b.uuid ∧ a1.handle = b.handle ∧
        (∀ (U : Ty) (i : Nat), slotAt e2 U i = slotAt e U i) ∧
        refCountAt e2 T a.handle = refCountAt e T a.handle ∧
        a1.IsValid e2 = some true) := by
  refine ⟨?_, ?_, ?_⟩
  · intro hva hvb hne
    obtain ⟨_, ca, hca, _⟩ := (Resource.IsValid_true_iff e a).mp hva
    obtain ⟨_, cb, hcb, _⟩ := (Resource.IsValid_true_iff e b).mp hvb
    obtain ⟨e1, he1⟩ := Resource.writeRefCount_isSome hca sizeDec
    have hs1 := Resource.slotAt_writeRefCount he1
    have hne1 : ¬ b.handle = a.handle := fun h => hne h.symm
    have hcb1 : slotAt e1 T b.handle = some cb := by
      rw [hs1 T b.handle]
      simp [hne1, hcb]
    have hvb1 : b.IsValid e1 = some true := by
      rw [Resource.IsValid_writeRefCount he1]
      exact hvb
    obtain ⟨e2, he2⟩ := Resource.writeRefCount_isSome hcb1 sizeInc
    have hs2 := Resource.slotAt_writeRefCount he2
    have hA : slotAt e2 T a.handle =
        some { ca with storage := { ca.storage with refCount := sizeDec ca.storage.refCount } } := by
      rw [hs2 T a.handle, hs1 T a.handle]
      simp [hne, hca]
    have hB : slotAt e2 T b.handle =
        some { cb with storage := { cb.storage with refCount := sizeInc cb.storage.refCount } } := by
      rw [hs2 T b.handle]
      simp [hcb1]
    refine ⟨e2, b, ca, cb, ?_, rfl, rfl, hca, hcb, hA, hB, ?_, ?_, ?_⟩
    · simp [Resource.copyAssign, Resource.eta, Resource.DecRef_valid hva, he1,
        Resource.IncRef_valid hvb1, he2]
    · intro h0 hlt
      unfold refCountAt
      rw [hA]
      simp [sizeDec_of_pos h0 hlt]
    · intro hlt
      unfold refCountAt
      rw [hB]
      simp [sizeInc_of_lt hlt]
    · intro U i hfar
      rw [hs2 U i, hs1 U i]
      have h1 : ¬ (U = T ∧ i = b.handle) := by
        rintro ⟨h1, h2⟩
        rcases hfar with h | h
        · exact h h1
        · exact h.2 h2
      have h2 : ¬ (U = T ∧ i = a.handle) := by
        rintro ⟨h1, h2⟩
        rcases hfar with h | h
        · exact h h1
        · exact h.1 h2
      simp [h1, h2]
  · intro hvb e1 hdec
    have hvb1 : b.IsValid e1 = some false := by
      unfold Resource.DecRef at hdec
      cases hva : a.IsValid e with
      | none => simp [hva] at hdec
      | some v =>
        cases v with
        | true =>
          simp only [hva] at hdec
          rw [Resource.IsValid_writeRefCount hdec]
          exact hvb
        | false =>
          simp only [hva, Option.some.injEq] at hdec
          subst hdec
          exact hvb
    refine ⟨b, ?_, rfl, rfl⟩
    simp [Resource.copyAssign, Resource.eta, hdec, Resource.IncRef_invalid hvb1]
  · intro hva hvb hsame hsize
    obtain ⟨_, ca, hca, hua⟩ := (Resource.IsValid_true_iff e a).mp hva
    obtain ⟨_, cb, hcb, hub⟩ := (Resource.IsValid_true_iff e b).mp hvb
    have hab : a = b := by
      rw [← hsame, hca] at hcb
      cases hcb
      cases a
      cases b
      simp_all
    subst hab
    obtain ⟨e1, he1⟩ := Resource.writeRefCount_isSome hca sizeDec
    have hs1 := Resource.slotAt_writeRefCount he1
    have hva1 : a.IsValid e1 = some true := by
      rw [Resource.IsValid_writeRefCount he1]
      exact hva
    have hca1 : slotAt e1 T a.handle =
        some { ca with storage := { ca.storage with refCount := sizeDec ca.storage.refCount } } := by
      rw [hs1 T a.handle, if_pos ⟨rfl, rfl⟩, hca]
      rfl
    obtain ⟨e2, he2⟩ := Resource.writeRefCount_isSome hca1 sizeInc
    have hs2 := Resource.slotAt_writeRefCount he2
    have hall : ∀ (U : Ty) (i : Nat), slotAt e2 U i = slotAt e U i := by
      intro U i
      rw [hs2 U i]
      by_cases hc : U = T ∧ i = a.handle
      · obtain ⟨hU, hi⟩ := hc
        subst hU
        subst hi
        rw [if_pos ⟨rfl, rfl⟩, hca1, hca]
        exact PoolCell.restore ca (hsize ca hca)
      · rw [if_neg hc, hs1 U i, if_neg hc]
    refine ⟨e2, a, ?_, rfl, rfl, hall, ?_, ?_⟩
    · unfold Resource.copyAssign
      rw [Resource.DecRef_valid hva, he1]
      show Option.map _ (Resource.IncRef e1 (⟨a.uuid, a.handle⟩ : Resource T)) = _
      rw [Resource.eta, Resource.IncRef_valid hva1, he2]
      rfl
    · unfold refCountAt
      rw [hall]
    · rw [Resource.IsValid_writeRefCount he2]
      exact hva1

end Claims2


section Claims3

variable {Ty V : Type} [DecidableEq Ty] {T : Ty}

theorem sampleLive_WF : sampleLive.WF := by
  intro U pool h
  cases U
  · have hp : pool = ⟨[⟨true, ⟨1, 10, 1⟩⟩, ⟨true, ⟨2, 20, 2⟩⟩, ⟨false, ⟨0, 30, 0⟩⟩]⟩ := by
      simpa [AbstractFactoryImpl.Get, sampleLive, FactoryImpl.GetPool] using h.symm
    subst hp
    decide
  · have hp : pool = ⟨[]⟩ := by
      simpa [AbstractFactoryImpl.Get, sampleLive, FactoryImpl.GetPool] using h.symm
    subst hp
    decide

/-- C2: in a well-formed registry, `Destroy` on a valid handle that carries a
minted (non-null) token succeeds whatever the reference count of the slot,
and afterwards the handle and every handle with the same index and token are
invalid. -/
theorem Destroy_invalidates (e : Engine Ty V) (h : Resource T) (hwf : e.WF)
    (htok : h.uuid ≠ UUIDGenerator.GetNull) (hv : h.IsValid e = some true) :
    ∃ e1, AbstractFactoryImpl.Destroy e h = some e1 ∧
      h.IsValid e1 = some false ∧
      ∀ h1 : Resource T, h1.handle = h.handle → h1.uuid = h.uuid →
        h1.IsValid e1 = some false := by
  obtain ⟨_, c, hc, hlive, hu, _⟩ := Resource.live_of_valid hwf htok hv
  obtain ⟨e1, hd, _, _, hnew, _⟩ := Destroy_spec e h c hc hlive
  have hinv : ∀ h1 : Resource T, h1.handle = h.handle → h1.uuid = h.uuid →
      h1.IsValid e1 = some false := by
    intro h1 hh hu1
    rw [Resource.IsValid_false_iff]
    refine Or.inr ⟨_, hh ▸ hnew, ?_⟩
    show UUIDGenerator.GetNull ≠ h1.uuid
    rw [hu1]
    exact fun hh => htok hh.symm
  exact ⟨e1, hd, hinv h rfl rfl, hinv⟩

/-- C2 at a concrete handle: destroying the valid `(2, 1)` of `sampleLive`,
whose slot has reference count 2. -/
theorem Destroy_invalidates_witness :
    ∃ e1, AbstractFactoryImpl.Destroy sampleLive (⟨2, 1⟩ : Resource SampleType.Mesh) = some e1 ∧
      (⟨2, 1⟩ : Resource SampleType.Mesh).IsValid e1 = some false ∧
      ∀ h1 : Resource SampleType.Mesh, h1.handle = 1 → h1.uuid = 2 →
        h1.IsValid e1 = some false :=
  Destroy_invalidates sampleLive (⟨2, 1⟩ : Resource SampleType.Mesh) sampleLive_WF
    (by decide) (by decide)

/-- C3: in a well-formed registry, for a valid handle `H1` with a minted token,
`Destroy(H1)` followed by `Create(b)` succeeds and returns `H2` such that `H1`
and every copy of it are invalid, `H2` is valid, the tokens differ and `H2->`
yields the value built from `b`; all of this holds in particular when `H2`
reuses the index of `H1`, which it does when no lower index is free. -/
theorem Create_after_Destroy_no_alias {A : Type} (e : Engine Ty V) (H1 : Resource T)
    (build : A → V) (b : A) (hwf : e.WF) (htok : H1.uuid ≠ UUIDGenerator.GetNull)
    (hv : H1.IsValid e = some true) :
    ∃ e1 e2 H2, AbstractFactoryImpl.Destroy e H1 = some e1 ∧
      AbstractFactoryImpl.Create e1 T build b = some (e2, H2) ∧
      H2.handle ≤ H1.handle ∧
      ((∀ j c, j < H1.handle → slotAt e T j = some c → c.allocated = true) →
        H2.handle = H1.handle) ∧
      H1.IsValid e2 = some false ∧
      (∀ H1c : Resource T, H1c.uuid = H1.uuid → H1c.handle = H1.handle →
        H1c.IsValid e2 = some false) ∧
      H2.IsValid e2 = some true ∧
      H2.uuid ≠ H1.uuid ∧
      (∀ debugBuild, H2.arrow debugBuild e2 = some (Outcome.returned (Pointer.slot H2.handle))) ∧
      Pointer.load e2 T (Pointer.slot H2.handle) = some (build b) := by
  obtain ⟨hlt, c, hc, hlive, hu, hmint⟩ := Resource.live_of_valid hwf htok hv
  obtain ⟨e1, hd, hg1, _, hnew, hframe1⟩ := Destroy_spec e H1 c hc hlive
  obtain ⟨pool1, hp1, hcell1⟩ := Get_of_slotAt hnew
  have hle := VectorPool.Allocate_index_of_free pool1 (e1.uuids.issued + 1) build b hcell1 rfl
  have hidx : (pool1.Allocate (e1.uuids.issued + 1) build b).1 < InvalidHandle := by omega
  obtain ⟨_, e2, _, _, hcr, _, _, hslot2, hframe2, hwasfree⟩ :=
    Create_spec e1 T build b pool1 hp1 hidx
  generalize hidxdef : (pool1.Allocate (e1.uuids.issued + 1) build b).1 = idx at *
  have hv2 : (⟨e1.uuids.issued + 1, idx⟩ : Resource T).IsValid e2 = some true := by
    rw [Resource.IsValid_true_iff]
    exact ⟨Nat.ne_of_lt hidx, _, hslot2, rfl⟩
  have htok2 : e1.uuids.issued + 1 ≠ H1.uuid := by
    rw [hg1, ← hu]
    exact (Nat.ne_of_lt (Nat.lt_succ_of_le hmint)).symm
  have hinv : ∀ H1c : Resource T, H1c.uuid = H1.uuid → H1c.handle = H1.handle →
      H1c.IsValid e2 = some false := by
    intro H1c hcu hch
    rw [Resource.IsValid_false_iff]
    right
    by_cases hsame : H1.handle = idx
    · refine ⟨_, by rw [hch, hsame]; exact hslot2, ?_⟩
      show e1.uuids.issued + 1 ≠ H1c.uuid
      rw [hcu]
      exact htok2
    · refine ⟨_, by rw [hch, hframe2 T H1.handle (Or.inr hsame)]; exact hnew, ?_⟩
      show UUIDGenerator.GetNull ≠ H1c.uuid
      rw [hcu]
      exact fun hh => htok hh.symm
  obtain ⟨pool2, hg2, hcell2⟩ := Get_of_slotAt hslot2
  have hptr : ∀ debugBuild, (⟨e1.uuids.issued + 1, idx⟩ : Resource T).arrow debugBuild e2 =
      some (Outcome.returned (Pointer.slot idx)) := by
    intro debugBuild
    cases debugBuild <;>
      simp [Resource.arrow, hv2, Resource.GetUnchecked, Resource.DereferenceHandle, hg2,
        VectorPool.subscript, hcell2]
  have hload : Pointer.load e2 T (Pointer.slot idx) = some (build b) := by
    simp [Pointer.load, hg2, VectorPool.subscript, hcell2]
  refine ⟨e1, e2, ⟨e1.uuids.issued + 1, idx⟩, hd, hcr, hle, ?_, hinv H1 rfl rfl, hinv, hv2,
    htok2, hptr, ?_⟩
  · intro hbelow
    by_contra hne
    have hlt2 : idx < H1.handle := lt_of_le_of_ne hle hne
    have hfr := hframe1 T idx (Or.inr (Nat.ne_of_lt hlt2))
    cases hs : slotAt e1 T idx with
    | none =>
      rw [slotAt_of_Get hp1] at hs
      have h1 := getElem?_lt_of_some hcell1
      have h2 : pool1.cells[idx]? ≠ none := by
        intro hnone
        have := List.getElem?_eq_none_iff.mp hnone
        omega
      exact h2 hs
    | some d =>
      have hfree := hwasfree d hs
      rw [hfr] at hs
      have := hbelow idx d hlt2 hs
      rw [hfree] at this
      exact Bool.noConfusion this
  · exact hload

/-- C3 at a concrete handle: `H1 = (1, 0)` of `sampleLive`; after `Destroy(H1)`
and `Create<Mesh>(20)` the new handle reuses index 0. -/
theorem Create_after_Destroy_no_alias_witness :
    ∃ e1 e2 H2,
      AbstractFactoryImpl.Destroy sampleLive (⟨1, 0⟩ : Resource SampleType.Mesh) = some e1 ∧
      AbstractFactoryImpl.Create e1 SampleType.Mesh id 20 = some (e2, H2) ∧
      H2.handle ≤ 0 ∧
      ((∀ j c, j < 0 → slotAt sampleLive SampleType.Mesh j = some c → c.allocated = true) →
        H2.handle = 0) ∧
      (⟨1, 0⟩ : Resource SampleType.Mesh).IsValid e2 = some false ∧
      (∀ H1c : Resource SampleType.Mesh, H1c.uuid = 1 → H1c.handle = 0 →
        H1c.IsValid e2 = some false) ∧
      H2.IsValid e2 = some true ∧
      H2.uuid ≠ 1 ∧
      (∀ debugBuild, H2.arrow debugBuild e2 = some (Outcome.returned (Pointer.slot H2.handle))) ∧
      Pointer.load e2 SampleType.Mesh (Pointer.slot H2.handle) = some (id 20) :=
  Create_after_Destroy_no_alias sampleLive (⟨1, 0⟩ : Resource SampleType.Mesh) id 20
    sampleLive_WF (by decide) (by decide)

end Claims3


section Claims4

variable {Ty V : Type} [DecidableEq Ty] {T : Ty}

/-- C4 (counterexample): `IsValid` compares tokens and checks neither range nor
liveness.  In `sampleRetired`, the state the code reaches by `Create<Mesh>(10)`
and `Destroy`, the handle `(null, 0)` passes `IsValid` although slot 0 is not
live. -/
theorem IsValid_null_token_on_retired_slot :
    (∃ e1 H1, AbstractFactoryImpl.Create sampleEngine SampleType.Mesh id 10 = some (e1, H1) ∧
      AbstractFactoryImpl.Destroy e1 H1 = some sampleRetired) ∧
    ¬ ((⟨UUIDGenerator.GetNull, 0⟩ : Resource SampleType.Mesh).IsValid sampleRetired = some true ↔
      (⟨UUIDGenerator.GetNull, 0⟩ : Resource SampleType.Mesh).validBySpec sampleRetired = true) :=
  ⟨⟨_, _, rfl, rfl⟩, by decide⟩

/-- C4 (amended): in a well-formed registry and for a handle with a non-null
token, `IsValid` returns true if and only if the index is in range, the slot
there is live and its stored token equals the token of the handle. -/
theorem IsValid_iff_validBySpec (e : Engine Ty V) (r : Resource T) (hwf : e.WF)
    (htok : r.uuid ≠ UUIDGenerator.GetNull) :
    r.IsValid e = some true ↔ r.validBySpec e = true := by
  constructor
  · intro hv
    obtain ⟨_, c, hc, hlive, hu, _⟩ := Resource.live_of_valid hwf htok hv
    unfold Resource.validBySpec
    simp [hc, hlive, hu]
  · intro hs
    unfold Resource.validBySpec at hs
    cases hc : slotAt e T r.handle with
    | none => simp [hc] at hs
    | some c =>
      simp only [hc, Bool.and_eq_true, decide_eq_true_eq] at hs
      obtain ⟨pool, hg, hcell⟩ := Get_of_slotAt hc
      have hlt := getElem?_lt_of_some hcell
      have hlen := (hwf T pool hg).1
      rw [Resource.IsValid_true_iff]
      exact ⟨by omega, c, hc, hs.2⟩

/-- C4 (amended) at a concrete handle: `(2, 1)` of `sampleLive`. -/
theorem IsValid_iff_validBySpec_witness :
    (⟨2, 1⟩ : Resource SampleType.Mesh).IsValid sampleLive = some true ↔
      (⟨2, 1⟩ : Resource SampleType.Mesh).validBySpec sampleLive = true :=
  IsValid_iff_validBySpec sampleLive (⟨2, 1⟩ : Resource SampleType.Mesh) sampleLive_WF
    (by decide)

/-- C5: on an installed factory whose pool of `T` can take one more slot,
`Create` returns a handle that is valid right after the call and whose slot has
reference count 1: the slot is constructed with count 0 (state `e1`, before the
handle is built) and `Resource(uuid, index)` increments it once. -/
theorem Create_valid_count_one {A : Type} (e : Engine Ty V) (T : Ty) (build : A → V) (args : A)
    (pool : VectorPool V) (hp : AbstractFactoryImpl.Get e T = some pool)
    (hroom : pool.cells.length < InvalidHandle) :
    ∃ e1 e2 h,
      refCountAt e1 T h.handle = some 0 ∧
      Resource.construct e1 h.uuid h.handle = some (e2, h) ∧
      AbstractFactoryImpl.Create e T build args = some (e2, h) ∧
      h.IsValid e2 = some true ∧
      refCountAt e2 T h.handle = some 1 := by
  obtain ⟨hle, _⟩ := VectorPool.Allocate_spec pool (e.uuids.issued + 1) build args
  have hidx : (pool.Allocate (e.uuids.issued + 1) build args).1 < InvalidHandle := by omega
  obtain ⟨e1, e2, hs1, hcons, hcr, _, _, hs2, _, _⟩ := Create_spec e T build args pool hp hidx
  refine ⟨e1, e2, _, ?_, hcons, hcr, ?_, ?_⟩
  · unfold refCountAt
    rw [hs1]
    rfl
  · rw [Resource.IsValid_true_iff]
    exact ⟨Nat.ne_of_lt hidx, _, hs2, rfl⟩
  · unfold refCountAt
    rw [hs2]
    rfl

/-- C5 on the first `Create<Mesh>(10)` after `Init`. -/
theorem Create_valid_count_one_witness :
    ∃ e1 e2 h,
      refCountAt e1 SampleType.Mesh h.handle = some 0 ∧
      Resource.construct e1 h.uuid h.handle = some (e2, h) ∧
      AbstractFactoryImpl.Create sampleEngine SampleType.Mesh id 10 = some (e2, h) ∧
      h.IsValid e2 = some true ∧
      refCountAt e2 SampleType.Mesh h.handle = some 1 :=
  Create_valid_count_one sampleEngine SampleType.Mesh id 10 ⟨[]⟩ (by decide) (by decide)

/-- C6: on an installed factory whose pool of `T` can take one more slot,
`Create` mints one token `u` (the generator advances by one `Get`), allocates
with `Allocate(u, args)` obtaining index `i`, and returns the handle `(u, i)`;
afterwards the cell `i` of the pool of `T` is live and stores `u` and the value
built from `args`, and dereferencing the handle yields that value. -/
theorem Create_allocates {A : Type} (e : Engine Ty V) (T : Ty) (build : A → V) (args : A)
    (pool : VectorPool V) (hp : AbstractFactoryImpl.Get e T = some pool)
    (hroom : pool.cells.length < InvalidHandle) :
    ∃ e2,
      AbstractFactoryImpl.Create e T build args =
        some (e2, ⟨e.uuids.Get.1, (pool.Allocate e.uuids.Get.1 build args).1⟩) ∧
      e2.uuids = e.uuids.Get.2 ∧
      (slotAt e2 T (pool.Allocate e.uuids.Get.1 build args).1).map
          (fun c => (c.allocated, c.storage.uuid, c.storage.value)) =
        some (true, e.uuids.Get.1, build args) ∧
      (∀ debugBuild,
        (⟨e.uuids.Get.1, (pool.Allocate e.uuids.Get.1 build args).1⟩ : Resource T).arrow
            debugBuild e2 =
          some (Outcome.returned (Pointer.slot (pool.Allocate e.uuids.Get.1 build args).1))) ∧
      Pointer.load e2 T (Pointer.slot (pool.Allocate e.uuids.Get.1 build args).1) =
        some (build args) := by
  obtain ⟨hle, _⟩ := VectorPool.Allocate_spec pool (e.uuids.issued + 1) build args
  have hidx : (pool.Allocate (e.uuids.issued + 1) build args).1 < InvalidHandle := by omega
  obtain ⟨_, e2, _, _, hcr, hu2, _, hs2, _, _⟩ := Create_spec e T build args pool hp hidx
  show ∃ e2,
      AbstractFactoryImpl.Create e T build args =
        some (e2, ⟨e.uuids.issued + 1, (pool.Allocate (e.uuids.issued + 1) build args).1⟩) ∧
      e2.uuids = ⟨e.uuids.issued + 1⟩ ∧
      (slotAt e2 T (pool.Allocate (e.uuids.issued + 1) build args).1).map
          (fun c => (c.allocated, c.storage.uuid, c.storage.value)) =
        some (true, e.uuids.issued + 1, build args) ∧
      (∀ debugBuild,
        (⟨e.uuids.issued + 1, (pool.Allocate (e.uuids.issued + 1) build args).1⟩ :
            Resource T).arrow debugBuild e2 =
          some (Outcome.returned
            (Pointer.slot (pool.Allocate (e.uuids.issued + 1) build args).1))) ∧
      Pointer.load e2 T (Pointer.slot (pool.Allocate (e.uuids.issued + 1) build args).1) =
        some (build args)
  generalize (pool.Allocate (e.uuids.issued + 1) build args).1 = idx at *
  have hv2 : (⟨e.uuids.issued + 1, idx⟩ : Resource T).IsValid e2 = some true := by
    rw [Resource.IsValid_true_iff]
    exact ⟨Nat.ne_of_lt hidx, _, hs2, rfl⟩
  obtain ⟨pool2, hg2, hcell2⟩ := Get_of_slotAt hs2
  refine ⟨e2, hcr, hu2, ?_, ?_, ?_⟩
  · rw [hs2]
    rfl
  · intro debugBuild
    cases debugBuild <;>
      simp [Resource.arrow, hv2, Resource.GetUnchecked, Resource.DereferenceHandle, hg2,
        VectorPool.subscript, hcell2]
  · simp [Pointer.load, hg2, VectorPool.subscript, hcell2]

/-- C6 on the first `Create<Mesh>(10)` after `Init`: token 1, index 0. -/
theorem Create_allocates_witness :
    ∃ e2,
      AbstractFactoryImpl.Create sampleEngine SampleType.Mesh id 10 = some (e2, ⟨1, 0⟩) ∧
      e2.uuids = ⟨1⟩ ∧
      (slotAt e2 SampleType.Mesh 0).map
          (fun c => (c.allocated, c.storage.uuid, c.storage.value)) = some (true, 1, 10) ∧
      (∀ debugBuild, (⟨1, 0⟩ : Resource SampleType.Mesh).arrow debugBuild e2 =
          some (Outcome.returned (Pointer.slot 0))) ∧
      Pointer.load e2 SampleType.Mesh (Pointer.slot 0) = some 10 :=
  Create_allocates sampleEngine SampleType.Mesh id 10 ⟨[]⟩ (by decide) (by decide)

end Claims4


section Claims5

/-- C9 at concrete handles of `sampleLive`: `(1, 0) = (2, 1)` moves one count
from slot 0 to slot 1; assigning the stale `(7, 1)` only decrements; assigning
`(2, 1)` to itself changes nothing. -/
theorem copyAssign_counts_witness :
    (∃ e2 a1 ca cb,
        Resource.copyAssign sampleLive (⟨1, 0⟩ : Resource SampleType.Mesh) ⟨2, 1⟩ =
          some (e2, a1) ∧
        a1.uuid = 2 ∧ a1.handle = 1 ∧
        slotAt sampleLive SampleType.Mesh 0 = some ca ∧
        slotAt sampleLive SampleType.Mesh 1 = some cb ∧
        slotAt e2 SampleType.Mesh 0 =
          some { ca with storage := { ca.storage with refCount := sizeDec ca.storage.refCount } } ∧
        slotAt e2 SampleType.Mesh 1 =
          some { cb with storage := { cb.storage with refCount := sizeInc cb.storage.refCount } } ∧
        (0 < ca.storage.refCount → ca.storage.refCount < SIZE_MODULUS →
          refCountAt e2 SampleType.Mesh 0 = some (ca.storage.refCount - 1)) ∧
        (cb.storage.refCount + 1 < SIZE_MODULUS →
          refCountAt e2 SampleType.Mesh 1 = some (cb.storage.refCount + 1)) ∧
        (∀ (U : SampleType) (i : Nat), (U ≠ SampleType.Mesh ∨ (i ≠ 0 ∧ i ≠ 1)) →
          slotAt e2 U i = slotAt sampleLive U i)) ∧
    (∃ e1, Resource.DecRef sampleLive (⟨1, 0⟩ : Resource SampleType.Mesh) = some e1 ∧
      ∃ a1, Resource.copyAssign sampleLive (⟨1, 0⟩ : Resource SampleType.Mesh) ⟨7, 1⟩ =
          some (e1, a1) ∧
        a1.uuid = 7 ∧ a1.handle = 1) ∧
    (∃ e2 a1,
        Resource.copyAssign sampleLive (⟨2, 1⟩ : Resource SampleType.Mesh) ⟨2, 1⟩ =
          some (e2, a1) ∧
        a1.uuid = 2 ∧ a1.handle = 1 ∧
        (∀ (U : SampleType) (i : Nat), slotAt e2 U i = slotAt sampleLive U i) ∧
        refCountAt e2 SampleType.Mesh 1 = refCountAt sampleLive SampleType.Mesh 1 ∧
        a1.IsValid e2 = some true) :=
  ⟨(copyAssign_counts sampleLive (⟨1, 0⟩ : Resource SampleType.Mesh) ⟨2, 1⟩).1
      (by decide) (by decide) (by decide),
   ⟨_, rfl, (copyAssign_counts sampleLive (⟨1, 0⟩ : Resource SampleType.Mesh) ⟨7, 1⟩).2.1
      (by decide) _ rfl⟩,
   (copyAssign_counts sampleLive (⟨2, 1⟩ : Resource SampleType.Mesh) ⟨2, 1⟩).2.2
      (by decide) (by decide) rfl
      (fun c hc => by
        have h2 : c = ⟨true, ⟨2, 20, 2⟩⟩ := (Option.some.inj hc).symm
        subst h2
        decide)⟩

end Claims5


section Claims6

variable {Ty V : Type} [DecidableEq Ty] {T : Ty}

theorem Pointer.load_slot (e : Engine Ty V) (T : Ty) (i : Nat) :
    Pointer.load e T (Pointer.slot i) = (slotAt e T i).map (fun c => c.storage.value) := by
  unfold Pointer.load slotAt VectorPool.subscript
  cases AbstractFactoryImpl.Get e T with
  | none => rfl
  | some pool =>
    cases hc : pool.cells[i]? with
    | none => simp [hc]
    | some c => simp [hc]

theorem Resource.IsValid_moved (b : Resource T) (e : Engine Ty V) :
    ({ b with handle := InvalidHandle } : Resource T).IsValid e = some false := by
  simp [Resource.IsValid]

/-- C11 (counterexample): move assignment runs `DecRef()` on the assigned handle
first.  In `sampleLive`, `a = (1, 0)` is valid on slot 0 with count 1; after
`a = std::move(b)` with `b = (2, 1)` the count of slot 0 is 0, so a reference
count has changed. -/
theorem moveAssign_decrements_former_slot :
    ∃ e1 a1 b1,
      Resource.moveAssign sampleLive (⟨1, 0⟩ : Resource SampleType.Mesh) ⟨2, 1⟩ =
        some (e1, a1, b1) ∧
      refCountAt sampleLive SampleType.Mesh 0 = some 1 ∧
      refCountAt e1 SampleType.Mesh 0 = some 0 ∧
      ¬ (∀ (U : SampleType) (i : Nat), refCountAt e1 U i = refCountAt sampleLive U i) :=
  ⟨_, _, _, rfl, by decide, by decide, fun h => absurd (h SampleType.Mesh 0) (by decide)⟩

/-- C11 (amended): move assignment `a = std::move(b)` of two handle objects
gives `a` the token and index of `b` and leaves `b` with `InvalidHandle`,
invalid in every state.  When `a` was invalid the engine is unchanged; when
`a` was valid the cell of its former slot gets `refCount--` (one less for a
positive count) and no other cell of any pool changes; no count goes up. -/
theorem moveAssign_transfers (e : Engine Ty V) (a b : Resource T) :
    (a.IsValid e = some false →
      ∃ a1 b1, Resource.moveAssign e a b = some (e, a1, b1) ∧
        a1.uuid = b.uuid ∧ a1.handle = b.handle ∧ b1.handle = InvalidHandle ∧
        (∀ e2 : Engine Ty V, b1.IsValid e2 = some false)) ∧
    (a.IsValid e = some true →
      ∃ e1 a1 b1 ca, Resource.moveAssign e a b = some (e1, a1, b1) ∧
        a1.uuid = b.uuid ∧ a1.handle = b.handle ∧ b1.handle = InvalidHandle ∧
        (∀ e2 : Engine Ty V, b1.IsValid e2 = some false) ∧
        slotAt e T a.handle = some ca ∧
        slotAt e1 T a.handle =
          some { ca with storage := { ca.storage with refCount := sizeDec ca.storage.refCount } } ∧
        (0 < ca.storage.refCount → ca.storage.refCount < SIZE_MODULUS →
          refCountAt e1 T a.handle = some (ca.storage.refCount - 1)) ∧
        (∀ (U : Ty) (i : Nat), (U ≠ T ∨ i ≠ a.handle) → slotAt e1 U i = slotAt e U i)) := by
  constructor
  · intro hv
    refine ⟨⟨b.uuid, b.handle⟩, { b with handle := InvalidHandle }, ?_, rfl, rfl, rfl,
      Resource.IsValid_moved b⟩
    simp [Resource.moveAssign, Resource.DecRef_invalid hv]
  · intro hv
    obtain ⟨_, ca, hca, _⟩ := (Resource.IsValid_true_iff e a).mp hv
    obtain ⟨e1, he1⟩ := Resource.writeRefCount_isSome hca sizeDec
    have hs1 := Resource.slotAt_writeRefCount he1
    have hA : slotAt e1 T a.handle =
        some { ca with storage := { ca.storage with refCount := sizeDec ca.storage.refCount } } := by
      rw [hs1 T a.handle, if_pos ⟨rfl, rfl⟩, hca]
      rfl
    refine ⟨e1, ⟨b.uuid, b.handle⟩, { b with handle := InvalidHandle }, ca, ?_, rfl, rfl, rfl,
      Resource.IsValid_moved b, hca, hA, ?_, ?_⟩
    · simp [Resource.moveAssign, Resource.DecRef_valid hv, he1]
    · intro h0 hlt
      unfold refCountAt
      rw [hA]
      simp [sizeDec_of_pos h0 hlt]
    · intro U i hne
      have hn : ¬ (U = T ∧ i = a.handle) := by
        rintro ⟨h1, h2⟩
        rcases hne with h | h
        · exact h h1
        · exact h h2
      rw [hs1 U i, if_neg hn]

/-- C11 (amended) at concrete handles of `sampleLive`: assigning to the stale
`(7, 1)` changes nothing; assigning to the valid `(1, 0)` takes slot 0 from
count 1 to count 0. -/
theorem moveAssign_transfers_witness :
    (∃ a1 b1, Resource.moveAssign sampleLive (⟨7, 1⟩ : Resource SampleType.Mesh) ⟨2, 1⟩ =
          some (sampleLive, a1, b1) ∧
        a1.uuid = 2 ∧ a1.handle = 1 ∧ b1.handle = InvalidHandle ∧
        (∀ e2 : Engine SampleType Nat, b1.IsValid e2 = some false)) ∧
    (∃ e1 a1 b1 ca, Resource.moveAssign sampleLive (⟨1, 0⟩ : Resource SampleType.Mesh) ⟨2, 1⟩ =
          some (e1, a1, b1) ∧
        a1.uuid = 2 ∧ a1.handle = 1 ∧ b1.handle = InvalidHandle ∧
        (∀ e2 : Engine SampleType Nat, b1.IsValid e2 = some false) ∧
        slotAt sampleLive SampleType.Mesh 0 = some ca ∧
        slotAt e1 SampleType.Mesh 0 =
          some { ca with storage := { ca.storage with refCount := sizeDec ca.storage.refCount } } ∧
        (0 < ca.storage.refCount → ca.storage.refCount < SIZE_MODULUS →
          refCountAt e1 SampleType.Mesh 0 = some (ca.storage.refCount - 1)) ∧
        (∀ (U : SampleType) (i : Nat), (U ≠ SampleType.Mesh ∨ i ≠ 0) →
          slotAt e1 U i = slotAt sampleLive U i)) :=
  ⟨(moveAssign_transfers sampleLive (⟨7, 1⟩ : Resource SampleType.Mesh) ⟨2, 1⟩).1 (by decide),
   (moveAssign_transfers sampleLive (⟨1, 0⟩ : Resource SampleType.Mesh) ⟨2, 1⟩).2 (by decide)⟩

/-- C12: destroying a valid handle gives the cell of its slot `refCount--` (one
less for a positive count), the liveness, token and value of that cell and
every other cell of every pool being unchanged; destroying an invalid handle
leaves the whole engine as it is. -/
theorem destruct_counts (e : Engine Ty V) (h : Resource T) :
    (h.IsValid e = some true →
      ∃ e1 c, Resource.destruct e h = some e1 ∧
        slotAt e T h.handle = some c ∧
        slotAt e1 T h.handle =
          some { c with storage := { c.storage with refCount := sizeDec c.storage.refCount } } ∧
        (0 < c.storage.refCount → c.storage.refCount < SIZE_MODULUS →
          refCountAt e1 T h.handle = some (c.storage.refCount - 1)) ∧
        (∀ (U : Ty) (i : Nat), (U ≠ T ∨ i ≠ h.handle) → slotAt e1 U i = slotAt e U i)) ∧
    (h.IsValid e = some false → Resource.destruct e h = some e) := by
  constructor
  · intro hv
    obtain ⟨_, c, hc, _⟩ := (Resource.IsValid_true_iff e h).mp hv
    obtain ⟨e1, he1⟩ := Resource.writeRefCount_isSome hc sizeDec
    have hs1 := Resource.slotAt_writeRefCount he1
    have hA : slotAt e1 T h.handle =
        some { c with storage := { c.storage with refCount := sizeDec c.storage.refCount } } := by
      rw [hs1 T h.handle, if_pos ⟨rfl, rfl⟩, hc]
      rfl
    refine ⟨e1, c, ?_, hc, hA, ?_, ?_⟩
    · unfold Resource.destruct
      rw [Resource.DecRef_valid hv, he1]
    · intro h0 hlt
      unfold refCountAt
      rw [hA]
      simp [sizeDec_of_pos h0 hlt]
    · intro U i hne
      have hn : ¬ (U = T ∧ i = h.handle) := by
        rintro ⟨h1, h2⟩
        rcases hne with hh | hh
        · exact hh h1
        · exact hh h2
      rw [hs1 U i, if_neg hn]
  · intro hv
    unfold Resource.destruct
    exact Resource.DecRef_invalid hv

/-- C12 at concrete handles of `sampleLive`: destroying `(2, 1)` takes slot 1
from count 2 to count 1; destroying the stale `(7, 1)` changes nothing. -/
theorem destruct_counts_witness :
    (∃ e1 c, Resource.destruct sampleLive (⟨2, 1⟩ : Resource SampleType.Mesh) = some e1 ∧
        slotAt sampleLive SampleType.Mesh 1 = some c ∧
        slotAt e1 SampleType.Mesh 1 =
          some { c with storage := { c.storage with refCount := sizeDec c.storage.refCount } } ∧
        (0 < c.storage.refCount → c.storage.refCount < SIZE_MODULUS →
          refCountAt e1 SampleType.Mesh 1 = some (c.storage.refCount - 1)) ∧
        (∀ (U : SampleType) (i : Nat), (U ≠ SampleType.Mesh ∨ i ≠ 1) →
          slotAt e1 U i = slotAt sampleLive U i)) ∧
    Resource.destruct sampleLive (⟨7, 1⟩ : Resource SampleType.Mesh) = some sampleLive :=
  ⟨(destruct_counts sampleLive (⟨2, 1⟩ : Resource SampleType.Mesh)).1 (by decide),
   (destruct_counts sampleLive (⟨7, 1⟩ : Resource SampleType.Mesh)).2 (by decide)⟩

end Claims6


section Claims7

variable {Ty V : Type} [DecidableEq Ty] {T : Ty}

/-- C13: destroying the last handle of a slot (count 1) brings the count to 0
and leaves the cell as it was otherwise: its liveness, token and value are
unchanged, nothing is deallocated, and a handle built afterwards from the same
token and index is valid.  `IsValid` gives the same result in two engines that
differ only in reference counts. -/
theorem zero_count_keeps_slot (e : Engine Ty V) (h : Resource T) :
    (h.IsValid e = some true → refCountAt e T h.handle = some 1 →
      ∃ e1 c, Resource.destruct e h = some e1 ∧
        slotAt e T h.handle = some c ∧
        slotAt e1 T h.handle = some { c with storage := { c.storage with refCount := 0 } } ∧
        refCountAt e1 T h.handle = some 0 ∧
        (∀ (U : Ty) (i : Nat), (U ≠ T ∨ i ≠ h.handle) → slotAt e1 U i = slotAt e U i) ∧
        ∃ e2, ∃ h2 : Resource T, Resource.construct e1 h.uuid h.handle = some (e2, h2) ∧
          h2.uuid = h.uuid ∧ h2.handle = h.handle ∧ h2.IsValid e2 = some true) ∧
    (∀ e1 : Engine Ty V, sameUpToRefCounts e e1 → h.IsValid e = h.IsValid e1) := by
  constructor
  · intro hv hone
    obtain ⟨_, c, hc, _⟩ := (Resource.IsValid_true_iff e h).mp hv
    have hc1 : c.storage.refCount = 1 := by
      unfold refCountAt at hone
      rw [hc] at hone
      exact Option.some.inj hone
    obtain ⟨e1, he1⟩ := Resource.writeRefCount_isSome hc sizeDec
    have hs1 := Resource.slotAt_writeRefCount he1
    have hA : slotAt e1 T h.handle =
        some { c with storage := { c.storage with refCount := 0 } } := by
      rw [hs1 T h.handle, if_pos ⟨rfl, rfl⟩, hc]
      simp only [Option.map_some', hc1, sizeDec_one]
    have hv1 : h.IsValid e1 = some true := by
      rw [Resource.IsValid_writeRefCount he1]
      exact hv
    obtain ⟨e2, he2⟩ := Resource.writeRefCount_isSome hA sizeInc
    refine ⟨e1, c, ?_, hc, hA, ?_, ?_, e2, h, ?_, rfl, rfl, ?_⟩
    · unfold Resource.destruct
      rw [Resource.DecRef_valid hv, he1]
    · unfold refCountAt
      rw [hA]
      rfl
    · intro U i hne
      have hn : ¬ (U = T ∧ i = h.handle) := by
        rintro ⟨h1, h2⟩
        rcases hne with hh | hh
        · exact hh h1
        · exact hh h2
      rw [hs1 U i, if_neg hn]
    · unfold Resource.construct
      simp only [Resource.eta, Resource.IncRef_valid hv1, he2, Option.map_some']
    · rw [Resource.IsValid_writeRefCount he2]
      exact hv1
  · intro e1 hsame
    rw [Resource.IsValid_eq, Resource.IsValid_eq]
    by_cases hh : h.handle = InvalidHandle
    · simp [hh]
    · simp only [ne_eq, hh, not_false_eq_true, if_true]
      have := hsame T h.handle
      cases hs : slotAt e T h.handle with
      | none =>
        cases hs1 : slotAt e1 T h.handle with
        | none => rfl
        | some c1 => simp [hs, hs1] at this
      | some c =>
        cases hs1 : slotAt e1 T h.handle with
        | none => simp [hs, hs1] at this
        | some c1 =>
          simp only [hs, hs1, Option.map_some', Option.some.injEq, Prod.mk.injEq] at this
          simp only [Option.map_some', this.2.1]

/-- C13 at a concrete handle: `(1, 0)` is the only handle of slot 0 of
`sampleLive` (count 1). -/
theorem zero_count_keeps_slot_witness :
    ∃ e1 c, Resource.destruct sampleLive (⟨1, 0⟩ : Resource SampleType.Mesh) = some e1 ∧
      slotAt sampleLive SampleType.Mesh 0 = some c ∧
      slotAt e1 SampleType.Mesh 0 = some { c with storage := { c.storage with refCount := 0 } } ∧
      refCountAt e1 SampleType.Mesh 0 = some 0 ∧
      (∀ (U : SampleType) (i : Nat), (U ≠ SampleType.Mesh ∨ i ≠ 0) →
        slotAt e1 U i = slotAt sampleLive U i) ∧
      ∃ e2, ∃ h2 : Resource SampleType.Mesh, Resource.construct e1 1 0 = some (e2, h2) ∧
        h2.uuid = 1 ∧ h2.handle = 0 ∧ h2.IsValid e2 = some true :=
  (zero_count_keeps_slot sampleLive (⟨1, 0⟩ : Resource SampleType.Mesh)).1
    (by decide) (by decide)

/-- C14: copying a valid handle `H2` into `H3` leaves both valid and gives the
slot `refCount++` (2 when the count was 1); destroying `H3` afterwards, with
no `Destroy` on the slot in between, leaves `H2` valid, every cell of every
pool as it was before the copy (so the count is back at its previous value),
and `H2->` yields the same value. -/
theorem copy_then_destruct (e : Engine Ty V) (H2 : Resource T)
    (hv : H2.IsValid e = some true)
    (hsize : ∀ c, slotAt e T H2.handle = some c → c.storage.refCount < SIZE_MODULUS) :
    ∃ e1 H3 e2 c,
      Resource.copyConstruct e H2 = some (e1, H3) ∧
      H2.IsValid e1 = some true ∧ H3.IsValid e1 = some true ∧
      slotAt e T H2.handle = some c ∧
      refCountAt e1 T H2.handle = some (sizeInc c.storage.refCount) ∧
      (c.storage.refCount = 1 → refCountAt e1 T H2.handle = some 2) ∧
      Resource.destruct e1 H3 = some e2 ∧
      H2.IsValid e2 = some true ∧
      (∀ (U : Ty) (i : Nat), slotAt e2 U i = slotAt e U i) ∧
      refCountAt e2 T H2.handle = refCountAt e T H2.handle ∧
      Pointer.load e T (Pointer.slot H2.handle) = some c.storage.value ∧
      Pointer.load e2 T (Pointer.slot H2.handle) = some c.storage.value := by
  obtain ⟨_, c, hc, _⟩ := (Resource.IsValid_true_iff e H2).mp hv
  obtain ⟨e1, he1⟩ := Resource.writeRefCount_isSome hc sizeInc
  have hs1 := Resource.slotAt_writeRefCount he1
  have hv1 : H2.IsValid e1 = some true := by
    rw [Resource.IsValid_writeRefCount he1]
    exact hv
  have hA : slotAt e1 T H2.handle =
      some { c with storage := { c.storage with refCount := sizeInc c.storage.refCount } } := by
    rw [hs1 T H2.handle, if_pos ⟨rfl, rfl⟩, hc]
    rfl
  obtain ⟨e2, he2⟩ := Resource.writeRefCount_isSome hA sizeDec
  have hs2 := Resource.slotAt_writeRefCount he2
  have hall : ∀ (U : Ty) (i : Nat), slotAt e2 U i = slotAt e U i := by
    intro U i
    rw [hs2 U i]
    by_cases hcase : U = T ∧ i = H2.handle
    · obtain ⟨hU, hi⟩ := hcase
      subst hU
      subst hi
      rw [if_pos ⟨rfl, rfl⟩, hA, hc]
      exact PoolCell.restore_after_inc c (hsize c hc)
    · rw [if_neg hcase, hs1 U i, if_neg hcase]
  refine ⟨e1, H2, e2, c, ?_, hv1, hv1, hc, ?_, ?_, ?_, ?_, hall, ?_, ?_, ?_⟩
  · simp [Resource.copyConstruct, Resource.eta, Resource.IncRef_valid hv, he1]
  · unfold refCountAt
    rw [hA]
    rfl
  · intro hone
    unfold refCountAt
    rw [hA]
    simp only [Option.map_some', hone]
    unfold sizeInc SIZE_MODULUS
    rfl
  · unfold Resource.destruct
    rw [Resource.DecRef_valid hv1, he2]
  · rw [Resource.IsValid_writeRefCount he2]
    exact hv1
  · unfold refCountAt
    rw [hall]
  · rw [Pointer.load_slot, hc]
    rfl
  · rw [Pointer.load_slot, hall, hc]
    rfl

/-- C14 on the handle `(1, 0)` of `sampleLive`, the only handle of its slot: the
count is 2 after the copy. -/
theorem copy_then_destruct_witness :
    ∃ e1 H3 e2 c,
      Resource.copyConstruct sampleLive (⟨1, 0⟩ : Resource SampleType.Mesh) = some (e1, H3) ∧
      (⟨1, 0⟩ : Resource SampleType.Mesh).IsValid e1 = some true ∧ H3.IsValid e1 = some true ∧
      slotAt sampleLive SampleType.Mesh 0 = some c ∧
      refCountAt e1 SampleType.Mesh 0 = some (sizeInc c.storage.refCount) ∧
      (c.storage.refCount = 1 → refCountAt e1 SampleType.Mesh 0 = some 2) ∧
      Resource.destruct e1 H3 = some e2 ∧
      (⟨1, 0⟩ : Resource SampleType.Mesh).IsValid e2 = some true ∧
      (∀ (U : SampleType) (i : Nat), slotAt e2 U i = slotAt sampleLive U i) ∧
      refCountAt e2 SampleType.Mesh 0 = refCountAt sampleLive SampleType.Mesh 0 ∧
      Pointer.load sampleLive SampleType.Mesh (Pointer.slot 0) = some c.storage.value ∧
      Pointer.load e2 SampleType.Mesh (Pointer.slot 0) = some c.storage.value :=
  copy_then_destruct sampleLive (⟨1, 0⟩ : Resource SampleType.Mesh) (by decide)
    (fun c hc => by
      have h2 : c = ⟨true, ⟨1, 10, 1⟩⟩ := (Option.some.inj hc).symm
      subst h2
      decide)

end Claims7


section Claims8

variable {Ty V : Type} [DecidableEq Ty] {T : Ty}

/-- C16: a valid handle to a live slot of the pool of `T` stays valid through
any number of further `Create<T>` calls, whether they reuse retired cells or
make the arena grow: all the calls return, the handle keeps its index (it is
not touched), its cell is the same (same token, value and reference count),
and `operator->` resolves the index to the same value. -/
theorem createMany_keeps_valid {A : Type} (build : A → V) (argsList : List A)
    (e : Engine Ty V) (h : Resource T) (hv : h.IsValid e = some true)
    (hlive : ∃ c, slotAt e T h.handle = some c ∧ c.allocated = true) :
    ∃ e2 hs, createMany T build e argsList = some (e2, hs) ∧
      hs.length = argsList.length ∧
      h.IsValid e2 = some true ∧
      slotAt e2 T h.handle = slotAt e T h.handle ∧
      refCountAt e2 T h.handle = refCountAt e T h.handle ∧
      Pointer.load e2 T (Pointer.slot h.handle) = Pointer.load e T (Pointer.slot h.handle) ∧
      (∀ debugBuild, h.arrow debugBuild e2 = some (Outcome.returned (Pointer.slot h.handle))) := by
  induction argsList generalizing e with
  | nil =>
    refine ⟨e, [], rfl, rfl, hv, rfl, rfl, rfl, ?_⟩
    exact (Resource.arrow_of_valid e h hv)
  | cons a rest ih =>
    obtain ⟨c, hc, hal⟩ := hlive
    obtain ⟨pool, hg, _⟩ := Get_of_slotAt hc
    obtain ⟨e1, hcr, _, _, _, hframe, _, hfree, _⟩ := Create_total e T build a pool hg
    have hne : h.handle ≠ (pool.Allocate (e.uuids.issued + 1) build a).1 := by
      intro heq
      have := hfree c (heq ▸ hc)
      rw [hal] at this
      exact Bool.noConfusion this
    have hs1 : slotAt e1 T h.handle = slotAt e T h.handle := hframe T h.handle (Or.inr hne)
    have hv1 : h.IsValid e1 = some true := by
      rw [Resource.IsValid_eq, hs1, ← Resource.IsValid_eq]
      exact hv
    obtain ⟨e2, hs, hrun, hlen, hv2, hs2, _, _, harrow⟩ :=
      ih e1 hv1 ⟨c, by rw [hs1]; exact hc, hal⟩
    refine ⟨e2, (⟨e.uuids.issued + 1, (pool.Allocate (e.uuids.issued + 1) build a).1⟩ :
      Resource T) :: hs, ?_, ?_, hv2, by rw [hs2, hs1], ?_, ?_, harrow⟩
    · simp only [createMany, hcr, hrun]
    · simp [hlen]
    · unfold refCountAt
      rw [hs2, hs1]
    · rw [Pointer.load_slot, Pointer.load_slot, hs2, hs1]

end Claims8


section Claims9

variable {Ty V : Type} [DecidableEq Ty] {T : Ty}

/-- C16 on `sampleLive` (three cells, one of them retired) and the handle
`(2, 1)`: three `Create<Mesh>` calls return the indices 2, 3 and 4, the last
two in storage appended to the arena, and the handle is as before. -/
theorem createMany_keeps_valid_witness :
    (∃ e2 hs, createMany SampleType.Mesh id sampleLive [40, 50, 60] = some (e2, hs) ∧
      hs.length = [40, 50, 60].length ∧
      (⟨2, 1⟩ : Resource SampleType.Mesh).IsValid e2 = some true ∧
      slotAt e2 SampleType.Mesh 1 = slotAt sampleLive SampleType.Mesh 1 ∧
      refCountAt e2 SampleType.Mesh 1 = refCountAt sampleLive SampleType.Mesh 1 ∧
      Pointer.load e2 SampleType.Mesh (Pointer.slot 1) =
        Pointer.load sampleLive SampleType.Mesh (Pointer.slot 1) ∧
      (∀ debugBuild, (⟨2, 1⟩ : Resource SampleType.Mesh).arrow debugBuild e2 =
        some (Outcome.returned (Pointer.slot 1)))) ∧
    (createMany SampleType.Mesh id sampleLive [40, 50, 60]).map
        (fun r => r.2.map (fun h => h.handle)) = some [2, 3, 4] ∧
    slotAt sampleLive SampleType.Mesh 3 = none :=
  ⟨createMany_keeps_valid id [40, 50, 60] sampleLive (⟨2, 1⟩ : Resource SampleType.Mesh)
      (by decide) ⟨⟨true, ⟨2, 20, 2⟩⟩, rfl, rfl⟩,
    by decide, by decide⟩

/-- C18: in a sequence of `Create` calls of registered types every call
returns, and the tokens of the returned handles, in call order, are strictly
increasing (each is greater than all tokens returned before it), greater than
every token the generator had issued before the sequence, and never null. -/
theorem Create_tokens_fresh {A : Type} (build : A → V) (calls : List (Ty × A))
    (e : Engine Ty V)
    (hreg : ∀ call ∈ calls, ∃ pool, AbstractFactoryImpl.Get e call.1 = some pool) :
    ∃ e2 toks, createTokens build e calls = some (e2, toks) ∧
      toks.length = calls.length ∧
      toks.Pairwise (fun earlier later => earlier < later) ∧
      (∀ u ∈ toks, e.uuids.issued < u ∧ u ≤ e2.uuids.issued ∧ u ≠ UUIDGenerator.GetNull) ∧
      e.uuids.issued ≤ e2.uuids.issued := by
  induction calls generalizing e with
  | nil => exact ⟨e, [], rfl, rfl, List.Pairwise.nil, by simp, Nat.le_refl _⟩
  | cons call rest ih =>
    obtain ⟨T, a⟩ := call
    obtain ⟨pool, hg⟩ := hreg (T, a) (List.mem_cons_self _ _)
    obtain ⟨e1, hcr, hu1, hother, hsame, _⟩ := Create_total e T build a pool hg
    have hreg1 : ∀ call ∈ rest, ∃ pool, AbstractFactoryImpl.Get e1 call.1 = some pool := by
      intro call hmem
      by_cases hT : call.1 = T
      · rw [hT]
        exact hsame
      · rw [hother call.1 hT]
        exact hreg call (List.mem_cons_of_mem _ hmem)
    obtain ⟨e2, toks, hrun, hlen, hpair, hall, hmono⟩ := ih e1 hreg1
    have hiss : e1.uuids.issued = e.uuids.issued + 1 := by rw [hu1]
    refine ⟨e2, (e.uuids.issued + 1) :: toks, ?_, ?_, ?_, ?_, ?_⟩
    · simp only [createTokens, hcr, hrun]
    · simp [hlen]
    · refine List.Pairwise.cons ?_ hpair
      intro u hu
      have h1 := (hall u hu).1
      rw [hiss] at h1
      exact h1
    · intro u hu
      rcases List.mem_cons.mp hu with rfl | hmem
      · rw [hiss] at hmono
        exact ⟨Nat.lt_succ_self _, hmono, Nat.succ_ne_zero _⟩
      · obtain ⟨h1, h2, h3⟩ := hall u hmem
        rw [hiss] at h1
        exact ⟨Nat.lt_trans (Nat.lt_succ_self _) h1, h2, h3⟩
    · rw [hiss] at hmono
      exact Nat.le_trans (Nat.le_succ _) hmono

/-- C18 on three calls from `sampleLive`, whose generator has issued 3 tokens:
the tokens 4, 5 and 6 are returned. -/
theorem Create_tokens_fresh_witness :
    ∃ e2 toks,
      createTokens id sampleLive
          [(SampleType.Mesh, 40), (SampleType.Texture, 50), (SampleType.Mesh, 60)] =
        some (e2, toks) ∧
      toks.length =
        [(SampleType.Mesh, 40), (SampleType.Texture, 50), (SampleType.Mesh, 60)].length ∧
      toks.Pairwise (fun earlier later => earlier < later) ∧
      (∀ u ∈ toks, sampleLive.uuids.issued < u ∧ u ≤ e2.uuids.issued ∧
        u ≠ UUIDGenerator.GetNull) ∧
      sampleLive.uuids.issued ≤ e2.uuids.issued :=
  Create_tokens_fresh id [(SampleType.Mesh, 40), (SampleType.Texture, 50), (SampleType.Mesh, 60)]
    sampleLive
    (fun call hmem => by
      simp only [List.mem_cons, List.mem_singleton, List.not_mem_nil, or_false] at hmem
      rcases hmem with rfl | rfl | rfl <;> exact ⟨_, rfl⟩)

/-- C19: `GetPool<U>` on a node `FactoryImpl<T, Rest...>` is the pool of the
node exactly when `U` is `T` and otherwise what the rest of the chain selects
(in the base case nothing else is accepted).  `Create<T>` returns a handle
computed from the pool of `T` alone and leaves the pool of every other type as
it is, and so does every `Destroy<T>`. -/
theorem GetPool_selects_own_pool (T : Ty) (pool : VectorPool V) (base : FactoryImpl Ty V)
    (e : Engine Ty V) :
    (∀ U : Ty, (FactoryImpl.node T pool base).GetPool U =
      if U = T then some pool else base.GetPool U) ∧
    (∀ U : Ty, (FactoryImpl.last T pool : FactoryImpl Ty V).GetPool U =
      if U = T then some pool else none) ∧
    (∀ (A : Type) (build : A → V) (args : A) (poolT : VectorPool V),
      AbstractFactoryImpl.Get e T = some poolT →
      ∃ e2, AbstractFactoryImpl.Create e T build args =
          some (e2, ⟨e.uuids.issued + 1, (poolT.Allocate (e.uuids.issued + 1) build args).1⟩) ∧
        ∀ U : Ty, U ≠ T → AbstractFactoryImpl.Get e2 U = AbstractFactoryImpl.Get e U) ∧
    (∀ (h : Resource T) (e1 : Engine Ty V), AbstractFactoryImpl.Destroy e h = some e1 →
      (∃ poolT, AbstractFactoryImpl.Get e T = some poolT ∧
        AbstractFactoryImpl.Get e1 T = poolT.Deallocate h.handle) ∧
      ∀ U : Ty, U ≠ T → AbstractFactoryImpl.Get e1 U = AbstractFactoryImpl.Get e U) := by
  refine ⟨?_, ?_, ?_, ?_⟩
  · intro U
    by_cases hU : U = T
    · subst hU
      simp [FactoryImpl.GetPool]
    · have hT : ¬ T = U := fun hh => hU hh.symm
      simp [FactoryImpl.GetPool, hU, hT]
  · intro U
    by_cases hU : U = T
    · subst hU
      simp [FactoryImpl.GetPool]
    · have hT : ¬ T = U := fun hh => hU hh.symm
      simp [FactoryImpl.GetPool, hU, hT]
  · intro A build args poolT hg
    obtain ⟨e2, hcr, _, hother, _⟩ := Create_total e T build args poolT hg
    exact ⟨e2, hcr, hother⟩
  · intro h e1 hd
    refine ⟨?_, fun U hU => Destroy_Get_other hd U hU⟩
    unfold AbstractFactoryImpl.Destroy Resource.GetHandle at hd
    cases hg : AbstractFactoryImpl.Get e T with
    | none => simp [hg] at hd
    | some poolT =>
      simp only [hg] at hd
      cases hdd : poolT.Deallocate h.handle with
      | none => simp [hdd] at hd
      | some pool1 =>
        simp only [hdd, Option.some.injEq] at hd
        subst hd
        exact ⟨poolT, rfl, by rw [hdd]; exact Get_setPool_same e T pool1 poolT hg⟩

/-- C19 on `sampleLive`: a `Create<Texture>` and a `Destroy<Mesh>` each leave the
pool of the other type as it is. -/
theorem GetPool_selects_own_pool_witness :
    (∃ e2, AbstractFactoryImpl.Create sampleLive SampleType.Texture id 70 =
        some (e2, ⟨sampleLive.uuids.issued + 1,
          ((⟨[]⟩ : VectorPool Nat).Allocate (sampleLive.uuids.issued + 1) id 70).1⟩) ∧
      ∀ U : SampleType, U ≠ SampleType.Texture →
        AbstractFactoryImpl.Get e2 U = AbstractFactoryImpl.Get sampleLive U) ∧
    (∃ e1, AbstractFactoryImpl.Destroy sampleLive (⟨2, 1⟩ : Resource SampleType.Mesh) = some e1 ∧
      ∀ U : SampleType, U ≠ SampleType.Mesh →
        AbstractFactoryImpl.Get e1 U = AbstractFactoryImpl.Get sampleLive U) :=
  ⟨(GetPool_selects_own_pool SampleType.Texture ⟨[]⟩ (FactoryImpl.last SampleType.Texture ⟨[]⟩)
      sampleLive).2.2.1 Nat id 70 ⟨[]⟩ (by decide),
   ⟨_, rfl, ((GetPool_selects_own_pool SampleType.Mesh ⟨[]⟩
      (FactoryImpl.last SampleType.Texture ⟨[]⟩) sampleLive).2.2.2
        (⟨2, 1⟩ : Resource SampleType.Mesh) _ rfl).2⟩⟩

/-- C20: after `Register(c, e)` the reverse lookup of `c` returns `e`; after
`Unregister(c)` the lookup of `c` finds no owner, so it does not return the
stale `e`. -/
theorem OwnerOf_round_trip (idx : OwnerIndex) (c e : Nat) :
    (idx.Register c e).OwnerOf c = some e ∧
    ((idx.Register c e).Unregister c).OwnerOf c = none ∧
    ((idx.Register c e).Unregister c).OwnerOf c ≠ some e := by
  have hnone : ((idx.Register c e).Unregister c).OwnerOf c = none := by
    unfold OwnerIndex.OwnerOf OwnerIndex.Unregister
    rw [Option.map_eq_none', List.find?_eq_none]
    intro p hp
    have := (List.mem_filter.mp hp).2
    simpa using this
  refine ⟨?_, hnone, ?_⟩
  · simp [OwnerIndex.OwnerOf, OwnerIndex.Register]
  · rw [hnone]
    exact fun hh => Option.noConfusion hh

end Claims9


section Claims10

variable {Ty V : Type} [DecidableEq Ty]

/-- C17: `Clone(other)` installs exactly `other` as the static pointer and
changes no `Factory` object and nothing else.  Afterwards `Get<U>` is the pool
of `U` in the object at `other`; a `Create<T>` returns, keeps the pointer,
leaves every other object untouched, and the created resource is the cell at
the returned index of the pool of `T` in the object at `other`; a `Destroy<T>`
deallocates in that same pool. -/
theorem Clone_rebinds (e : Engine Ty V) (other : Option Nat) :
    AbstractFactoryImpl.GetImpl (AbstractFactoryImpl.Clone other e) = other ∧
    (AbstractFactoryImpl.Clone other e).heap = e.heap ∧
    (AbstractFactoryImpl.Clone other e).uuids = e.uuids ∧
    (∀ p, other = some p →
      (∀ U : Ty, AbstractFactoryImpl.Get (AbstractFactoryImpl.Clone other e) U = poolAt e p U) ∧
      (∀ (T : Ty) (A : Type) (build : A → V) (args : A) (pool : VectorPool V),
        poolAt e p T = some pool →
        ∃ e2, ∃ h : Resource T,
          AbstractFactoryImpl.Create (AbstractFactoryImpl.Clone other e) T build args =
            some (e2, h) ∧
          h.handle = (pool.Allocate (e.uuids.issued + 1) build args).1 ∧
          AbstractFactoryImpl.GetImpl e2 = some p ∧
          (∀ q, q ≠ p → e2.heap[q]? = e.heap[q]?) ∧
          ∃ pool2 c, poolAt e2 p T = some pool2 ∧ pool2.cells[h.handle]? = some c ∧
            c.allocated = true ∧ c.storage.uuid = h.uuid ∧ c.storage.value = build args) ∧
      (∀ (T : Ty) (h : Resource T) (e1 : Engine Ty V),
        AbstractFactoryImpl.Destroy (AbstractFactoryImpl.Clone other e) h = some e1 →
        AbstractFactoryImpl.GetImpl e1 = some p ∧
        (∀ q, q ≠ p → e1.heap[q]? = e.heap[q]?) ∧
        ∃ pool, poolAt e p T = some pool ∧ poolAt e1 p T = pool.Deallocate h.handle)) := by
  refine ⟨rfl, rfl, rfl, ?_⟩
  intro p hp
  subst hp
  have hfac : (AbstractFactoryImpl.Clone (some p) e).factory = some p := rfl
  have hpool : ∀ U : Ty, poolAt (AbstractFactoryImpl.Clone (some p) e) p U = poolAt e p U :=
    fun _ => rfl
  refine ⟨?_, ?_, ?_⟩
  · intro U
    rw [Get_eq_poolAt _ p hfac, hpool]
  · intro T A build args pool hpT
    have hg : AbstractFactoryImpl.Get (AbstractFactoryImpl.Clone (some p) e) T = some pool := by
      rw [Get_eq_poolAt _ p hfac, hpool]
      exact hpT
    obtain ⟨e2, hcr, _, _, _, _, _, _, c, hc, hal, hu, hval⟩ :=
      Create_total (AbstractFactoryImpl.Clone (some p) e) T build args pool hg
    obtain ⟨hfac2, hheap2⟩ := Create_heap_frame hcr
    obtain ⟨pool2, hg2, hcell2⟩ := Get_of_slotAt hc
    rw [Get_eq_poolAt e2 p (hfac2.trans hfac)] at hg2
    exact ⟨e2, _, hcr, rfl, hfac2.trans hfac, fun q hq => hheap2 p hfac q hq,
      pool2, c, hg2, hcell2, hal, hu, hval⟩
  · intro T h e1 hd
    obtain ⟨hfac1, hheap1⟩ := Destroy_heap_frame hd
    refine ⟨hfac1.trans hfac, fun q hq => hheap1 p hfac q hq, ?_⟩
    unfold AbstractFactoryImpl.Destroy Resource.GetHandle at hd
    cases hg : AbstractFactoryImpl.Get (AbstractFactoryImpl.Clone (some p) e) T with
    | none => simp [hg] at hd
    | some pool =>
      simp only [hg] at hd
      cases hdd : pool.Deallocate h.handle with
      | none => simp [hdd] at hd
      | some pool1 =>
        simp only [hdd, Option.some.injEq] at hd
        subst hd
        refine ⟨pool, ?_, ?_⟩
        · rw [← hpool, ← Get_eq_poolAt _ p hfac]
          exact hg
        · rw [← Get_eq_poolAt _ p (by rw [setPool_factory]; exact hfac), hdd]
          exact Get_setPool_same _ T pool1 pool hg

/-- C17 on `sampleLive`: cloning to the object at address 0 and creating a
`Texture` there; cloning to null makes `Get` undefined. -/
theorem Clone_rebinds_witness :
    (∃ e2, ∃ h : Resource SampleType.Texture,
        AbstractFactoryImpl.Create (AbstractFactoryImpl.Clone (some 0) sampleLive)
          SampleType.Texture id 70 = some (e2, h) ∧
        h.handle = ((⟨[]⟩ : VectorPool Nat).Allocate (sampleLive.uuids.issued + 1) id 70).1 ∧
        AbstractFactoryImpl.GetImpl e2 = some 0 ∧
        (∀ q, q ≠ 0 → e2.heap[q]? = sampleLive.heap[q]?) ∧
        ∃ pool2 c, poolAt e2 0 SampleType.Texture = some pool2 ∧
          pool2.cells[h.handle]? = some c ∧
          c.allocated = true ∧ c.storage.uuid = h.uuid ∧ c.storage.value = id 70) ∧
    AbstractFactoryImpl.GetImpl (AbstractFactoryImpl.Clone none sampleLive) = none :=
  ⟨((Clone_rebinds sampleLive (some 0)).2.2.2 0 rfl).2.1 SampleType.Texture Nat id 70 ⟨[]⟩
      (by decide),
   (Clone_rebinds sampleLive none).1⟩

end Claims10


section Claims11

variable {Ty V : Type} [DecidableEq Ty] {T : Ty}

/-- C15: take any sequence of `Create<T>` and `Destroy<T>` calls, `Destroy`
applied to valid issued handles, started on an empty arena, and any point
`pre` of it.  The run up to that point exists, and there: an index carries a
valid issued handle exactly when its cell is allocated; two valid handles
returned by different `Create` calls never agree in both index and token;
and the next `Create`, or `Destroy` of a valid issued handle, returns. -/
theorem Create_Destroy_sequences {A : Type} (build : A → V) (e0 : Engine Ty V)
    (hempty : AbstractFactoryImpl.Get e0 T = some ⟨[]⟩) (pre post : List (FactoryCall A))
    (hlen : (pre ++ post).length ≤ InvalidHandle)
    (result : Engine Ty V × List (Resource T))
    (hrun : runCalls T build e0 [] (pre ++ post) = some result) :
    ∃ e issued, runCalls T build e0 ([] : List (Resource T)) pre = some (e, issued) ∧
      (∀ i, (∃ h ∈ issued, h.handle = i ∧ h.IsValid e = some true) ↔
        (∃ c, slotAt e T i = some c ∧ c.allocated = true)) ∧
      (∀ (j k : Nat) (h1 h2 : Resource T), j ≠ k →
        issued[j]? = some h1 → issued[k]? = some h2 →
        h1.IsValid e = some true → h2.IsValid e = some true →
        ¬ (h1.handle = h2.handle ∧ h1.uuid = h2.uuid)) ∧
      (∀ args : A, ∃ e1, ∃ h : Resource T,
        AbstractFactoryImpl.Create e T build args = some (e1, h)) ∧
      (∀ h ∈ issued, h.IsValid e = some true →
        ∃ e1, AbstractFactoryImpl.Destroy e h = some e1) := by
  rw [runCalls_append] at hrun
  cases hpre : runCalls T build e0 ([] : List (Resource T)) pre with
  | none => simp [hpre] at hrun
  | some r =>
    obtain ⟨e, issued⟩ := r
    have hinv := CallsInvariant.run build pre e0 [] 0 (CallsInvariant.initial e0 hempty)
      (e, issued) hpre
    have hbound : 0 + pre.length ≤ InvalidHandle := by
      rw [List.length_append] at hlen
      omega
    generalize 0 + pre.length = n at hinv hbound
    have hinv0 := hinv
    obtain ⟨⟨pool, hg⟩, hrange, _, hlive, _, hpair⟩ := hinv
    refine ⟨e, issued, rfl, ?_, ?_, ?_, ?_⟩
    · intro i
      constructor
      · rintro ⟨h, hmem, rfl, hv⟩
        obtain ⟨c, hc, hal, _⟩ := hinv0.issued_live_of_valid hmem hv
        exact ⟨c, hc, hal⟩
      · rintro ⟨c, hc, hal⟩
        refine ⟨⟨c.storage.uuid, i⟩, hlive i c hc hal, rfl, ?_⟩
        rw [Resource.IsValid_true_iff]
        have := hrange i c hc
        exact ⟨by show i ≠ InvalidHandle; omega, c, hc, rfl⟩
    · intro j k h1 h2 hjk hj hk _ _ hsame
      obtain ⟨hjl, hje⟩ := List.getElem?_eq_some.mp hj
      obtain ⟨hkl, hke⟩ := List.getElem?_eq_some.mp hk
      have hp := List.pairwise_iff_getElem.mp hpair
      rcases Nat.lt_or_gt_of_ne hjk with hlt | hgt
      · have := hp j k hjl hkl hlt
        rw [hje, hke] at this
        exact this hsame.2
      · have := hp k j hkl hjl hgt
        rw [hje, hke] at this
        exact this hsame.2.symm
    · intro args
      obtain ⟨e1, hcr, _⟩ := Create_total e T build args pool hg
      exact ⟨e1, _, hcr⟩
    · intro h hmem hv
      obtain ⟨e1, hd, _⟩ := hinv0.destroy hmem hv
      exact ⟨e1, hd⟩

/-- C15 on the run `Create(10); Destroy(first); Create(20); Create(30)` from
`sampleEngine`, observed after its first three calls. -/
theorem Create_Destroy_sequences_witness :
    ∃ e issued,
      runCalls SampleType.Mesh id sampleEngine ([] : List (Resource SampleType.Mesh))
          [FactoryCall.create 10, FactoryCall.destroy 0, FactoryCall.create 20] =
        some (e, issued) ∧
      (∀ i, (∃ h ∈ issued, h.handle = i ∧ h.IsValid e = some true) ↔
        (∃ c, slotAt e SampleType.Mesh i = some c ∧ c.allocated = true)) ∧
      (∀ (j k : Nat) (h1 h2 : Resource SampleType.Mesh), j ≠ k →
        issued[j]? = some h1 → issued[k]? = some h2 →
        h1.IsValid e = some true → h2.IsValid e = some true →
        ¬ (h1.handle = h2.handle ∧ h1.uuid = h2.uuid)) ∧
      (∀ args : Nat, ∃ e1, ∃ h : Resource SampleType.Mesh,
        AbstractFactoryImpl.Create e SampleType.Mesh id args = some (e1, h)) ∧
      (∀ h ∈ issued, h.IsValid e = some true →
        ∃ e1, AbstractFactoryImpl.Destroy e h = some e1) :=
  Create_Destroy_sequences id sampleEngine (by decide)
    [FactoryCall.create 10, FactoryCall.destroy 0, FactoryCall.create 20]
    [FactoryCall.create 30] (by decide)
    _ rfl

end Claims11

section Claims12

variable {Ty V : Type} [DecidableEq Ty] {T : Ty}

/-- C22: in a well-formed registry, `Destroy` on a valid handle with a minted
token retires the cell of that handle only: the cell keeps its index, is marked
free with the null token, and the next allocation may reuse the index; every
other cell of every pool is unchanged, so every handle of any type that was
valid on a different cell is still valid and resolves to the same value. -/
theorem Destroy_retires_only_its_slot (e : Engine Ty V) (h : Resource T) (hwf : e.WF)
    (htok : h.uuid ≠ UUIDGenerator.GetNull) (hv : h.IsValid e = some true) :
    ∃ e1 c, AbstractFactoryImpl.Destroy e h = some e1 ∧
      slotAt e T h.handle = some c ∧ c.allocated = true ∧
      slotAt e1 T h.handle = some ⟨false, c.storage.destruct⟩ ∧
      c.storage.destruct.uuid = UUIDGenerator.GetNull ∧
      (∀ (A : Type) (build : A → V) (args : A) (pool1 : VectorPool V),
        AbstractFactoryImpl.Get e1 T = some pool1 →
        (pool1.Allocate (e1.uuids.issued + 1) build args).1 ≤ h.handle) ∧
      (∀ (U : Ty) (j : Nat), (U ≠ T ∨ j ≠ h.handle) → slotAt e1 U j = slotAt e U j) ∧
      (∀ (U : Ty) (g : Resource U), (U ≠ T ∨ g.handle ≠ h.handle) →
        g.IsValid e = some true →
        g.IsValid e1 = some true ∧
        (∀ debugBuild, g.arrow debugBuild e1 = g.arrow debugBuild e) ∧
        Pointer.load e1 U (Pointer.slot g.handle) = Pointer.load e U (Pointer.slot g.handle)) := by
  obtain ⟨_, c, hc, hlive, _, _⟩ := Resource.live_of_valid hwf htok hv
  obtain ⟨e1, hd, _, _, hnew, hframe⟩ := Destroy_spec e h c hc hlive
  refine ⟨e1, c, hd, hc, hlive, hnew, rfl, ?_, hframe, ?_⟩
  · intro A build args pool1 hg1
    have hcell : pool1.cells[h.handle]? = some ⟨false, c.storage.destruct⟩ := by
      rw [← slotAt_of_Get hg1]
      exact hnew
    exact VectorPool.Allocate_index_of_free pool1 _ build args hcell rfl
  · intro U g hne hvg
    have hs : slotAt e1 U g.handle = slotAt e U g.handle := hframe U g.handle hne
    have hvg1 : g.IsValid e1 = some true := by
      rw [Resource.IsValid_eq, hs, ← Resource.IsValid_eq]
      exact hvg
    refine ⟨hvg1, ?_, ?_⟩
    · intro debugBuild
      rw [Resource.arrow_of_valid e1 g hvg1, Resource.arrow_of_valid e g hvg]
    · rw [Pointer.load_slot, Pointer.load_slot, hs]

/-- C22 on `sampleLive`: destroying `(2, 1)` leaves the handle `(1, 0)` valid. -/
theorem Destroy_retires_only_its_slot_witness :
    ∃ e1 c, AbstractFactoryImpl.Destroy sampleLive (⟨2, 1⟩ : Resource SampleType.Mesh) = some e1 ∧
      slotAt sampleLive SampleType.Mesh 1 = some c ∧ c.allocated = true ∧
      slotAt e1 SampleType.Mesh 1 = some ⟨false, c.storage.destruct⟩ ∧
      c.storage.destruct.uuid = UUIDGenerator.GetNull ∧
      (∀ (A : Type) (build : A → Nat) (args : A) (pool1 : VectorPool Nat),
        AbstractFactoryImpl.Get e1 SampleType.Mesh = some pool1 →
        (pool1.Allocate (e1.uuids.issued + 1) build args).1 ≤ 1) ∧
      (∀ (U : SampleType) (j : Nat), (U ≠ SampleType.Mesh ∨ j ≠ 1) →
        slotAt e1 U j = slotAt sampleLive U j) ∧
      (∀ (U : SampleType) (g : Resource U), (U ≠ SampleType.Mesh ∨ g.handle ≠ 1) →
        g.IsValid sampleLive = some true →
        g.IsValid e1 = some true ∧
        (∀ debugBuild, g.arrow debugBuild e1 = g.arrow debugBuild sampleLive) ∧
        Pointer.load e1 U (Pointer.slot g.handle) =
          Pointer.load sampleLive U (Pointer.slot g.handle)) :=
  Destroy_retires_only_its_slot sampleLive (⟨2, 1⟩ : Resource SampleType.Mesh) sampleLive_WF
    (by decide) (by decide)

/-- C23: the default-constructed handle carries the null token and
`InvalidHandle`, the largest `size_t`; in every engine, also one without an
installed factory, `IsValid` is false (the answer does not depend on the
engine, no pool is read); copy construction from it and its destruction leave
the engine, hence every reference count, unchanged. -/
theorem null_handle_is_inert (T : Ty) (e : Engine Ty V) :
    (Resource.null : Resource T).uuid = UUIDGenerator.GetNull ∧
    (Resource.null : Resource T).handle = InvalidHandle ∧
    InvalidHandle = SIZE_MODULUS - 1 ∧
    (Resource.null : Resource T).IsValid e = some false ∧
    (Resource.null : Resource T).IsValid
      ({ heap := [], factory := none, uuids := e.uuids } : Engine Ty V) = some false ∧
    Resource.copyConstruct e (Resource.null : Resource T) = some (e, Resource.null) ∧
    Resource.destruct e (Resource.null : Resource T) = some e := by
  have hv : ∀ e1 : Engine Ty V, (Resource.null : Resource T).IsValid e1 = some false := by
    intro e1
    simp [Resource.IsValid, Resource.null]
  refine ⟨rfl, rfl, ?_, hv e, hv _, ?_, ?_⟩
  · unfold InvalidHandle SIZE_MODULUS
    rfl
  · simp only [Resource.copyConstruct, Resource.eta, Resource.IncRef_invalid (hv e),
      Option.map_some']
  · unfold Resource.destruct
    exact Resource.DecRef_invalid (hv e)

/-- C26: `Init` allocates a `Factory` only when the static pointer is null, and
then the pointer is the address of the new object, whose pools are empty.  On
an installed factory, whether it comes from an earlier `Init` or from `Clone`
with a non-null pointer, `Init` returns the engine unchanged: the pointer,
every pool and the validity of every handle are as before. -/
theorem Init_idempotent (T : Ty) (Args : List Ty) (e : Engine Ty V) :
    (e.factory = none →
      (AbstractFactoryImpl.Init T Args e).factory = some e.heap.length ∧
      (AbstractFactoryImpl.Init T Args e).heap = e.heap ++ [FactoryImpl.fresh T Args]) ∧
    (∀ p, e.factory = some p → AbstractFactoryImpl.Init T Args e = e) ∧
    AbstractFactoryImpl.Init T Args (AbstractFactoryImpl.Init T Args e) =
      AbstractFactoryImpl.Init T Args e ∧
    (∀ p, AbstractFactoryImpl.Init T Args (AbstractFactoryImpl.Clone (some p) e) =
      AbstractFactoryImpl.Clone (some p) e) ∧
    (∀ p, e.factory = some p → ∀ (U : Ty) (g : Resource U),
      AbstractFactoryImpl.Get (AbstractFactoryImpl.Init T Args e) U = AbstractFactoryImpl.Get e U ∧
      (g.IsValid e = some true → g.IsValid (AbstractFactoryImpl.Init T Args e) = some true)) := by
  have hsome : ∀ (e1 : Engine Ty V) p, e1.factory = some p →
      AbstractFactoryImpl.Init T Args e1 = e1 := by
    intro e1 p hp
    unfold AbstractFactoryImpl.Init
    simp only [hp]
  refine ⟨?_, hsome e, ?_, ?_, ?_⟩
  · intro hnone
    simp [AbstractFactoryImpl.Init, hnone]
  · cases hf : e.factory with
    | none =>
      have h1 : (AbstractFactoryImpl.Init T Args e).factory = some e.heap.length := by
        unfold AbstractFactoryImpl.Init
        simp only [hf]
      exact hsome _ _ h1
    | some p =>
      rw [hsome e p hf]
      exact hsome e p hf
  · intro p
    exact hsome _ p rfl
  · intro p hp U g
    rw [hsome e p hp]
    exact ⟨rfl, fun hh => hh⟩

/-- C26 on concrete engines: `Init` on `sampleLive` (factory installed) changes
nothing; on a process without a factory it installs address 0. -/
theorem Init_idempotent_witness :
    AbstractFactoryImpl.Init SampleType.Mesh [SampleType.Texture] sampleLive = sampleLive ∧
    (AbstractFactoryImpl.Init SampleType.Mesh [SampleType.Texture]
        (⟨[], none, ⟨0⟩⟩ : Engine SampleType Nat)).factory = some 0 ∧
    (AbstractFactoryImpl.Init SampleType.Mesh [SampleType.Texture]
        (⟨[], none, ⟨0⟩⟩ : Engine SampleType Nat)).heap =
      [] ++ [FactoryImpl.fresh SampleType.Mesh [SampleType.Texture]] :=
  ⟨(Init_idempotent SampleType.Mesh [SampleType.Texture] sampleLive).2.1 0 rfl,
   (Init_idempotent SampleType.Mesh [SampleType.Texture]
      (⟨[], none, ⟨0⟩⟩ : Engine SampleType Nat)).1 rfl⟩

end Claims12

section Claims13

theorem SceneStorage.Get_Delete_same (st : SceneStorage) (name : String) :
    (st.Delete name).Get name = none := by
  unfold SceneStorage.Get SceneStorage.Delete
  rw [Option.map_eq_none', List.find?_eq_none]
  intro p hp
  have := (List.mem_filter.mp hp).2
  simpa using this

theorem SceneStorage.Get_Delete_other (st : SceneStorage) (name k : String) (hk : k ≠ name) :
    (st.Delete name).Get k = st.Get k := by
  unfold SceneStorage.Get SceneStorage.Delete
  congr 1
  rw [List.find?_filter]
  congr 1
  funext a
  by_cases ha : a.1 = k
  · have hn : ¬ a.1 = name := fun h => hk (ha.symm.trans h)
    simp [ha, hn]
    exact fun h => hk h
  · simp [ha]

/-- C27: `GenerateResourceId` returns the counter as it was before the call and
leaves it one higher (`counter++` in the counter type, one more whenever that
does not wrap) and the rest of the application untouched; while the counter
does not wrap, the ids of `n` successive calls are `c, c + 1, ..., c + n - 1`:
consecutive, strictly increasing and pairwise distinct. -/
theorem GenerateResourceId_consecutive (modulus : Nat) (app : Application) (n : Nat) :
    (Application.GenerateResourceId modulus app).1 = app.resourceIdCounter ∧
    (Application.GenerateResourceId modulus app).2.resourceIdCounter =
      (app.resourceIdCounter + 1) % modulus ∧
    (app.resourceIdCounter + 1 < modulus →
      (Application.GenerateResourceId modulus app).2.resourceIdCounter =
        app.resourceIdCounter + 1) ∧
    (Application.GenerateResourceId modulus app).2.scenes = app.scenes ∧
    (Application.GenerateResourceId modulus app).2.currentScene = app.currentScene ∧
    (app.resourceIdCounter + n ≤ modulus →
      (Application.generateIds modulus app n).1 = List.range' app.resourceIdCounter n ∧
      (Application.generateIds modulus app n).1.Pairwise (fun earlier later => earlier < later) ∧
      (Application.generateIds modulus app n).1.Nodup) := by
  refine ⟨rfl, rfl, fun h => Nat.mod_eq_of_lt h, rfl, rfl, ?_⟩
  intro hbound
  have hids : (Application.generateIds modulus app n).1 =
      List.range' app.resourceIdCounter n := by
    induction n generalizing app with
    | zero => rfl
    | succ m ih =>
      unfold Application.generateIds
      simp only [List.range'_succ]
      cases m with
      | zero => rfl
      | succ k =>
        have hlt : app.resourceIdCounter + 1 < modulus := by omega
        have hnext : (Application.GenerateResourceId modulus app).2.resourceIdCounter =
            app.resourceIdCounter + 1 := Nat.mod_eq_of_lt hlt
        have := ih (Application.GenerateResourceId modulus app).2 (by rw [hnext]; omega)
        rw [this, hnext]
        rfl
  rw [hids]
  exact ⟨rfl, List.pairwise_lt_range' _ _, List.nodup_range' _ _⟩

/-- C27 on `sampleApp` (counter 3) with a counter type of 10 values: four calls
return 3, 4, 5, 6. -/
theorem GenerateResourceId_consecutive_witness :
    ((Application.GenerateResourceId 10 sampleApp).2.resourceIdCounter = 3 + 1) ∧
    ((Application.generateIds 10 sampleApp 4).1 = List.range' 3 4 ∧
      (Application.generateIds 10 sampleApp 4).1.Pairwise (fun earlier later => earlier < later) ∧
      (Application.generateIds 10 sampleApp 4).1.Nodup) :=
  ⟨(GenerateResourceId_consecutive 10 sampleApp 4).2.2.1 (by decide),
   (GenerateResourceId_consecutive 10 sampleApp 4).2.2.2.2.2 (by decide)⟩

end Claims13

section Claims14

/-- C28: `DestroyScene(name)` returns the application unchanged (scene
collection and current scene included) when `name` is the name of the global
scene, when no scene is stored under `name`, and when the scene stored under
`name` is the current scene; otherwise it removes exactly the entry of `name`
and leaves the current scene, the counter and every other entry as they are.
So the collection changes only when all three conditions hold, the current
scene is never removed, and neither is the global scene, registered by the
constructor under its own name `Global`. -/
theorem DestroyScene_guards (app : Application) (name : String) (globalScene : Scene)
    (hglobal : app.GetGlobalScene = some globalScene) :
    (name = globalScene.name → app.DestroyScene name = some app) ∧
    (app.scenes.Exists name = false → app.DestroyScene name = some app) ∧
    (∀ scene, app.scenes.Get name = some scene → some scene.address = app.currentScene →
      app.DestroyScene name = some app) ∧
    (name ≠ globalScene.name → ∀ scene, app.scenes.Get name = some scene →
      some scene.address ≠ app.currentScene →
      ∃ app1, app.DestroyScene name = some app1 ∧
        app1.currentScene = app.currentScene ∧
        app1.resourceIdCounter = app.resourceIdCounter ∧
        app1.scenes.Exists name = false ∧
        (∀ k, k ≠ name → app1.scenes.Get k = app.scenes.Get k)) ∧
    (∃ app1, app.DestroyScene name = some app1 ∧
      (app1.scenes ≠ app.scenes →
        name ≠ globalScene.name ∧ app.scenes.Exists name = true ∧
        (app.scenes.Get name).map (fun scene => scene.address) ≠ app.currentScene) ∧
      (∀ k scene, app.scenes.Get k = some scene → some scene.address = app.currentScene →
        app1.scenes.Get k = some scene) ∧
      (globalScene.name = "Global" → app1.GetGlobalScene = some globalScene)) := by
  have hA : name = globalScene.name → app.DestroyScene name = some app := by
    intro hn
    simp [Application.DestroyScene, hglobal, hn]
  have hB : app.scenes.Exists name = false → app.DestroyScene name = some app := by
    intro hex
    by_cases hn : name = globalScene.name
    · exact hA hn
    · simp [Application.DestroyScene, hglobal, hn, hex]
  have hC : ∀ scene, app.scenes.Get name = some scene →
      some scene.address = app.currentScene → app.DestroyScene name = some app := by
    intro scene hget hcur
    by_cases hn : name = globalScene.name
    · exact hA hn
    · have hex : app.scenes.Exists name = true := by
        unfold SceneStorage.Exists
        rw [hget]
        rfl
      simp [Application.DestroyScene, hglobal, hn, hex, hget, hcur]
  have hD : name ≠ globalScene.name → ∀ scene, app.scenes.Get name = some scene →
      some scene.address ≠ app.currentScene →
      app.DestroyScene name = some { app with scenes := app.scenes.Delete name } := by
    intro hn scene hget hcur
    have hex : app.scenes.Exists name = true := by
      unfold SceneStorage.Exists
      rw [hget]
      rfl
    simp [Application.DestroyScene, hglobal, hn, hex, hget, hcur]
  refine ⟨hA, hB, hC, ?_, ?_⟩
  · intro hn scene hget hcur
    refine ⟨_, hD hn scene hget hcur, rfl, rfl, ?_, ?_⟩
    · show ((app.scenes.Delete name).Get name).isSome = false
      rw [SceneStorage.Get_Delete_same]
      rfl
    · intro k hk
      exact SceneStorage.Get_Delete_other app.scenes name k hk
  · by_cases hn : name = globalScene.name
    · exact ⟨app, hA hn, fun h => absurd rfl h, fun k scene hk _ => hk,
        fun _ => hglobal⟩
    · cases hget : app.scenes.Get name with
      | none =>
        have hex : app.scenes.Exists name = false := by
          unfold SceneStorage.Exists
          rw [hget]
          rfl
        exact ⟨app, hB hex, fun h => absurd rfl h, fun k scene hk _ => hk,
          fun _ => hglobal⟩
      | some scene =>
        by_cases hcur : some scene.address = app.currentScene
        · exact ⟨app, hC scene hget hcur, fun h => absurd rfl h, fun k sc hk _ => hk,
            fun _ => hglobal⟩
        · refine ⟨_, hD hn scene hget hcur, ?_, ?_, ?_⟩
          · intro _
            refine ⟨hn, ?_, ?_⟩
            · unfold SceneStorage.Exists
              rw [hget]
              rfl
            · simpa using hcur
          · intro k sc hk hsc
            have hkn : k ≠ name := by
              intro hkn
              rw [hkn, hget] at hk
              exact hcur ((Option.some.inj hk) ▸ hsc)
            show (app.scenes.Delete name).Get k = some sc
            rw [SceneStorage.Get_Delete_other app.scenes name k hkn]
            exact hk
          · intro hname
            show (app.scenes.Delete name).Get "Global" = some globalScene
            have hkn : "Global" ≠ name := by
              intro hkn
              exact hn (hkn ▸ hname.symm)
            rw [SceneStorage.Get_Delete_other app.scenes name "Global" hkn]
            exact hglobal

/-- C28 on `sampleApp` (current scene `Default`): `Global`, an unknown name and
`Default` are refused, `Level` is removed. -/
theorem DestroyScene_guards_witness :
    sampleApp.DestroyScene "Global" = some sampleApp ∧
    sampleApp.DestroyScene "Nowhere" = some sampleApp ∧
    sampleApp.DestroyScene "Default" = some sampleApp ∧
    (∃ app1, sampleApp.DestroyScene "Level" = some app1 ∧
      app1.currentScene = sampleApp.currentScene ∧
      app1.resourceIdCounter = sampleApp.resourceIdCounter ∧
      app1.scenes.Exists "Level" = false ∧
      (∀ k, k ≠ "Level" → app1.scenes.Get k = sampleApp.scenes.Get k)) :=
  ⟨(DestroyScene_guards sampleApp "Global" ⟨100, "Global"⟩ rfl).1 rfl,
   (DestroyScene_guards sampleApp "Nowhere" ⟨100, "Global"⟩ rfl).2.1 (by decide),
   (DestroyScene_guards sampleApp "Default" ⟨100, "Global"⟩ rfl).2.2.1 ⟨101, "Default"⟩
     (by decide) (by decide),
   (DestroyScene_guards sampleApp "Level" ⟨100, "Global"⟩ rfl).2.2.2.1 (by decide)
     ⟨102, "Level"⟩ (by decide) (by decide)⟩

/-- C29: `LoadScene(name)` returns the application unchanged and makes no
callback when `name` is the name of the global scene or no scene is stored
under `name`; otherwise it calls `OnUnload` on the previous current scene if
there is one, makes the scene stored under `name` the current scene, and then
calls `OnLoad` on it, in this order, changing nothing else. -/
theorem LoadScene_guards (app : Application) (name : String) (globalScene : Scene)
    (hglobal : app.GetGlobalScene = some globalScene) :
    (name = globalScene.name → app.LoadScene name = some (app, [])) ∧
    (app.scenes.Exists name = false → app.LoadScene name = some (app, [])) ∧
    (name ≠ globalScene.name → ∀ scene, app.scenes.Get name = some scene →
      (∀ previous, app.currentScene = some previous →
        app.LoadScene name =
          some ({ app with currentScene := some scene.address },
            [SceneCall.OnUnload previous, SceneCall.OnLoad scene.address])) ∧
      (app.currentScene = none →
        app.LoadScene name =
          some ({ app with currentScene := some scene.address },
            [SceneCall.OnLoad scene.address]))) := by
  have hA : name = globalScene.name → app.LoadScene name = some (app, []) := by
    intro hn
    simp [Application.LoadScene, hglobal, hn]
  refine ⟨hA, ?_, ?_⟩
  · intro hex
    by_cases hn : name = globalScene.name
    · exact hA hn
    · simp [Application.LoadScene, hglobal, hn, hex]
  · intro hn scene hget
    have hex : app.scenes.Exists name = true := by
      unfold SceneStorage.Exists
      rw [hget]
      rfl
    constructor
    · intro previous hprev
      simp [Application.LoadScene, hglobal, hn, hex, hget, hprev]
    · intro hnone
      simp [Application.LoadScene, hglobal, hn, hex, hget, hnone]

/-- C29 on `sampleApp` (current scene `Default` at address 101): `Global` and an
unknown name are refused; `Level` is loaded after `Default` is unloaded. -/
theorem LoadScene_guards_witness :
    sampleApp.LoadScene "Global" = some (sampleApp, []) ∧
    sampleApp.LoadScene "Nowhere" = some (sampleApp, []) ∧
    sampleApp.LoadScene "Level" =
      some ({ sampleApp with currentScene := some 102 },
        [SceneCall.OnUnload 101, SceneCall.OnLoad 102]) :=
  ⟨(LoadScene_guards sampleApp "Global" ⟨100, "Global"⟩ rfl).1 rfl,
   (LoadScene_guards sampleApp "Nowhere" ⟨100, "Global"⟩ rfl).2.1 (by decide),
   ((LoadScene_guards sampleApp "Level" ⟨100, "Global"⟩ rfl).2.2 (by decide) ⟨102, "Level"⟩
     (by decide)).1 101 rfl⟩

end Claims14

/-! ## Lemmas: `SphereCollider::CreateNewShape` -/

section ColliderLemmas

variable {Ty V R : Type} [DecidableEq Ty] {S : Ty}

theorem Resource.IsValid_defined_iff (e : Engine Ty V) (r : Resource S) :
    r.IsValid e ≠ none ↔ r.handle = InvalidHandle ∨ ∃ c, slotAt e S r.handle = some c := by
  rw [Resource.IsValid_eq]
  by_cases hh : r.handle = InvalidHandle
  · simp [hh]
  · cases hs : slotAt e S r.handle with
    | none => simp [hh]
    | some c => simp [hh]

theorem Resource.DecRef_moved (e : Engine Ty V) (r : Resource S) :
    Resource.DecRef e ({ r with handle := InvalidHandle } : Resource S) = some e :=
  Resource.DecRef_invalid (Resource.IsValid_moved r e)

theorem Resource.destruct_moved (e : Engine Ty V) (r : Resource S) :
    Resource.destruct e ({ r with handle := InvalidHandle } : Resource S) = some e :=
  Resource.DecRef_moved e r

theorem Resource.moveAssign_valid {e e3 : Engine Ty V} {a : Resource S} (b : Resource S)
    (hv : a.IsValid e = some true) (hw : a.writeRefCount e sizeDec = some e3) :
    Resource.moveAssign e a b =
      some (e3, ⟨b.uuid, b.handle⟩, { b with handle := InvalidHandle }) := by
  unfold Resource.moveAssign
  rw [Resource.DecRef_valid hv, hw]

theorem Resource.moveAssign_invalid {e : Engine Ty V} {a : Resource S} (b : Resource S)
    (hv : a.IsValid e = some false) :
    Resource.moveAssign e a b =
      some (e, ⟨b.uuid, b.handle⟩, { b with handle := InvalidHandle }) := by
  unfold Resource.moveAssign
  rw [Resource.DecRef_invalid hv]

theorem SphereCollider.CreateNewShape_steps {build : R → V} {e e1 e2 e3 : Engine Ty V}
    {this : SphereCollider S} {sphere : BoundingSphere R} {temporary assigned moved : Resource S}
    (hcr : AbstractFactoryImpl.Create e S build sphere.Radius = some (e1, temporary))
    (hma : Resource.moveAssign e1 this.sphereShape temporary = some (e2, assigned, moved))
    (hd : Resource.destruct e2 moved = some e3) :
    SphereCollider.CreateNewShape build e this sphere = some (e3, ⟨true, assigned⟩) := by
  unfold SphereCollider.CreateNewShape
  rw [hcr]
  simp only []
  rw [hma]
  simp only []
  rw [hd]

/-- The steps of `CreateNewShape`: the `Create`, then either a decrement through
the old handle, if it is valid after the `Create`, or nothing. -/
theorem SphereCollider.CreateNewShape_run (build : R → V) (e : Engine Ty V)
    (this : SphereCollider S) (sphere : BoundingSphere R) (pool : VectorPool V)
    (hp : AbstractFactoryImpl.Get e S = some pool) (hold : this.sphereShape.IsValid e ≠ none) :
    ∃ e1 e3,
      AbstractFactoryImpl.Create e S build sphere.Radius =
        some (e1, ⟨e.uuids.issued + 1,
          (pool.Allocate (e.uuids.issued + 1) build sphere.Radius).1⟩) ∧
      SphereCollider.CreateNewShape build e this sphere =
        some (e3, ⟨true, ⟨e.uuids.issued + 1,
          (pool.Allocate (e.uuids.issued + 1) build sphere.Radius).1⟩⟩) ∧
      ((this.sphereShape.IsValid e1 = some true ∧
          this.sphereShape.writeRefCount e1 sizeDec = some e3) ∨
        (this.sphereShape.IsValid e1 = some false ∧ e3 = e1)) := by
  obtain ⟨e1, hcr, _, _, _, hframe, _, _, cnew, hcnew, _⟩ :=
    Create_total e S build sphere.Radius pool hp
  generalize hidx : (pool.Allocate (e.uuids.issued + 1) build sphere.Radius).1 = idx at *
  have hdef1 : this.sphereShape.IsValid e1 ≠ none := by
    rw [Resource.IsValid_defined_iff] at hold ⊢
    rcases hold with hinv | ⟨c, hc⟩
    · exact Or.inl hinv
    · by_cases hj : this.sphereShape.handle = idx
      · exact Or.inr ⟨cnew, hj ▸ hcnew⟩
      · exact Or.inr ⟨c, by rw [hframe S _ (Or.inr hj)]; exact hc⟩
  cases hv1 : this.sphereShape.IsValid e1 with
  | none => exact absurd hv1 hdef1
  | some b =>
    cases b with
    | true =>
      obtain ⟨_, c1, hc1, _⟩ := (Resource.IsValid_true_iff e1 this.sphereShape).mp hv1
      obtain ⟨e3, he3⟩ := Resource.writeRefCount_isSome hc1 sizeDec
      exact ⟨e1, e3, hcr,
        SphereCollider.CreateNewShape_steps hcr (Resource.moveAssign_valid _ hv1 he3)
          (Resource.destruct_moved e3 _),
        Or.inl ⟨hv1, he3⟩⟩
    | false =>
      exact ⟨e1, e1, hcr,
        SphereCollider.CreateNewShape_steps hcr (Resource.moveAssign_invalid _ hv1)
          (Resource.destruct_moved e1 _),
        Or.inr ⟨hv1, rfl⟩⟩

end ColliderLemmas

theorem PoolCell.setRefCount_fields {V : Type} (c : PoolCell V) (n : Nat) :
    ({ c with storage := { c.storage with refCount := n } } : PoolCell V).storage.uuid =
        c.storage.uuid ∧
      ({ c with storage := { c.storage with refCount := n } } : PoolCell V).storage.value =
        c.storage.value :=
  ⟨rfl, rfl⟩

section Claims15

variable {Ty V R : Type} [DecidableEq Ty] {S : Ty}

/-- C24: a call of `CreateNewShape` on a collider whose handle is default or
names a cell of the `SphereShape` pool returns, raises the number of allocated
`SphereShape` cells by exactly one and deallocates none: every cell that was
allocated is still allocated with its token and value.  When the old handle
was valid on a live slot, that slot gets `refCount--` (one less, for a count
that is not 0) and stays allocated, also when the count reaches zero.  `SetBoundingSphere` and an updating
`UpdateCollider` are such calls, and `Init` makes one before `UpdateCollider`. -/
theorem CreateNewShape_allocates_one (build : R → V) (e : Engine Ty V)
    (this : SphereCollider S) (sphere : BoundingSphere R) (pool : VectorPool V)
    (hp : AbstractFactoryImpl.Get e S = some pool) (hold : this.sphereShape.IsValid e ≠ none) :
    (∃ e3 this1, SphereCollider.CreateNewShape build e this sphere = some (e3, this1) ∧
      allocatedCount e S = some (pool.cells.countP (fun c => c.allocated)) ∧
      allocatedCount e3 S = some (pool.cells.countP (fun c => c.allocated) + 1) ∧
      (∀ j c, slotAt e S j = some c → c.allocated = true →
        ∃ c3, slotAt e3 S j = some c3 ∧ c3.allocated = true ∧
          c3.storage.uuid = c.storage.uuid ∧ c3.storage.value = c.storage.value) ∧
      (∀ c, this.sphereShape.IsValid e = some true →
        slotAt e S this.sphereShape.handle = some c → c.allocated = true →
        slotAt e3 S this.sphereShape.handle =
          some { c with storage := { c.storage with refCount := sizeDec c.storage.refCount } } ∧
        (0 < c.storage.refCount → c.storage.refCount < SIZE_MODULUS →
          refCountAt e3 S this.sphereShape.handle = some (c.storage.refCount - 1)) ∧
        (c.storage.refCount = 1 → refCountAt e3 S this.sphereShape.handle = some 0))) ∧
    SphereCollider.SetBoundingSphere build e this sphere =
      SphereCollider.CreateNewShape build e this sphere ∧
    SphereCollider.UpdateCollider build true sphere e this =
      SphereCollider.CreateNewShape build e this sphere ∧
    SphereCollider.UpdateCollider build false sphere e this = some (e, this) ∧
    (∀ (defaultSphere : BoundingSphere R) (shouldUpdate : Bool),
      SphereCollider.Init build defaultSphere shouldUpdate sphere e this =
        match SphereCollider.CreateNewShape build e this defaultSphere with
        | none => none
        | some r => SphereCollider.UpdateCollider build shouldUpdate sphere r.1 r.2) := by
  refine ⟨?_, rfl, rfl, rfl, ?_⟩
  · obtain ⟨e1, e3, hcr, hrun, hcase⟩ :=
      SphereCollider.CreateNewShape_run build e this sphere pool hp hold
    obtain ⟨e1', hcr', _, _, _, hframe, _, hfree, _⟩ :=
      Create_total e S build sphere.Radius pool hp
    have he1 : e1' = e1 := by
      rw [hcr'] at hcr
      exact (Prod.mk.inj (Option.some.inj hcr)).1
    subst he1
    obtain ⟨hcount0, hcount1⟩ := allocatedCount_Create hp hcr
    generalize (pool.Allocate (e.uuids.issued + 1) build sphere.Radius).1 = idx at *
    have hkeep1 : ∀ j c, slotAt e S j = some c → c.allocated = true →
        slotAt e1' S j = some c := by
      intro j c hc hal
      have hj : j ≠ idx := by
        intro hj
        have := hfree c (hj ▸ hc)
        rw [hal] at this
        exact Bool.noConfusion this
      rw [hframe S j (Or.inr hj)]
      exact hc
    rcases hcase with ⟨hv1, hw⟩ | ⟨hv1, he3⟩
    · have hs3 := Resource.slotAt_writeRefCount hw
      refine ⟨e3, _, hrun, hcount0, ?_, ?_, ?_⟩
      · rw [Resource.allocatedCount_writeRefCount hw]
        exact hcount1
      · intro j c hc hal
        have hc1 := hkeep1 j c hc hal
        rw [hs3 S j]
        by_cases hcase : S = S ∧ j = this.sphereShape.handle
        · rw [if_pos hcase, ← hcase.2, hc1]
          refine ⟨{ c with storage := { c.storage with refCount := sizeDec c.storage.refCount } },
            rfl, hal, ?_, ?_⟩
          · exact (PoolCell.setRefCount_fields c _).1
          · exact (PoolCell.setRefCount_fields c _).2
        · rw [if_neg hcase]
          exact ⟨c, hc1, hal, rfl, rfl⟩
      · intro c _ hc hal
        have hc1 := hkeep1 _ c hc hal
        have hA : slotAt e3 S this.sphereShape.handle =
            some { c with storage :=
              { c.storage with refCount := sizeDec c.storage.refCount } } := by
          rw [hs3 S this.sphereShape.handle, if_pos ⟨rfl, rfl⟩, hc1]
          rfl
        refine ⟨hA, ?_, ?_⟩
        · intro h0 hlt
          unfold refCountAt
          rw [hA]
          simp only [Option.map_some']
          rw [sizeDec_of_pos h0 hlt]
        · intro hone
          unfold refCountAt
          rw [hA]
          simp only [Option.map_some', hone, sizeDec_one]
    · subst he3
      refine ⟨e3, _, hrun, hcount0, hcount1, ?_, ?_⟩
      · intro j c hc hal
        exact ⟨c, hkeep1 j c hc hal, hal, rfl, rfl⟩
      · intro c hv hc hal
        have hc1 := hkeep1 _ c hc hal
        have hvalid : this.sphereShape.IsValid e3 = some true := by
          rw [Resource.IsValid_eq, hc1, ← hc, ← Resource.IsValid_eq]
          exact hv
        rw [hvalid] at hv1
        exact absurd (Option.some.inj hv1) (by decide)
  · intro defaultSphere shouldUpdate
    unfold SphereCollider.Init
    cases SphereCollider.CreateNewShape build e this defaultSphere with
    | none => rfl
    | some r => rfl

/-- C24 on `sampleLive`: a collider holding `(1, 0)`, the only handle of slot 0,
gets a new shape; the `Mesh` pool goes from two allocated cells to three, and
slot 0 stays allocated with count 0. -/
theorem CreateNewShape_allocates_one_witness :
    ∃ e3 this1,
      SphereCollider.CreateNewShape id sampleLive
          (⟨false, ⟨1, 0⟩⟩ : SphereCollider SampleType.Mesh) (⟨5⟩ : BoundingSphere Nat) =
        some (e3, this1) ∧
      allocatedCount sampleLive SampleType.Mesh = some 2 ∧
      allocatedCount e3 SampleType.Mesh = some 3 ∧
      (∃ c3, slotAt e3 SampleType.Mesh 0 = some c3 ∧ c3.allocated = true) ∧
      refCountAt e3 SampleType.Mesh 0 = some 0 := by
  obtain ⟨⟨e3, this1, hrun, h0, h1, hkeep, hdec⟩, _⟩ :=
    CreateNewShape_allocates_one id sampleLive
      (⟨false, ⟨1, 0⟩⟩ : SphereCollider SampleType.Mesh) (⟨5⟩ : BoundingSphere Nat)
      ⟨[⟨true, ⟨1, 10, 1⟩⟩, ⟨true, ⟨2, 20, 2⟩⟩, ⟨false, ⟨0, 30, 0⟩⟩]⟩ (by decide) (by decide)
  obtain ⟨c3, hc3, hal3, _⟩ := hkeep 0 ⟨true, ⟨1, 10, 1⟩⟩ (by decide) rfl
  exact ⟨e3, this1, hrun, h0, h1, ⟨c3, hc3, hal3⟩,
    (hdec ⟨true, ⟨1, 10, 1⟩⟩ (by decide) (by decide) rfl).2.2 rfl⟩

end Claims15

section Claims16

variable {Ty V R : Type} [DecidableEq Ty] {S : Ty}

/-- C25: `SetBoundingSphere(s)` on a collider whose handle is default or names a
cell of the `SphereShape` pool, with a token the generator has issued, in a
pool with fewer than `InvalidHandle` cells: the call returns with the
collider-changed flag true and with `sphereShape` the handle that
`PhysicsFactory::Create<SphereShape>(s.Radius)` returns in the state of the
call; that handle carries the next, fresh token, is valid afterwards, its slot
is allocated and holds the shape built from `s.Radius`, and the reference
count of the slot is 1. -/
theorem SetBoundingSphere_fresh_shape (build : R → V) (e : Engine Ty V)
    (this : SphereCollider S) (s : BoundingSphere R) (pool : VectorPool V)
    (hp : AbstractFactoryImpl.Get e S = some pool)
    (hroom : pool.cells.length < InvalidHandle)
    (hold : this.sphereShape.IsValid e ≠ none)
    (htok : this.sphereShape.uuid ≤ e.uuids.issued) :
    ∃ e1 e3, ∃ h : Resource S,
      AbstractFactoryImpl.Create e S build s.Radius = some (e1, h) ∧
      SphereCollider.SetBoundingSphere build e this s = some (e3, ⟨true, h⟩) ∧
      h.uuid = e.uuids.issued + 1 ∧
      h.IsValid e3 = some true ∧
      slotAt e3 S h.handle = some ⟨true, ⟨h.uuid, build s.Radius, 1⟩⟩ ∧
      Pointer.load e3 S (Pointer.slot h.handle) = some (build s.Radius) ∧
      refCountAt e3 S h.handle = some 1 := by
  obtain ⟨e1, e3, hcr, hrun, hcase⟩ :=
    SphereCollider.CreateNewShape_run build e this s pool hp hold
  have hle := (VectorPool.Allocate_spec pool (e.uuids.issued + 1) build s.Radius).1
  have hidx := Nat.lt_of_le_of_lt hle hroom
  obtain ⟨_, e1', _, _, hcr', _, _, hslot, _, _⟩ :=
    Create_spec e S build s.Radius pool hp hidx
  have he1 : e1' = e1 := by
    rw [hcr'] at hcr
    exact (Prod.mk.inj (Option.some.inj hcr)).1
  subst he1
  generalize (pool.Allocate (e.uuids.issued + 1) build s.Radius).1 = idx at *
  have hslot3 : slotAt e3 S idx = some ⟨true, ⟨e.uuids.issued + 1, build s.Radius, 1⟩⟩ := by
    rcases hcase with ⟨hv1, hw⟩ | ⟨_, he3⟩
    · obtain ⟨_, c, hc, hcu⟩ := (Resource.IsValid_true_iff e1' this.sphereShape).mp hv1
      have hne : idx ≠ this.sphereShape.handle := by
        intro hj
        rw [← hj, hslot] at hc
        have hc2 := Option.some.inj hc
        rw [← hc2] at hcu
        have hcu2 : e.uuids.issued + 1 = this.sphereShape.uuid := hcu
        rw [← hcu2] at htok
        exact Nat.not_succ_le_self _ htok
      rw [Resource.slotAt_writeRefCount hw S idx, if_neg (fun hh => hne hh.2)]
      exact hslot
    · rw [he3]
      exact hslot
  refine ⟨e1', e3, ⟨e.uuids.issued + 1, idx⟩, hcr', hrun, rfl, ?_, hslot3, ?_, ?_⟩
  · exact (Resource.IsValid_true_iff e3 _).mpr ⟨Nat.ne_of_lt hidx, _, hslot3, rfl⟩
  · rw [Pointer.load_slot, hslot3]
    rfl
  · unfold refCountAt
    rw [hslot3]
    rfl

/-- C25 on `sampleLive`: the collider holds `(1, 0)`; `SetBoundingSphere` with
radius 5 stores the handle `(4, 2)` of the reused slot 2. -/
theorem SetBoundingSphere_fresh_shape_witness :
    ∃ e1 e3, ∃ h : Resource SampleType.Mesh,
      AbstractFactoryImpl.Create sampleLive SampleType.Mesh id (5 : Nat) = some (e1, h) ∧
      SphereCollider.SetBoundingSphere id sampleLive
          (⟨false, ⟨1, 0⟩⟩ : SphereCollider SampleType.Mesh) (⟨5⟩ : BoundingSphere Nat) =
        some (e3, ⟨true, h⟩) ∧
      h.uuid = 4 ∧
      h.IsValid e3 = some true ∧
      slotAt e3 SampleType.Mesh h.handle = some ⟨true, ⟨h.uuid, 5, 1⟩⟩ ∧
      Pointer.load e3 SampleType.Mesh (Pointer.slot h.handle) = some 5 ∧
      refCountAt e3 SampleType.Mesh h.handle = some 1 :=
  SetBoundingSphere_fresh_shape id sampleLive
    (⟨false, ⟨1, 0⟩⟩ : SphereCollider SampleType.Mesh) (⟨5⟩ : BoundingSphere Nat)
    ⟨[⟨true, ⟨1, 10, 1⟩⟩, ⟨true, ⟨2, 20, 2⟩⟩, ⟨false, ⟨0, 30, 0⟩⟩]⟩ (by decide) (by decide)
    (by decide) (by decide)

end Claims16

/-! ## Lemmas: counting handle objects -/

section CountLemmas

theorem countP_set_balance {α : Type} (p : α → Bool) :
    ∀ (l : List α) (i : Nat) (a b : α), l[i]? = some a →
      (l.set i b).countP p + (if p a = true then 1 else 0) =
        l.countP p + (if p b = true then 1 else 0)
  | [], i, a, b, h => by simp at h
  | x :: l, 0, a, b, h => by
    simp only [List.getElem?_cons_zero, Option.some.injEq] at h
    subst h
    simp only [List.set_cons_zero, List.countP_cons]
    omega
  | x :: l, i + 1, a, b, h => by
    simp only [List.getElem?_cons_succ] at h
    have ih := countP_set_balance p l i a b h
    simp only [List.set_cons_succ, List.countP_cons]
    omega

theorem countP_eraseIdx_balance {α : Type} (p : α → Bool) :
    ∀ (l : List α) (i : Nat) (a : α), l[i]? = some a →
      (l.eraseIdx i).countP p + (if p a = true then 1 else 0) = l.countP p
  | [], i, a, h => by simp at h
  | x :: l, 0, a, h => by
    simp only [List.getElem?_cons_zero, Option.some.injEq] at h
    subst h
    simp only [List.eraseIdx_cons_zero, List.countP_cons]
  | x :: l, i + 1, a, h => by
    simp only [List.getElem?_cons_succ] at h
    have ih := countP_eraseIdx_balance p l i a h
    simp only [List.eraseIdx_cons_succ, List.countP_cons]
    omega

variable {Ty : Type} {T : Ty}

theorem holderCount_le_length (objs : List (Resource T)) (u : UUID) (j : Nat) :
    holderCount objs u j ≤ objs.length :=
  List.countP_le_length _

theorem holderCount_append_singleton (objs : List (Resource T)) (o : Resource T) (u : UUID)
    (j : Nat) :
    holderCount (objs ++ [o]) u j =
      holderCount objs u j + (if o.uuid = u ∧ o.handle = j then 1 else 0) := by
  unfold holderCount
  rw [List.countP_append, List.countP_cons, List.countP_nil]
  simp only [decide_eq_true_eq, Nat.zero_add]

theorem holderCount_set (objs : List (Resource T)) (i : Nat) (a b : Resource T)
    (h : objs[i]? = some a) (u : UUID) (j : Nat) :
    holderCount (objs.set i b) u j + (if a.uuid = u ∧ a.handle = j then 1 else 0) =
      holderCount objs u j + (if b.uuid = u ∧ b.handle = j then 1 else 0) := by
  have := countP_set_balance (fun o : Resource T => decide (o.uuid = u ∧ o.handle = j))
    objs i a b h
  simp only [decide_eq_true_eq] at this
  exact this

theorem holderCount_eraseIdx (objs : List (Resource T)) (i : Nat) (a : Resource T)
    (h : objs[i]? = some a) (u : UUID) (j : Nat) :
    holderCount (objs.eraseIdx i) u j + (if a.uuid = u ∧ a.handle = j then 1 else 0) =
      holderCount objs u j := by
  have := countP_eraseIdx_balance (fun o : Resource T => decide (o.uuid = u ∧ o.handle = j))
    objs i a h
  simp only [decide_eq_true_eq] at this
  exact this

theorem holderCount_eq_zero (objs : List (Resource T)) (u : UUID) (j : Nat)
    (h : ∀ o ∈ objs, ¬ (o.uuid = u ∧ o.handle = j)) : holderCount objs u j = 0 := by
  unfold holderCount
  rw [List.countP_eq_zero]
  intro o ho
  simp only [decide_eq_true_eq]
  exact h o ho

end CountLemmas

/-! ## Lemmas: the reference-count invariant -/

section InvariantLemmas

variable {Ty V : Type} [DecidableEq Ty] {T : Ty}

theorem Resource.Tracked_of_frame {e e1 : Engine Ty V}
    (hu : e.uuids.issued ≤ e1.uuids.issued)
    (hs : ∀ j c, slotAt e T j = some c → ∃ c1, slotAt e1 T j = some c1) {o : Resource T}
    (h : o.Tracked e) : o.Tracked e1 := by
  rcases h with h | ⟨h0, h1, c, hc⟩
  · exact Or.inl h
  · exact Or.inr ⟨h0, Nat.le_trans h1 hu, hs _ c hc⟩

/-- Under the invariant a handle object is either not valid, and then names no
live cell, or valid, and then its cell is live and carries its token. -/
theorem CountInvariant.valid_live {e : Engine Ty V} {objs : List (Resource T)} {n : Nat}
    (hinv : CountInvariant T e objs n) {o : Resource T} (ht : o.Tracked e) :
    (o.IsValid e = some false ∧
        ∀ j c, slotAt e T j = some c → c.allocated = true →
          ¬ (o.uuid = c.storage.uuid ∧ o.handle = j)) ∨
      (o.IsValid e = some true ∧
        ∃ c, slotAt e T o.handle = some c ∧ c.allocated = true ∧ c.storage.uuid = o.uuid) := by
  obtain ⟨hn, _, _, hbound, hret, _, _⟩ := hinv
  rcases ht with h | ⟨h0, _, c, hc⟩
  · refine Or.inl ⟨(Resource.IsValid_false_iff e o).mpr (Or.inl h), ?_⟩
    intro j c hc _ hm
    have hj := hbound j c hc
    rw [← hm.2, h] at hj
    exact absurd (Nat.lt_trans hj hn) (Nat.lt_irrefl _)
  · by_cases hu : c.storage.uuid = o.uuid
    · have hne : o.handle ≠ InvalidHandle :=
        Nat.ne_of_lt (Nat.lt_trans (hbound _ c hc) hn)
      refine Or.inr ⟨(Resource.IsValid_true_iff e o).mpr ⟨hne, c, hc, hu⟩, c, hc, ?_, hu⟩
      cases hal : c.allocated with
      | true => rfl
      | false =>
        have := hret _ c hc hal
        rw [hu] at this
        exact absurd this h0
    · refine Or.inl ⟨(Resource.IsValid_false_iff e o).mpr (Or.inr ⟨c, hc, hu⟩), ?_⟩
      intro j c1 hc1 _ hm
      rw [← hm.2, hc] at hc1
      have := Option.some.inj hc1
      rw [← this] at hm
      exact hu hm.1.symm

theorem CountInvariant.congr {e : Engine Ty V} {objs objs1 : List (Resource T)} {n : Nat}
    (hinv : CountInvariant T e objs n) (hlen : objs1.length ≤ n)
    (htr : ∀ o ∈ objs1, Resource.Tracked e o)
    (hcount : ∀ j c, slotAt e T j = some c → c.allocated = true →
      holderCount objs1 c.storage.uuid j = holderCount objs c.storage.uuid j) :
    CountInvariant T e objs1 n := by
  obtain ⟨hn, _, hpool, hbound, hret, hcnt, _⟩ := hinv
  refine ⟨hn, hlen, hpool, hbound, hret, ?_, htr⟩
  intro j c hc hal
  rw [hcount j c hc hal]
  exact hcnt j c hc hal

theorem CountInvariant.mono {e : Engine Ty V} {objs : List (Resource T)} {n m : Nat}
    (hinv : CountInvariant T e objs n) (hnm : n ≤ m) (hm : m < InvalidHandle) :
    CountInvariant T e objs m := by
  obtain ⟨_, hlen, hpool, hbound, hret, hcnt, htr⟩ := hinv
  exact ⟨hm, Nat.le_trans hlen hnm, hpool,
    fun j c hc => Nat.lt_of_lt_of_le (hbound j c hc) hnm, hret, hcnt, htr⟩

theorem CountInvariant.write {e e1 : Engine Ty V} {objs objs1 : List (Resource T)} {n : Nat}
    (hinv : CountInvariant T e objs n) {r : Resource T} {f : Nat → Nat} {c0 : PoolCell V}
    (hc0 : slotAt e T r.handle = some c0) (hal0 : c0.allocated = true)
    (hw : r.writeRefCount e f = some e1)
    (hlen : objs1.length ≤ n) (htr : ∀ o ∈ objs1, Resource.Tracked e o)
    (hcount0 : f c0.storage.refCount = holderCount objs1 c0.storage.uuid r.handle)
    (hcount : ∀ j c, slotAt e T j = some c → c.allocated = true → j ≠ r.handle →
      holderCount objs1 c.storage.uuid j = holderCount objs c.storage.uuid j) :
    CountInvariant T e1 objs1 n ∧ e1.uuids = e.uuids ∧
      (∀ j c, slotAt e T j = some c → ∃ c1, slotAt e1 T j = some c1) := by
  obtain ⟨hn, _, _, hbound, hret, hcnt, _⟩ := hinv
  have hs := Resource.slotAt_writeRefCount hw T
  have hu := Resource.writeRefCount_uuids hw
  have hsame : ∀ j, j ≠ r.handle → slotAt e1 T j = slotAt e T j := by
    intro j hj
    rw [hs j, if_neg (fun hh => hj hh.2)]
  have hnew : slotAt e1 T r.handle =
      some ⟨c0.allocated, ⟨c0.storage.uuid, c0.storage.value, f c0.storage.refCount⟩⟩ := by
    rw [hs r.handle, if_pos ⟨rfl, rfl⟩, hc0]
    rfl
  have hexists : ∀ j c, slotAt e T j = some c → ∃ c1, slotAt e1 T j = some c1 := by
    intro j c hc
    by_cases hj : j = r.handle
    · rw [hj]
      exact ⟨_, hnew⟩
    · rw [hsame j hj]
      exact ⟨c, hc⟩
  have hback : ∀ j c1, slotAt e1 T j = some c1 →
      (j = r.handle ∧
        c1 = ⟨c0.allocated, ⟨c0.storage.uuid, c0.storage.value, f c0.storage.refCount⟩⟩) ∨
      (j ≠ r.handle ∧ slotAt e T j = some c1) := by
    intro j c1 hc1
    by_cases hj : j = r.handle
    · rw [hj, hnew] at hc1
      exact Or.inl ⟨hj, (Option.some.inj hc1).symm⟩
    · rw [hsame j hj] at hc1
      exact Or.inr ⟨hj, hc1⟩
  refine ⟨⟨hn, hlen, ?_, ?_, ?_, ?_, ?_⟩, hu, hexists⟩
  · obtain ⟨pool, hg, _⟩ := Get_of_slotAt hnew
    exact ⟨pool, hg⟩
  · intro j c1 hc1
    rcases hback j c1 hc1 with ⟨hj, _⟩ | ⟨_, hc⟩
    · rw [hj]
      exact hbound _ c0 hc0
    · exact hbound j c1 hc
  · intro j c1 hc1 hal
    rcases hback j c1 hc1 with ⟨_, hc⟩ | ⟨_, hc⟩
    · rw [hc] at hal
      rw [hal0] at hal
      exact Bool.noConfusion hal
    · exact hret j c1 hc hal
  · intro j c1 hc1 hal
    rcases hback j c1 hc1 with ⟨hj, hc⟩ | ⟨hj, hc⟩
    · rw [hc, hj]
      exact hcount0
    · rw [hcount j c1 hc hal hj]
      exact hcnt j c1 hc hal
  · intro o ho
    exact Resource.Tracked_of_frame (Nat.le_of_eq (congrArg UUIDGenerator.issued hu.symm))
      hexists (htr o ho)

end InvariantLemmas

section InvariantSteps

variable {Ty V : Type} [DecidableEq Ty] {T : Ty}

/-- One handle object less: `DecRef` through `a`, the objects after it being
the objects before it minus one holder of the pair of `a`. -/
theorem CountInvariant.release {e : Engine Ty V} {objs : List (Resource T)} {n : Nat}
    (hinv : CountInvariant T e objs n) {a : Resource T} (ha : a.Tracked e)
    (objs1 : List (Resource T)) (hlen : objs1.length ≤ n) (htr : ∀ o ∈ objs1, Resource.Tracked e o)
    (hbal : ∀ u j, j < n →
      holderCount objs1 u j + (if a.uuid = u ∧ a.handle = j then 1 else 0) =
        holderCount objs u j) :
    ∃ e1, a.DecRef e = some e1 ∧ CountInvariant T e1 objs1 n ∧ e1.uuids = e.uuids ∧
      (∀ j c, slotAt e T j = some c → ∃ c1, slotAt e1 T j = some c1) := by
  have hinv0 := hinv
  obtain ⟨hn, hlen0, _, hbound, _, hcnt, _⟩ := hinv
  rcases CountInvariant.valid_live hinv0 ha with ⟨hv, hno⟩ | ⟨hv, c0, hc0, hal0, hu0⟩
  · refine ⟨e, Resource.DecRef_invalid hv, ?_, rfl, fun j c hc => ⟨c, hc⟩⟩
    apply CountInvariant.congr hinv0 hlen htr
    intro j c hc hal
    have hb := hbal c.storage.uuid j (hbound j c hc)
    rw [if_neg (hno j c hc hal)] at hb
    exact hb
  · obtain ⟨e1, hw⟩ := Resource.writeRefCount_isSome hc0 sizeDec
    have hb := hbal c0.storage.uuid a.handle (hbound _ c0 hc0)
    rw [if_pos ⟨hu0.symm, rfl⟩] at hb
    have hc := hcnt _ c0 hc0 hal0
    have hle := holderCount_le_length objs c0.storage.uuid a.handle
    have hdec : sizeDec c0.storage.refCount = holderCount objs1 c0.storage.uuid a.handle := by
      rw [sizeDec_of_pos (by omega) (by unfold SIZE_MODULUS; unfold InvalidHandle at hn; omega)]
      omega
    obtain ⟨h1, h2, h3⟩ := CountInvariant.write hinv0 hc0 hal0 hw hlen htr hdec (by
      intro j c hcj _ hj
      have hbj := hbal c.storage.uuid j (hbound j c hcj)
      rw [if_neg (fun hh => hj hh.2.symm)] at hbj
      exact hbj)
    exact ⟨e1, by rw [Resource.DecRef_valid hv]; exact hw, h1, h2, h3⟩

/-- One handle object more: `IncRef` through `p`, the objects after it being the
objects before it plus one holder of the pair of `p`. -/
theorem CountInvariant.acquire {e : Engine Ty V} {objs : List (Resource T)} {n : Nat}
    (hinv : CountInvariant T e objs n) {p : Resource T} (hp : p.Tracked e)
    (objs1 : List (Resource T)) (hlen : objs1.length ≤ n) (htr : ∀ o ∈ objs1, Resource.Tracked e o)
    (hbal : ∀ u j, j < n →
      holderCount objs1 u j =
        holderCount objs u j + (if p.uuid = u ∧ p.handle = j then 1 else 0)) :
    ∃ e1, p.IncRef e = some e1 ∧ CountInvariant T e1 objs1 n ∧ e1.uuids = e.uuids ∧
      (∀ j c, slotAt e T j = some c → ∃ c1, slotAt e1 T j = some c1) := by
  have hinv0 := hinv
  obtain ⟨hn, hlen0, _, hbound, _, hcnt, _⟩ := hinv
  rcases CountInvariant.valid_live hinv0 hp with ⟨hv, hno⟩ | ⟨hv, c0, hc0, hal0, hu0⟩
  · refine ⟨e, Resource.IncRef_invalid hv, ?_, rfl, fun j c hc => ⟨c, hc⟩⟩
    apply CountInvariant.congr hinv0 hlen htr
    intro j c hc hal
    have hb := hbal c.storage.uuid j (hbound j c hc)
    rw [if_neg (hno j c hc hal)] at hb
    exact hb
  · obtain ⟨e1, hw⟩ := Resource.writeRefCount_isSome hc0 sizeInc
    have hb := hbal c0.storage.uuid p.handle (hbound _ c0 hc0)
    rw [if_pos ⟨hu0.symm, rfl⟩] at hb
    have hc := hcnt _ c0 hc0 hal0
    have hle := holderCount_le_length objs1 c0.storage.uuid p.handle
    have hinc : sizeInc c0.storage.refCount = holderCount objs1 c0.storage.uuid p.handle := by
      rw [sizeInc_of_lt (by unfold SIZE_MODULUS; unfold InvalidHandle at hn; omega)]
      omega
    obtain ⟨h1, h2, h3⟩ := CountInvariant.write hinv0 hc0 hal0 hw hlen htr hinc (by
      intro j c hcj _ hj
      have hbj := hbal c.storage.uuid j (hbound j c hcj)
      rw [if_neg (fun hh => hj hh.2.symm)] at hbj
      exact hbj)
    exact ⟨e1, by rw [Resource.IncRef_valid hv]; exact hw, h1, h2, h3⟩

end InvariantSteps

section InvariantCalls

variable {Ty V : Type} [DecidableEq Ty] {T : Ty}

theorem CountInvariant.create_keeps {A : Type} {e : Engine Ty V} {objs : List (Resource T)}
    {n : Nat} (hinv : CountInvariant T e objs n) (hn1 : n + 1 < InvalidHandle)
    (build : A → V) (args : A) :
    ∃ e1, ∃ h : Resource T, AbstractFactoryImpl.Create e T build args = some (e1, h) ∧
      CountInvariant T e1 (objs ++ [h]) (n + 1) := by
  obtain ⟨hn, hlen, ⟨pool, hg⟩, hbound, hret, hcnt, htr⟩ := hinv
  have hpl : pool.cells.length ≤ n := by
    by_contra hc
    have hlt : n < pool.cells.length := by omega
    have hs : slotAt e T n = some (pool.cells[n]) := by
      rw [slotAt_of_Get hg]
      exact List.getElem?_eq_getElem hlt
    exact absurd (hbound n _ hs) (Nat.lt_irrefl n)
  have hle := (VectorPool.Allocate_spec pool (e.uuids.issued + 1) build args).1
  have hidx : (pool.Allocate (e.uuids.issued + 1) build args).1 < InvalidHandle :=
    Nat.lt_of_le_of_lt hle (Nat.lt_of_le_of_lt hpl hn)
  obtain ⟨_, e2, _, _, hcr, hu, _, hslot, hframe, _⟩ := Create_spec e T build args pool hg hidx
  generalize (pool.Allocate (e.uuids.issued + 1) build args).1 = idx at *
  have hiss : e2.uuids.issued = e.uuids.issued + 1 := by rw [hu]
  have hexists : ∀ j c, slotAt e T j = some c → ∃ c1, slotAt e2 T j = some c1 := by
    intro j c hc
    by_cases hj : j = idx
    · rw [hj]
      exact ⟨_, hslot⟩
    · rw [hframe T j (Or.inr hj)]
      exact ⟨c, hc⟩
  have hold : ∀ o ∈ objs, ¬ (o.uuid = e.uuids.issued + 1 ∧ o.handle = idx) := by
    intro o ho hm
    rcases htr o ho with hinvd | ⟨_, htok, _⟩
    · rw [hm.2] at hinvd
      exact absurd hinvd (Nat.ne_of_lt hidx)
    · rw [hm.1] at htok
      exact Nat.not_succ_le_self _ htok
  refine ⟨e2, ⟨e.uuids.issued + 1, idx⟩, hcr, hn1, ?_, ?_, ?_, ?_, ?_, ?_⟩
  · rw [List.length_append, List.length_singleton]
    exact Nat.succ_le_succ hlen
  · obtain ⟨pool2, hg2, _⟩ := Get_of_slotAt hslot
    exact ⟨pool2, hg2⟩
  · intro j c hc
    by_cases hj : j = idx
    · omega
    · rw [hframe T j (Or.inr hj)] at hc
      exact Nat.lt_succ_of_lt (hbound j c hc)
  · intro j c hc hfree
    by_cases hj : j = idx
    · rw [hj, hslot] at hc
      rw [← Option.some.inj hc] at hfree
      exact Bool.noConfusion hfree
    · rw [hframe T j (Or.inr hj)] at hc
      exact hret j c hc hfree
  · intro j c hc hal
    rw [holderCount_append_singleton]
    by_cases hj : j = idx
    · rw [hj, hslot] at hc
      rw [← Option.some.inj hc, hj]
      rw [holderCount_eq_zero objs _ _ hold, if_pos ⟨rfl, rfl⟩]
    · rw [hframe T j (Or.inr hj)] at hc
      rw [if_neg (fun hh => hj hh.2.symm), Nat.add_zero]
      exact hcnt j c hc hal
  · intro o ho
    rcases List.mem_append.mp ho with hmem | hnew
    · exact Resource.Tracked_of_frame (by rw [hiss]; exact Nat.le_succ _) hexists (htr o hmem)
    · rw [List.mem_singleton.mp hnew]
      exact Or.inr ⟨Nat.succ_ne_zero _, Nat.le_of_eq hiss.symm, _, hslot⟩

theorem CountInvariant.destroy_keeps {e : Engine Ty V} {objs : List (Resource T)} {n : Nat}
    (hinv : CountInvariant T e objs n) {h : Resource T} (hmem : h ∈ objs)
    (hv : h.IsValid e = some true) :
    ∃ e1, AbstractFactoryImpl.Destroy e h = some e1 ∧ CountInvariant T e1 objs n := by
  have hinv0 := hinv
  obtain ⟨hn, hlen, _, hbound, hret, hcnt, htr⟩ := hinv
  rcases CountInvariant.valid_live hinv0 (htr h hmem) with ⟨hv0, _⟩ | ⟨_, c, hc, hal, _⟩
  · rw [hv] at hv0
    exact absurd (Option.some.inj hv0) (by decide)
  · obtain ⟨e1, hd, hu, _, hnew, hframe⟩ := Destroy_spec e h c hc hal
    have hexists : ∀ j c, slotAt e T j = some c → ∃ c1, slotAt e1 T j = some c1 := by
      intro j c hc
      by_cases hj : j = h.handle
      · rw [hj]
        exact ⟨_, hnew⟩
      · rw [hframe T j (Or.inr hj)]
        exact ⟨c, hc⟩
    refine ⟨e1, hd, hn, hlen, ?_, ?_, ?_, ?_, ?_⟩
    · obtain ⟨pool1, hg1, _⟩ := Get_of_slotAt hnew
      exact ⟨pool1, hg1⟩
    · intro j d hdj
      by_cases hj : j = h.handle
      · rw [hj]
        exact hbound _ c hc
      · rw [hframe T j (Or.inr hj)] at hdj
        exact hbound j d hdj
    · intro j d hdj hfree
      by_cases hj : j = h.handle
      · rw [hj, hnew] at hdj
        rw [← Option.some.inj hdj]
        rfl
      · rw [hframe T j (Or.inr hj)] at hdj
        exact hret j d hdj hfree
    · intro j d hdj hlive
      by_cases hj : j = h.handle
      · rw [hj, hnew] at hdj
        rw [← Option.some.inj hdj] at hlive
        exact Bool.noConfusion hlive
      · rw [hframe T j (Or.inr hj)] at hdj
        exact hcnt j d hdj hlive
    · intro o ho
      exact Resource.Tracked_of_frame (Nat.le_of_eq (congrArg UUIDGenerator.issued hu.symm))
        hexists (htr o ho)

end InvariantCalls

section MovedLemmas

variable {Ty V : Type} {T : Ty}

theorem mem_of_getElem?_some {α : Type} {l : List α} {i : Nat} {a : α} (h : l[i]? = some a) :
    a ∈ l :=
  List.mem_iff_getElem?.mpr ⟨i, h⟩

theorem Resource.moved_handle (w : Resource T) :
    ({ w with handle := InvalidHandle } : Resource T).handle = InvalidHandle :=
  rfl

theorem Resource.moveConstruct_eq [DecidableEq Ty] (e : Engine Ty V) (w : Resource T) :
    Resource.moveConstruct e w = (e, w, { w with handle := InvalidHandle }) := by
  unfold Resource.moveConstruct
  rw [Resource.eta]

end MovedLemmas

section InvariantObjects

variable {Ty V : Type} [DecidableEq Ty] {T : Ty}

theorem Resource.copyConstruct_of_IncRef {e e1 : Engine Ty V} {w : Resource T}
    (h : w.IncRef e = some e1) : Resource.copyConstruct e w = some (e1, w) := by
  unfold Resource.copyConstruct
  simp only [Resource.eta, h, Option.map_some']

theorem Resource.copyAssign_of_steps {e e1 e2 : Engine Ty V} {a w : Resource T}
    (hd : a.DecRef e = some e1) (hi : w.IncRef e1 = some e2) :
    Resource.copyAssign e a w = some (e2, w) := by
  unfold Resource.copyAssign
  simp only [hd, Resource.eta, hi, Option.map_some']

theorem Resource.moveAssign_of_DecRef {e e1 : Engine Ty V} {a : Resource T} (w : Resource T)
    (hd : a.DecRef e = some e1) :
    Resource.moveAssign e a w = some (e1, w, { w with handle := InvalidHandle }) := by
  unfold Resource.moveAssign
  rw [hd, Resource.eta]

theorem CountInvariant.copyConstruct_keeps {e : Engine Ty V} {objs : List (Resource T)} {n : Nat}
    (hinv : CountInvariant T e objs n) (hn1 : n + 1 < InvalidHandle) {k : Nat}
    {w : Resource T} (hk : objs[k]? = some w) :
    ∃ e1, w.IncRef e = some e1 ∧ CountInvariant T e1 (objs ++ [w]) (n + 1) := by
  have hm := hinv.mono (Nat.le_succ n) hn1
  have htr := hinv.2.2.2.2.2.2
  have hw := htr w (mem_of_getElem?_some hk)
  obtain ⟨e1, h1, h2, _⟩ := CountInvariant.acquire hm hw
    (objs ++ [w])
    (by rw [List.length_append, List.length_singleton]; exact Nat.succ_le_succ hinv.2.1)
    (by
      intro o ho
      rcases List.mem_append.mp ho with h | h
      · exact htr o h
      · rw [List.mem_singleton.mp h]
        exact hw)
    (fun u j _ => holderCount_append_singleton objs w u j)
  exact ⟨e1, h1, h2⟩

theorem CountInvariant.moveConstruct_keeps {e : Engine Ty V} {objs : List (Resource T)} {n : Nat}
    (hinv : CountInvariant T e objs n) (hn1 : n + 1 < InvalidHandle) {k : Nat}
    {w m : Resource T} (hk : objs[k]? = some w) (hm : m.handle = InvalidHandle) :
    CountInvariant T e (objs.set k m ++ [w]) (n + 1) := by
  have hmono := hinv.mono (Nat.le_succ n) hn1
  have htr := hinv.2.2.2.2.2.2
  have hw := htr w (mem_of_getElem?_some hk)
  apply CountInvariant.congr hmono
  · rw [List.length_append, List.length_singleton, List.length_set]
    exact Nat.succ_le_succ hinv.2.1
  · intro o ho
    rcases List.mem_append.mp ho with h | h
    · rcases List.mem_or_eq_of_mem_set h with h | h
      · exact htr o h
      · rw [h]
        exact Or.inl hm
    · rw [List.mem_singleton.mp h]
      exact hw
  · intro j c hc _
    have hj := Nat.lt_trans (hinv.2.2.2.1 j c hc) hinv.1
    have h1 := holderCount_append_singleton (objs.set k m) w c.storage.uuid j
    have h2 := holderCount_set objs k w m hk c.storage.uuid j
    rw [if_neg (fun hh : m.uuid = c.storage.uuid ∧ m.handle = j =>
      Nat.ne_of_lt hj (hh.2.symm.trans hm))] at h2
    omega

theorem CountInvariant.copyAssign_keeps {e : Engine Ty V} {objs : List (Resource T)} {n : Nat}
    (hinv : CountInvariant T e objs n) {i j : Nat} {a w : Resource T}
    (hi : objs[i]? = some a) (hj : objs[j]? = some w) :
    ∃ e1 e2, a.DecRef e = some e1 ∧ w.IncRef e1 = some e2 ∧
      CountInvariant T e2 (objs.set i w) n := by
  have htr := hinv.2.2.2.2.2.2
  have ha := htr a (mem_of_getElem?_some hi)
  have hw := htr w (mem_of_getElem?_some hj)
  obtain ⟨e1, hd, hinv1, hu1, hs1⟩ := CountInvariant.release hinv ha
    (objs.eraseIdx i)
    (Nat.le_trans (List.length_eraseIdx_le objs i) hinv.2.1)
    (fun o ho => htr o (List.mem_of_mem_eraseIdx ho))
    (fun u j0 _ => holderCount_eraseIdx objs i a hi u j0)
  have hfr : ∀ o : Resource T, o.Tracked e → o.Tracked e1 := fun o ho =>
    Resource.Tracked_of_frame (Nat.le_of_eq (congrArg UUIDGenerator.issued hu1.symm)) hs1 ho
  obtain ⟨e2, hinc, hinv2, _⟩ := CountInvariant.acquire hinv1 (hfr w hw)
    (objs.set i w)
    (by rw [List.length_set]; exact hinv.2.1)
    (by
      intro o ho
      rcases List.mem_or_eq_of_mem_set ho with h | h
      · exact hfr o (htr o h)
      · rw [h]
        exact hfr w hw)
    (by
      intro u j0 _
      have h1 := holderCount_set objs i a w hi u j0
      have h2 := holderCount_eraseIdx objs i a hi u j0
      omega)
  exact ⟨e1, e2, hd, hinc, hinv2⟩

theorem CountInvariant.moveAssign_keeps {e : Engine Ty V} {objs : List (Resource T)} {n : Nat}
    (hinv : CountInvariant T e objs n) {i j : Nat} {a w m : Resource T}
    (hi : objs[i]? = some a) (hj : objs[j]? = some w) (hm : m.handle = InvalidHandle) :
    ∃ e1, a.DecRef e = some e1 ∧ CountInvariant T e1 ((objs.set i w).set j m) n := by
  have htr := hinv.2.2.2.2.2.2
  have ha := htr a (mem_of_getElem?_some hi)
  have hw := htr w (mem_of_getElem?_some hj)
  have hjw : (objs.set i w)[j]? = some w := by
    by_cases hij : i = j
    · rw [← hij, List.getElem?_set_self (getElem?_lt_of_some hi)]
    · rw [List.getElem?_set_ne hij]
      exact hj
  obtain ⟨e1, hd, hinv1, _⟩ := CountInvariant.release hinv ha
    ((objs.set i w).set j m)
    (by rw [List.length_set, List.length_set]; exact hinv.2.1)
    (by
      intro o ho
      rcases List.mem_or_eq_of_mem_set ho with h | h
      · rcases List.mem_or_eq_of_mem_set h with h | h
        · exact htr o h
        · rw [h]
          exact hw
      · rw [h]
        exact Or.inl hm)
    (by
      intro u j0 hj0
      have hlt := Nat.lt_trans hj0 hinv.1
      have h1 := holderCount_set objs i a w hi u j0
      have h2 := holderCount_set (objs.set i w) j w m hjw u j0
      rw [if_neg (fun hh : m.uuid = u ∧ m.handle = j0 =>
        Nat.ne_of_lt hlt (hh.2.symm.trans hm))] at h2
      omega)
  exact ⟨e1, hd, hinv1⟩

theorem CountInvariant.destruct_keeps {e : Engine Ty V} {objs : List (Resource T)} {n : Nat}
    (hinv : CountInvariant T e objs n) {k : Nat} {w : Resource T} (hk : objs[k]? = some w) :
    ∃ e1, w.DecRef e = some e1 ∧ CountInvariant T e1 (objs.eraseIdx k) n := by
  have htr := hinv.2.2.2.2.2.2
  obtain ⟨e1, hd, hinv1, _⟩ := CountInvariant.release hinv (htr w (mem_of_getElem?_some hk))
    (objs.eraseIdx k)
    (Nat.le_trans (List.length_eraseIdx_le objs k) hinv.2.1)
    (fun o ho => htr o (List.mem_of_mem_eraseIdx ho))
    (fun u j0 _ => holderCount_eraseIdx objs k w hk u j0)
  exact ⟨e1, hd, hinv1⟩

end InvariantObjects

section InvariantRuns

variable {Ty V A : Type} [DecidableEq Ty] {T : Ty}

theorem stepOp_create_eq {build : A → V} {e e1 : Engine Ty V} {objs : List (Resource T)}
    {args : A} {h : Resource T}
    (hcr : AbstractFactoryImpl.Create e T build args = some (e1, h)) :
    stepOp T build e objs (HandleOp.create args) = some (e1, objs ++ [h]) := by
  simp only [stepOp, hcr, Option.map_some']

theorem stepOp_destroy_eq {build : A → V} {e e1 : Engine Ty V} {objs : List (Resource T)}
    {k : Nat} {h : Resource T} (hk : objs[k]? = some h) (hv : h.IsValid e = some true)
    (hd : AbstractFactoryImpl.Destroy e h = some e1) :
    stepOp T build e objs (HandleOp.destroy k) = some (e1, objs) := by
  simp only [stepOp, hk]
  rw [if_pos hv, hd]
  rfl

theorem stepOp_copyConstruct_eq {build : A → V} {e e1 : Engine Ty V}
    {objs : List (Resource T)} {k : Nat} {w c : Resource T} (hk : objs[k]? = some w)
    (hc : Resource.copyConstruct e w = some (e1, c)) :
    stepOp T build e objs (HandleOp.copyConstruct k) = some (e1, objs ++ [c]) := by
  simp only [stepOp, hk, hc, Option.map_some']

theorem stepOp_moveConstruct_eq {build : A → V} {e : Engine Ty V}
    {objs : List (Resource T)} {k : Nat} {w : Resource T} (hk : objs[k]? = some w) :
    stepOp T build e objs (HandleOp.moveConstruct k) =
      some ((Resource.moveConstruct e w).1,
        objs.set k (Resource.moveConstruct e w).2.2 ++ [(Resource.moveConstruct e w).2.1]) := by
  simp only [stepOp, hk]

theorem stepOp_copyAssign_eq {build : A → V} {e e1 : Engine Ty V}
    {objs : List (Resource T)} {i j : Nat} {a w a1 : Resource T} (hi : objs[i]? = some a)
    (hj : objs[j]? = some w) (hc : Resource.copyAssign e a w = some (e1, a1)) :
    stepOp T build e objs (HandleOp.copyAssign i j) = some (e1, objs.set i a1) := by
  simp only [stepOp, hi, hj, hc, Option.map_some']

theorem stepOp_moveAssign_eq {build : A → V} {e e1 : Engine Ty V}
    {objs : List (Resource T)} {i j : Nat} {a w a1 m : Resource T} (hi : objs[i]? = some a)
    (hj : objs[j]? = some w) (hc : Resource.moveAssign e a w = some (e1, a1, m)) :
    stepOp T build e objs (HandleOp.moveAssign i j) = some (e1, (objs.set i a1).set j m) := by
  simp only [stepOp, hi, hj, hc, Option.map_some']

theorem stepOp_destruct_eq {build : A → V} {e e1 : Engine Ty V}
    {objs : List (Resource T)} {k : Nat} {w : Resource T} (hk : objs[k]? = some w)
    (hd : Resource.destruct e w = some e1) :
    stepOp T build e objs (HandleOp.destruct k) = some (e1, objs.eraseIdx k) := by
  simp only [stepOp, hk, hd, Option.map_some']

/-- Under the invariant every applicable statement runs, and the invariant holds
after it. -/
theorem stepOp_applicable (build : A → V) {e : Engine Ty V} {objs : List (Resource T)}
    {n : Nat} (hinv : CountInvariant T e objs n) (hn1 : n + 1 < InvalidHandle)
    (op : HandleOp A) (hap : op.applicable e objs) :
    ∃ e1 objs1, stepOp T build e objs op = some (e1, objs1) ∧
      CountInvariant T e1 objs1 (n + 1) := by
  cases op with
  | create args =>
    obtain ⟨e1, h, hcr, hi⟩ := hinv.create_keeps hn1 build args
    exact ⟨e1, _, stepOp_create_eq hcr, hi⟩
  | destroy k =>
    obtain ⟨h, hk, hv⟩ := hap
    obtain ⟨e1, hd, hi⟩ := hinv.destroy_keeps (mem_of_getElem?_some hk) hv
    exact ⟨e1, _, stepOp_destroy_eq hk hv hd, hi.mono (Nat.le_succ n) hn1⟩
  | copyConstruct k =>
    have hk : objs[k]? = some (objs.get ⟨k, hap⟩) := List.getElem?_eq_getElem hap
    obtain ⟨e1, hinc, hi⟩ := hinv.copyConstruct_keeps hn1 hk
    exact ⟨e1, _, stepOp_copyConstruct_eq hk (Resource.copyConstruct_of_IncRef hinc), hi⟩
  | moveConstruct k =>
    have hk : objs[k]? = some (objs.get ⟨k, hap⟩) := List.getElem?_eq_getElem hap
    have h1 : (Resource.moveConstruct e (objs.get ⟨k, hap⟩)).1 = e := rfl
    have h2 : (Resource.moveConstruct e (objs.get ⟨k, hap⟩)).2.1 = objs.get ⟨k, hap⟩ :=
      Resource.eta _
    have h3 : (Resource.moveConstruct e (objs.get ⟨k, hap⟩)).2.2.handle = InvalidHandle := rfl
    refine ⟨_, _, stepOp_moveConstruct_eq hk, ?_⟩
    rw [h1, h2]
    exact hinv.moveConstruct_keeps hn1 hk h3
  | copyAssign i j =>
    have hi : objs[i]? = some (objs.get ⟨i, hap.1⟩) := List.getElem?_eq_getElem hap.1
    have hj : objs[j]? = some (objs.get ⟨j, hap.2⟩) := List.getElem?_eq_getElem hap.2
    obtain ⟨e1, e2, hd, hinc, hi2⟩ := hinv.copyAssign_keeps hi hj
    exact ⟨e2, _, stepOp_copyAssign_eq hi hj (Resource.copyAssign_of_steps hd hinc),
      hi2.mono (Nat.le_succ n) hn1⟩
  | moveAssign i j =>
    have hi : objs[i]? = some (objs.get ⟨i, hap.1⟩) := List.getElem?_eq_getElem hap.1
    have hj : objs[j]? = some (objs.get ⟨j, hap.2⟩) := List.getElem?_eq_getElem hap.2
    obtain ⟨e1, hd, hi2⟩ := hinv.moveAssign_keeps hi hj (Resource.moved_handle (objs.get ⟨j, hap.2⟩))
    exact ⟨e1, _, stepOp_moveAssign_eq hi hj (Resource.moveAssign_of_DecRef _ hd),
      hi2.mono (Nat.le_succ n) hn1⟩
  | destruct k =>
    have hk : objs[k]? = some (objs.get ⟨k, hap⟩) := List.getElem?_eq_getElem hap
    obtain ⟨e1, hd, hi⟩ := hinv.destruct_keeps hk
    exact ⟨e1, _, stepOp_destruct_eq hk hd, hi.mono (Nat.le_succ n) hn1⟩

/-- A statement that runs is applicable. -/
theorem stepOp_some_applicable (build : A → V) {e : Engine Ty V} {objs : List (Resource T)}
    (op : HandleOp A) {s : Engine Ty V × List (Resource T)}
    (h : stepOp T build e objs op = some s) : op.applicable e objs := by
  cases op with
  | create args => exact True.intro
  | destroy k =>
    cases hk : objs[k]? with
    | none => simp [stepOp, hk] at h
    | some w =>
      by_cases hv : w.IsValid e = some true
      · exact ⟨w, hk, hv⟩
      · simp [stepOp, hk, hv] at h
  | copyConstruct k =>
    cases hk : objs[k]? with
    | none => simp [stepOp, hk] at h
    | some w => exact getElem?_lt_of_some hk
  | moveConstruct k =>
    cases hk : objs[k]? with
    | none => simp [stepOp, hk] at h
    | some w => exact getElem?_lt_of_some hk
  | copyAssign i j =>
    cases hi : objs[i]? with
    | none => simp [stepOp, hi] at h
    | some a =>
      cases hj : objs[j]? with
      | none => simp [stepOp, hi, hj] at h
      | some w => exact ⟨getElem?_lt_of_some hi, getElem?_lt_of_some hj⟩
  | moveAssign i j =>
    cases hi : objs[i]? with
    | none => simp [stepOp, hi] at h
    | some a =>
      cases hj : objs[j]? with
      | none => simp [stepOp, hi, hj] at h
      | some w => exact ⟨getElem?_lt_of_some hi, getElem?_lt_of_some hj⟩
  | destruct k =>
    cases hk : objs[k]? with
    | none => simp [stepOp, hk] at h
    | some w => exact getElem?_lt_of_some hk

theorem stepOp_invariant (build : A → V) {e e1 : Engine Ty V} {objs objs1 : List (Resource T)}
    {n : Nat} (hinv : CountInvariant T e objs n) (hn1 : n + 1 < InvalidHandle)
    (op : HandleOp A) (h : stepOp T build e objs op = some (e1, objs1)) :
    CountInvariant T e1 objs1 (n + 1) := by
  obtain ⟨e2, objs2, h2, hi⟩ := stepOp_applicable build hinv hn1 op (stepOp_some_applicable build op h)
  rw [h2] at h
  have := Option.some.inj h
  rw [← (Prod.mk.inj this).1, ← (Prod.mk.inj this).2]
  exact hi

theorem runOps_invariant (build : A → V) :
    ∀ (ops : List (HandleOp A)) {e e1 : Engine Ty V} {objs objs1 : List (Resource T)} {n : Nat},
      CountInvariant T e objs n → n + ops.length < InvalidHandle →
      runOps T build e objs ops = some (e1, objs1) →
      CountInvariant T e1 objs1 (n + ops.length)
  | [], e, e1, objs, objs1, n, hinv, _, h => by
    simp only [runOps, Option.some.injEq, Prod.mk.injEq] at h
    rw [← h.1, ← h.2]
    exact hinv
  | op :: rest, e, e1, objs, objs1, n, hinv, hn, h => by
    rw [List.length_cons] at hn
    cases hs : stepOp T build e objs op with
    | none => simp [runOps, hs] at h
    | some s =>
      obtain ⟨e2, objs2⟩ := s
      simp only [runOps, hs] at h
      have hi := stepOp_invariant build hinv (by omega) op hs
      have := runOps_invariant build rest hi (by omega) h
      rw [List.length_cons]
      have heq : n + (rest.length + 1) = n + 1 + rest.length := by omega
      rw [heq]
      exact this

theorem CountInvariant.start {e : Engine Ty V}
    (h : AbstractFactoryImpl.Get e T = some ⟨[]⟩) : CountInvariant T e ([] : List (Resource T)) 0 := by
  have hs : ∀ j, slotAt e T j = none := by
    intro j
    rw [slotAt_of_Get h]
    rfl
  refine ⟨by decide, Nat.le_refl _, ⟨_, h⟩, ?_, ?_, ?_, ?_⟩
  · intro j c hc
    rw [hs j] at hc
    exact Option.noConfusion hc
  · intro j c hc
    rw [hs j] at hc
    exact Option.noConfusion hc
  · intro j c hc
    rw [hs j] at hc
    exact Option.noConfusion hc
  · intro o ho
    exact absurd ho (List.not_mem_nil o)

end InvariantRuns

section Claims17

variable {Ty V A : Type} [DecidableEq Ty]

/-- C21: in every state reached from an engine whose pool of `T` is empty (as
after `Init`) by a run of fewer than `InvalidHandle - 1` statements, each a
`Create<T>`, a `Destroy` on a valid existing handle object, a copy or move
construction from an existing object, a copy or move assignment between
existing objects (also of an object to itself) or the destruction of an object:
the reference count of every live cell of the pool equals the number of
existing handle objects whose (token, index) is that of the cell.  Every
decrement of these statements is `DecRef` through an existing object in such a
state: it is defined, and when the object is valid, so that the decrement takes
place, the cell is live with a count above 0 and `refCount--` gives the count
minus one without wrapping.  Every statement that names existing objects (and
a valid one for `Destroy`) runs in such a state. -/
theorem refCount_counts_handle_objects (build : A → V) (T : Ty) (e0 : Engine Ty V)
    (hinit : AbstractFactoryImpl.Get e0 T = some ⟨[]⟩) (ops : List (HandleOp A))
    (hlen : ops.length + 1 < InvalidHandle) (e : Engine Ty V) (objs : List (Resource T))
    (hrun : runOps T build e0 [] ops = some (e, objs)) :
    (∀ j c, slotAt e T j = some c → c.allocated = true →
      c.storage.refCount = holderCount objs c.storage.uuid j) ∧
    (∀ o ∈ objs, ∃ e1, o.DecRef e = some e1) ∧
    (∀ o ∈ objs, o.IsValid e = some true →
      ∃ c, slotAt e T o.handle = some c ∧ c.allocated = true ∧ c.storage.uuid = o.uuid ∧
        0 < c.storage.refCount ∧ sizeDec c.storage.refCount = c.storage.refCount - 1) ∧
    (∀ op : HandleOp A, op.applicable e objs → ∃ s, stepOp T build e objs op = some s) := by
  have hinv : CountInvariant T e objs (0 + ops.length) :=
    runOps_invariant build ops (CountInvariant.start hinit) (by omega) hrun
  rw [Nat.zero_add] at hinv
  have hinv0 := hinv
  obtain ⟨hn, hlen0, _, _, _, hcnt, htr⟩ := hinv
  refine ⟨hcnt, ?_, ?_, ?_⟩
  · intro o ho
    rcases CountInvariant.valid_live hinv0 (htr o ho) with ⟨hv, _⟩ | ⟨hv, c, hc, _, _⟩
    · exact ⟨e, Resource.DecRef_invalid hv⟩
    · obtain ⟨e1, hw⟩ := Resource.writeRefCount_isSome hc sizeDec
      exact ⟨e1, by rw [Resource.DecRef_valid hv]; exact hw⟩
  · intro o ho hv
    rcases CountInvariant.valid_live hinv0 (htr o ho) with ⟨hv0, _⟩ | ⟨_, c, hc, hal, hu⟩
    · rw [hv] at hv0
      exact absurd (Option.some.inj hv0) (by decide)
    · have hcount := hcnt _ c hc hal
      have hpos : 0 < holderCount objs c.storage.uuid o.handle := by
        unfold holderCount
        rw [List.countP_pos_iff]
        exact ⟨o, ho, decide_eq_true ⟨hu.symm, rfl⟩⟩
      have hle := holderCount_le_length objs c.storage.uuid o.handle
      have h0 : 0 < c.storage.refCount := by omega
      refine ⟨c, hc, hal, hu, h0, ?_⟩
      exact sizeDec_of_pos h0 (by unfold SIZE_MODULUS; unfold InvalidHandle at hn; omega)
  · intro op hap
    obtain ⟨e1, objs1, h, _⟩ := stepOp_applicable build hinv0 hlen op hap
    exact ⟨_, h⟩

/-- C21 on a run from `sampleEngine`: `a = Create(10)`, `b(a)`, `c = Create(20)`,
`a = std::move(c)`, `~c`, `b = a`.  Two objects are left, both `(2, 1)`; cell 1
has count 2 and cell 0, which no object names, has count 0. -/
theorem refCount_counts_handle_objects_witness :
    runOps SampleType.Mesh id sampleEngine []
        [HandleOp.create 10, HandleOp.copyConstruct 0, HandleOp.create 20,
          HandleOp.moveAssign 0 2, HandleOp.destruct 2, HandleOp.copyAssign 1 0] =
      some (⟨[FactoryImpl.node SampleType.Mesh
            ⟨[⟨true, ⟨1, 10, 0⟩⟩, ⟨true, ⟨2, 20, 2⟩⟩]⟩
            (FactoryImpl.last SampleType.Texture ⟨[]⟩)], some 0, ⟨2⟩⟩,
        [⟨2, 1⟩, ⟨2, 1⟩]) ∧
    ∀ j c,
      slotAt (⟨[FactoryImpl.node SampleType.Mesh
            ⟨[⟨true, ⟨1, 10, 0⟩⟩, ⟨true, ⟨2, 20, 2⟩⟩]⟩
            (FactoryImpl.last SampleType.Texture ⟨[]⟩)], some 0, ⟨2⟩⟩ :
          Engine SampleType Nat) SampleType.Mesh j = some c →
      c.allocated = true →
      c.storage.refCount =
        holderCount ([⟨2, 1⟩, ⟨2, 1⟩] : List (Resource SampleType.Mesh)) c.storage.uuid j :=
  ⟨by decide,
    (refCount_counts_handle_objects id SampleType.Mesh sampleEngine (by decide)
      [HandleOp.create 10, HandleOp.copyConstruct 0, HandleOp.create 20,
        HandleOp.moveAssign 0 2, HandleOp.destruct 2, HandleOp.copyAssign 1 0]
      (by decide) _ _ (by decide)).1⟩

end Claims17

end MxEngine
